import Mathlib

/-!
The city.fun relayer: worker pool, reward persistence and relayer service.

A shallow embedding of `relayer/pkg/workerpool` (the pool's lifecycle and its
worker, closer and caller goroutines as an interleaving step function), of
the reward use case (`relayer/internal/usecase/create_reward.go`, the entity
in `relayer/internal/domain/entity/reward.go` and the MongoDB repository) and
of the service in `relayer/internal/infra/service/relayer/relayer.go` (the
processing function, the acknowledgment and settlement stages, `Stop`), of
the parsing functions of `relayer/configs/config.go` and
`relayer/pkg/ethutil/utils.go`, and of the simulator's sensor entity,
sampling and data emission, followed by the properties proved about them.

Layout: the definitions of the worker pool, the definitions of the reward
code (with the pieces of `math/big`, `go-ethereum/common` and Keccak-256 it
calls), the definitions of the service (with the Kafka consumer and the chain
client it calls), the definitions of the parsing functions (with the pieces
of `strings` and `encoding/hex` they call) and of the simulator, then the
theorems in the same order. Goroutines are modelled by program counters; a
schedule is a list of `Action`s and `run` executes it. Go strings are byte
lists.
-/

set_option autoImplicit false

namespace workerpool

/-! ## Data model of `workerpool.go` -/

/-- Pool lifecycle state, the constants of `workerpool.go` in `iota` order. -/
inductive State
  | StateIdle
  | StateRunning
  | StateStopping
  deriving DecidableEq, Repr

/-- The two sentinel errors of `errors.go`. -/
inductive PoolError
  | ErrWorkerPoolAlreadyRunning
  | ErrWorkerPoolNotRunning
  deriving DecidableEq, Repr

/-- What one call of the task function does: it returns a `Result` or it
panics. (Go has no other way out of a call that terminates.) -/
inductive Outcome (R : Type)
  | returned (result : R)
  | panicked
  deriving DecidableEq, Repr

/-- The `ProcessFunc` type, `func(ctx, job) Result`. The `Bool` argument is what
the function can see of `ctx`: whether it is already done at the call. -/
abbrev ProcessFunc (J R : Type) := Bool → J → Outcome R

/-- The `Config` struct; the logger has no effect on the pool's behaviour. -/
structure Config where
  WorkerCount : Int
  deriving DecidableEq, Repr

/-- Where a `worker` goroutine stands: at the outer `select` (line 144), at the
inner `select` holding a computed result (line 158), or returned. -/
inductive WorkerPC (R : Type)
  | selecting
  | sending (result : R)
  | exited
  deriving DecidableEq, Repr

/-- One `worker` goroutine: its `id` argument, the result channel it was
given, and its position. -/
structure Worker (R : Type) where
  id : Nat
  resultCh : Nat
  pc : WorkerPC R
  deriving DecidableEq, Repr

/-- Where the anonymous goroutine of `Start` (lines 106-112) stands: in
`stopWg.Wait()`, past it, past `close(resultCh)`, or done. -/
inductive CloserPC
  | waiting
  | woken
  | closedCh
  | finished
  deriving DecidableEq, Repr

/-- The anonymous goroutine of `Start` with the result channel it closes. -/
structure Closer where
  resultCh : Nat
  pc : CloserPC
  deriving DecidableEq, Repr

/-- The fields of the `workerPool` struct. Channels are identified by
numbers; `stopWg` is the wait-group counter; `stateMutex` is `true` while a
caller holds the mutex across a blocking operation (only `Stop` does). -/
structure workerPool (J R : Type) where
  processFunc : ProcessFunc J R
  workerCount : Int
  stopCh : Nat
  stopWg : Int
  state : State
  stateMutex : Bool

/-- A pool together with everything it runs in: the channels made so far and
which of them are closed, the goroutines the pool has spawned, the input
channel and context its callers pass to `Start`, whether the process has died
of an unrecovered panic, and four history lists that only record what
happened (jobs sent on the input channel, jobs received by workers with the
channel of the receiving worker and the context flag at the call, results
received from result channels, results abandoned at the inner `select`).
`watch i` is local to the worker at position `i` of `workers`: Go evaluates
the channel operands of a `select` once, on entering it, and `watch i` is the
value of `wp.stopCh` the worker read when it entered the `select` it stands
at, `none` while it has not entered it yet. -/
structure World (J R : Type) where
  pool : workerPool J R
  nextChan : Nat
  closedChans : List Nat
  workers : List (Worker R)
  closers : List Closer
  inputBuf : List J
  inputClosed : Bool
  ctxDone : Bool
  crashed : Bool
  sent : List J
  taken : List (Nat × Bool × J)
  delivered : List (Nat × R)
  dropped : List (Nat × R)
  watch : Nat → Option Nat

variable {J R : Type}

/-! ## The pool's operations -/

/-- `New`: a non-positive `WorkerCount` becomes 1; the pool starts `StateIdle`
with a fresh stop channel (channel 0). -/
def New (processFunc : ProcessFunc J R) (config : Config) : workerPool J R :=
  let config : Config :=
    if config.WorkerCount ≤ 0 then { config with WorkerCount := 1 } else config
  { processFunc := processFunc
    workerCount := config.WorkerCount
    stopCh := 0
    stopWg := 0
    state := State.StateIdle
    stateMutex := false }

/-- The world right after `New`: only the pool's first stop channel exists,
nothing is spawned, the input channel is open and empty. -/
def World.fresh (processFunc : ProcessFunc J R) (config : Config) : World J R :=
  { pool := New processFunc config
    nextChan := 1
    closedChans := []
    workers := []
    closers := []
    inputBuf := []
    inputClosed := false
    ctxDone := false
    crashed := false
    sent := []
    taken := []
    delivered := []
    dropped := []
    watch := fun _ => none }

/-- Whether channel `c` has been closed. -/
def World.isClosed (w : World J R) (c : Nat) : Bool :=
  w.closedChans.contains c

/-- `IsRunning`: `wp.state == StateRunning`. -/
def IsRunning (w : World J R) : Bool :=
  decide (w.pool.state = State.StateRunning)

/-- The workers `Start` spawns, `go wp.worker(ctx, i, inputCh, resultCh)` for
`i` from 0 while `i < workerCount`. -/
def spawnWorkers (workerCount : Int) (resultCh : Nat) : List (Worker R) :=
  (List.range workerCount.toNat).map
    (fun i => { id := i, resultCh := resultCh, pc := WorkerPC.selecting })

/-- `Start`, run with the mutex held. Returns the result channel (`none` for
nil) and the error (`none` for nil). `stopWg.Add` panics when the counter
would become negative. -/
def Start (w : World J R) : (Option Nat × Option PoolError) × World J R :=
  if w.pool.state ≠ State.StateIdle then
    ((none, some PoolError.ErrWorkerPoolAlreadyRunning), w)
  else
    let resultCh := w.nextChan
    let stopCh := w.nextChan + 1
    if w.pool.stopWg + w.pool.workerCount < 0 then
      ((none, none),
       { w with
          pool := { w.pool with state := State.StateRunning, stopCh := stopCh }
          nextChan := w.nextChan + 2
          crashed := true })
    else
      ((some resultCh, none),
       { w with
          pool := { w.pool with
                      state := State.StateRunning
                      stopCh := stopCh
                      stopWg := w.pool.stopWg + w.pool.workerCount }
          nextChan := w.nextChan + 2
          workers := w.workers ++ spawnWorkers w.pool.workerCount resultCh
          closers := w.closers ++ [{ resultCh := resultCh, pc := CloserPC.waiting }] })

/-- `Stop` from its entry to `wp.stopWg.Wait()`, run with the mutex held:
`some err` when it has returned `err` at once, `none` when it now waits in
`Wait`, still holding the mutex. Closing a closed channel panics. -/
def StopEnter (w : World J R) : Option PoolError × World J R :=
  if w.pool.state ≠ State.StateRunning then
    (some PoolError.ErrWorkerPoolNotRunning, w)
  else
    (none,
     { w with
        pool := { w.pool with state := State.StateStopping, stateMutex := true }
        closedChans := w.pool.stopCh :: w.closedChans
        crashed := w.crashed || w.isClosed w.pool.stopCh })

/-- `Stop` from the return of `wp.stopWg.Wait()` to its own return (of nil):
the state becomes `StateIdle` and the deferred `Unlock` runs. -/
def StopReturn (w : World J R) : World J R :=
  { w with pool := { w.pool with state := State.StateIdle, stateMutex := false } }

/-- The deferred `wp.stopWg.Done()` of a worker; a negative counter panics. -/
def wgDone (w : World J R) : World J R :=
  { w with
      pool := { w.pool with stopWg := w.pool.stopWg - 1 }
      crashed := w.crashed || decide (w.pool.stopWg - 1 < 0) }

/-- Worker `i` moves to position `pc`: it has left the `select` it stood at,
and it has not entered the next one. -/
def setWorkerPC (w : World J R) (i : Nat) (pc : WorkerPC R) : World J R :=
  { w with workers := w.workers.modify (fun wk => { wk with pc := pc }) i
           watch := Function.update w.watch i none }

/-- The stop channel the `<-wp.stopCh` case of worker `i` waits on: the one
the worker read on entering its `select`, or, while it has not entered it, the
one it reads if it enters now. -/
def World.watched (w : World J R) (i : Nat) : Nat :=
  (w.watch i).getD w.pool.stopCh

/-- A worker that has not returned enters the `select` it stands at (line 144
or line 158): the channel operands are evaluated, so the worker reads
`wp.stopCh` and from now on waits on that channel. -/
def workerEnter (w : World J R) (i : Nat) (wk : Worker R) : Option (World J R) :=
  match wk.pc, w.watch i with
  | WorkerPC.exited, _ => none
  | _, some _ => none
  | _, none => some { w with watch := Function.update w.watch i (some w.pool.stopCh) }

/-- A worker leaves either `select` through a case that returns (`<-wp.stopCh`
or `<-ctx.Done()`): a result it was holding is abandoned, the deferred `Done`
runs. -/
def workerQuit (w : World J R) (i : Nat) (wk : Worker R) : Option (World J R) :=
  match wk.pc with
  | WorkerPC.selecting => some (wgDone (setWorkerPC w i WorkerPC.exited))
  | WorkerPC.sending r =>
      some (wgDone (setWorkerPC { w with dropped := w.dropped ++ [(wk.resultCh, r)] } i
        WorkerPC.exited))
  | WorkerPC.exited => none

/-- The case `job, ok := <-inputCh` of the outer `select` and the call of
`processFunc` on the job. A closed and drained channel gives `ok = false` and
the worker returns. A panic of `processFunc` is not recovered anywhere: the
deferred `Done` runs and the process dies. -/
def workerRecv (w : World J R) (i : Nat) (wk : Worker R) : Option (World J R) :=
  match wk.pc with
  | WorkerPC.selecting =>
      match w.inputBuf with
      | job :: rest =>
          let w1 := { w with inputBuf := rest
                             taken := w.taken ++ [(wk.resultCh, w.ctxDone, job)] }
          match w.pool.processFunc w.ctxDone job with
          | Outcome.returned result => some (setWorkerPC w1 i (WorkerPC.sending result))
          | Outcome.panicked =>
              some { wgDone (setWorkerPC w1 i WorkerPC.exited) with crashed := true }
      | [] =>
          if w.inputClosed then some (wgDone (setWorkerPC w i WorkerPC.exited)) else none
  | _ => none

/-- The case `resultCh <- result` of the inner `select`, taken together with
the consumer's receive (the channel is unbuffered). Sending on a closed
channel panics, and the result is lost with the worker. -/
def workerSend (w : World J R) (i : Nat) (wk : Worker R) : Option (World J R) :=
  match wk.pc with
  | WorkerPC.sending r =>
      if w.isClosed wk.resultCh then
        some { wgDone (setWorkerPC { w with dropped := w.dropped ++ [(wk.resultCh, r)] } i
                WorkerPC.exited) with crashed := true }
      else
        some (setWorkerPC { w with delivered := w.delivered ++ [(wk.resultCh, r)] } i
          WorkerPC.selecting)
  | _ => none

/-- Closer `k` moves to position `pc`. -/
def setCloserPC (w : World J R) (k : Nat) (pc : CloserPC) : World J R :=
  { w with closers := w.closers.modify (fun c => { c with pc := pc }) k }

/-- The steps the system can take: calls of `Start` and `Stop` by the pool's
owner, sends on and close of the input channel, cancellation of the context,
the entry of a worker into a `select` and its four cases, and the three
statements of the anonymous goroutine of `Start`. -/
inductive Action (J : Type)
  | start
  | stopEnter
  | stopReturn
  | send (job : J)
  | closeInput
  | cancel
  | workerStop (i : Nat)
  | workerCtx (i : Nat)
  | workerRecv (i : Nat)
  | workerSend (i : Nat)
  | workerEnter (i : Nat)
  | closerWait (k : Nat)
  | closerClose (k : Nat)
  | closerIdle (k : Nat)
  deriving DecidableEq, Repr

/-- One step; `none` when the action cannot happen in `w` (a blocked
goroutine, a missing goroutine, a dead process). `Wait` returns when the
counter is zero; `Lock` succeeds when no `Stop` holds the mutex. A worker
reads the field `wp.stopCh` when it enters a `select` (`workerEnter`) and
its stop case is ready when the channel it read then is closed, whatever
`wp.stopCh` has become since; a case taken by a worker that has not entered
yet stands for the entry followed at once by the case. Which ready case a
`select` takes is the scheduler's choice: each case is an action of its own. -/
def step (w : World J R) (a : Action J) : Option (World J R) :=
  if w.crashed then none
  else
    match a with
    | Action.start => if w.pool.stateMutex then none else some (Start w).2
    | Action.stopEnter => if w.pool.stateMutex then none else some (StopEnter w).2
    | Action.stopReturn =>
        if w.pool.stateMutex && decide (w.pool.stopWg = 0) then some (StopReturn w) else none
    | Action.send job =>
        if w.inputClosed then none
        else some { w with inputBuf := w.inputBuf ++ [job], sent := w.sent ++ [job] }
    | Action.closeInput =>
        if w.inputClosed then none else some { w with inputClosed := true }
    | Action.cancel => some { w with ctxDone := true }
    | Action.workerStop i =>
        match w.workers[i]? with
        | some wk => if w.isClosed (w.watched i) then workerQuit w i wk else none
        | none => none
    | Action.workerCtx i =>
        match w.workers[i]? with
        | some wk => if w.ctxDone then workerQuit w i wk else none
        | none => none
    | Action.workerRecv i =>
        match w.workers[i]? with
        | some wk => workerRecv w i wk
        | none => none
    | Action.workerSend i =>
        match w.workers[i]? with
        | some wk => workerSend w i wk
        | none => none
    | Action.workerEnter i =>
        match w.workers[i]? with
        | some wk => workerEnter w i wk
        | none => none
    | Action.closerWait k =>
        match w.closers[k]? with
        | some c =>
            if c.pc = CloserPC.waiting ∧ w.pool.stopWg = 0 then
              some (setCloserPC w k CloserPC.woken)
            else none
        | none => none
    | Action.closerClose k =>
        match w.closers[k]? with
        | some c =>
            if c.pc = CloserPC.woken then
              some { setCloserPC w k CloserPC.closedCh with
                      closedChans := c.resultCh :: w.closedChans
                      crashed := w.isClosed c.resultCh }
            else none
        | none => none
    | Action.closerIdle k =>
        match w.closers[k]? with
        | some c =>
            if c.pc = CloserPC.closedCh ∧ w.pool.stateMutex = false then
              some { setCloserPC w k CloserPC.finished with
                      pool := { w.pool with state := State.StateIdle } }
            else none
        | none => none

/-- Run a schedule: the actions in order; `none` when one of them cannot
happen. -/
def run (w : World J R) : List (Action J) → Option (World J R)
  | [] => some w
  | a :: rest => (step w a).bind (fun w1 => run w1 rest)

/-- A whole call of `Stop`, with `sched` what the other goroutines do while it
waits in `Wait`: `none` when the call has not returned by the end of `sched`
(the counter is not zero, or `sched` could not run). -/
def Stop (w : World J R) (sched : List (Action J)) : Option (Option PoolError × World J R) :=
  match StopEnter w with
  | (some err, w1) => some (some err, w1)
  | (none, w1) =>
      (run w1 sched).bind (fun w2 =>
        if w2.crashed = false ∧ w2.pool.stopWg = 0 then some (none, StopReturn w2) else none)

/-- The values received so far from result channel `c`, in order. -/
def World.received (w : World J R) (c : Nat) : List R :=
  (w.delivered.filter (fun p => p.1 == c)).map Prod.snd

/-- Whether a worker has not returned yet. -/
def Worker.isLive (wk : Worker R) : Bool :=
  match wk.pc with
  | WorkerPC.exited => false
  | _ => true

/-- The workers that have not returned. -/
def World.live (w : World J R) : List (Worker R) :=
  w.workers.filter Worker.isLive

/-- The result a worker holds while it stands at the inner `select`. -/
def Worker.holding (wk : Worker R) : Option (Nat × R) :=
  match wk.pc with
  | WorkerPC.sending r => some (wk.resultCh, r)
  | _ => none

/-- The results computed and not yet sent, with their channels. -/
def World.held (w : World J R) : List (Nat × R) :=
  w.workers.filterMap Worker.holding

/-- What the task function returned for the jobs received so far, each with
the result channel of the worker that received the job. -/
def World.produced (w : World J R) : List (Nat × R) :=
  w.taken.filterMap (fun t =>
    match w.pool.processFunc t.2.1 t.2.2 with
    | Outcome.returned r => some (t.1, r)
    | Outcome.panicked => none)

/-- A task function in the style of `workerpool_test.go` on numbered jobs: it
returns a result derived from the job and never panics. -/
def testProcessFunc : ProcessFunc Nat Nat :=
  fun _ job => Outcome.returned (job + 100)

/-- A task function that panics on job 7 and otherwise behaves like
`testProcessFunc` (in Go: a failed type assertion, a nil dereference). -/
def panickingProcessFunc : ProcessFunc Nat Nat :=
  fun _ job => if job = 7 then Outcome.panicked else Outcome.returned (job + 100)

/-- A started one-worker pool with job 5 waiting in the input channel. -/
def startedWithJob : World Nat Nat :=
  { (Start (World.fresh testProcessFunc ⟨1⟩)).2 with inputBuf := [5], sent := [5] }

/-! ## Invariants of the pool -/

/-- Bookkeeping facts that hold in every world the pool can reach. -/
structure Inv (w : World J R) : Prop where
  count_pos : 1 ≤ w.pool.workerCount
  wg_live : w.pool.stopWg = (w.workers.countP Worker.isLive : Nat)
  closed_lt : ∀ c ∈ w.closedChans, c < w.nextChan
  stop_lt : w.pool.stopCh < w.nextChan
  closer_lt : ∀ k ∈ w.closers, k.resultCh < w.pool.stopCh
  running_open : w.pool.state = State.StateRunning → w.isClosed w.pool.stopCh = false
  mutex_stopping : w.pool.stateMutex = true → w.pool.state = State.StateStopping

/-- Accounting of jobs and results: the jobs sent are the jobs received, in
order, followed by those still in the channel; and every returned result is
delivered, abandoned or still held, exactly once. -/
structure Acc (w : World J R) : Prop where
  fifo : w.sent = w.taken.map (fun t => t.2.2) ++ w.inputBuf
  results : ((w.delivered : Multiset (Nat × R)) + (w.dropped : Multiset (Nat × R))
      + (w.held : Multiset (Nat × R))) = (w.produced : Multiset (Nat × R))

/-- Channel numbering. `New` makes stop channel 0 and `Start` makes the result
channel and then the stop channel, so result channels have odd numbers and
stop channels even ones; what a worker watches is a stop channel. -/
structure Chans (w : World J R) : Prop where
  next_odd : w.nextChan % 2 = 1
  stop_even : w.pool.stopCh % 2 = 0
  closer_odd : ∀ k ∈ w.closers, k.resultCh % 2 = 1
  watch_even : ∀ i c, w.watch i = some c → c % 2 = 0

/-- No stop channel has been closed: every closed channel is a result
channel. -/
structure Unstopped (w : World J R) : Prop where
  closed_odd : ∀ c ∈ w.closedChans, c % 2 = 1

/-- Worker `i` stands at its outer `select` and waits on stop channel `c`,
which is open, while a call of `Stop` holds the mutex in `Wait` and nothing
comes from outside: the input channel is open and empty, the context is
live. -/
structure Stale (i c : Nat) (w : World J R) : Prop where
  mutex : w.pool.stateMutex = true
  worker : ∃ wk, w.workers[i]? = some wk ∧ wk.pc = WorkerPC.selecting
  watch : w.watch i = some c
  chan_open : w.isClosed c = false
  buf : w.inputBuf = []
  input_open : w.inputClosed = false
  ctx : w.ctxDone = false

/-- Facts about a run in which `Stop` has not been called and the context has
not been cancelled: no worker has left through a stop or cancellation case, so
a worker that has returned found the input channel closed and drained. -/
structure Quiet (w : World J R) : Prop where
  ctx : w.ctxDone = false
  stop_open : w.isClosed w.pool.stopCh = false
  no_drop : w.crashed = false → w.dropped = []
  flags : ∀ t ∈ w.taken, t.2.1 = false
  drained : w.crashed = false → (∃ wk ∈ w.workers, wk.pc = WorkerPC.exited) →
    w.inputClosed = true ∧ w.inputBuf = []

/-- An action other than a call of `Stop` and a cancellation of the context. -/
def Action.quiet (a : Action J) : Prop := a ≠ Action.stopEnter ∧ a ≠ Action.cancel

/-- An action of the pool's owner or of the pool's goroutines: not a send on
the input channel, not its close, not a cancellation of the context. -/
def Action.internal (a : Action J) : Prop :=
  (∀ job, a ≠ Action.send job) ∧ a ≠ Action.closeInput ∧ a ≠ Action.cancel

/-- Every worker, every received job and every delivered result belongs to
result channel `c`, and there is at least one worker. -/
structure Single (c : Nat) (w : World J R) : Prop where
  workers_ne : w.workers ≠ []
  worker_ch : ∀ wk ∈ w.workers, wk.resultCh = c
  taken_ch : ∀ t ∈ w.taken, t.1 = c
  delivered_ch : ∀ d ∈ w.delivered, d.1 = c

/-- The pool has never been started. -/
structure Unstarted (w : World J R) : Prop where
  idle : w.pool.state = State.StateIdle
  no_workers : w.workers = []
  no_closers : w.closers = []
  next : w.nextChan = 1
  no_taken : w.taken = []
  no_delivered : w.delivered = []

end workerpool

/-! ## Go values used by the reward code -/

/-- A Go `string`: a sequence of bytes. -/
abbrev GoString := List Nat

/-- The bytes of an ASCII string literal. -/
def str (s : String) : GoString := s.toList.map Char.toNat

/-- A `float64` coordinate as decoded from JSON: a finite number. The code
stores coordinates and the store compares them for equality; nothing else is
done with them. -/
abbrev Float64 := Rat

/-- A `time.Time` as an instant; 0 is the zero time (`IsZero`). -/
abbrev Time := Nat

/-- A `primitive.ObjectID`; 0 is the zero value (`primitive.NilObjectID`). -/
abbrev ObjectID := Nat

/-- The errors the reward code returns or passes on: the sentinels of
`entity/reward.go`, `errors.New("invalid amount")`, an error of the MongoDB
driver, and `fmt.Errorf(msg + ": %w", err)` (`wrappedNil` when `err` is
nil). -/
inductive Err
  | ErrRewardNotFound
  | ErrInvalidReward
  | invalidAmount
  | driver
  | wrapped (msg : String) (err : Err)
  | wrappedNil (msg : String)
  deriving DecidableEq, Repr

namespace big

/-- The digits of `(*Int).SetString(s, 10)` after the sign: every byte must be
an ASCII digit. -/
def scanDigits : Nat → GoString → Option Nat
  | acc, [] => some acc
  | acc, c :: cs => if 48 ≤ c ∧ c ≤ 57 then scanDigits (10 * acc + (c - 48)) cs else none

/-- The unsigned part of `SetString`: at least one digit, nothing else. -/
def scanNat (s : GoString) : Option Nat :=
  if s = [] then none else scanDigits 0 s

/-- `new(big.Int).SetString(s, 10)`: an optional `+` or `-`, then decimal
digits to the end of the string; `none` is `ok = false`. -/
def SetString (s : GoString) : Option Int :=
  match s with
  | 43 :: rest => (scanNat rest).map (fun n => (n : Int))
  | 45 :: rest => (scanNat rest).map (fun n => -(n : Int))
  | _ => (scanNat s).map (fun n => (n : Int))

/-- Decimal digits of a natural number, most significant first; `fuel` bounds
the number of digits. -/
def natDigits : Nat → Nat → GoString → GoString
  | 0, _, acc => acc
  | fuel + 1, n, acc =>
      if n / 10 = 0 then (48 + n % 10) :: acc
      else natDigits fuel (n / 10) ((48 + n % 10) :: acc)

/-- `(*Int).String()`: the canonical decimal form, `-` for a negative
number. -/
def String (x : Int) : GoString :=
  if x < 0 then 45 :: natDigits (x.natAbs + 1) x.natAbs []
  else natDigits (x.toNat + 1) x.toNat []

/-- `(*Int).Sign()`. -/
def Sign (x : Int) : Int := if x < 0 then -1 else if x = 0 then 0 else 1

end big


/-! ## Keccak-256 (`golang.org/x/crypto/sha3`, used by `Address.Hex`) -/

namespace sha3

/-- Rotate a 64-bit lane left by `n` bits. -/
def rotl64 (x n : Nat) : Nat :=
  ((x <<< (n % 64)) ||| (x >>> (64 - n % 64))) % 2 ^ 64

/-- The 24 round constants of Keccak-f[1600]. -/
def roundConstants : List Nat :=
  [0x0000000000000001, 0x0000000000008082, 0x800000000000808A, 0x8000000080008000,
   0x000000000000808B, 0x0000000080000001, 0x8000000080008081, 0x8000000000008009,
   0x000000000000008A, 0x0000000000000088, 0x0000000080008009, 0x000000008000000A,
   0x000000008000808B, 0x800000000000008B, 0x8000000000008089, 0x8000000000008003,
   0x8000000000008002, 0x8000000000000080, 0x000000000000800A, 0x800000008000000A,
   0x8000000080008081, 0x8000000000008080, 0x0000000080000001, 0x8000000080008008]

/-- The rotation offsets of the rho step, for lane `x + 5 * y`. -/
def rotationOffsets : List Nat :=
  [0, 1, 62, 28, 27,
   36, 44, 6, 55, 20,
   3, 10, 43, 25, 39,
   41, 45, 15, 21, 8,
   18, 2, 61, 56, 14]

/-- Lane `(x, y)` of a state of 25 lanes. -/
def lane (s : List Nat) (x y : Nat) : Nat := s.getD (x % 5 + 5 * (y % 5)) 0

/-- One round of Keccak-f[1600]: theta, rho and pi, chi, iota. -/
def keccakRound (a : List Nat) (rc : Nat) : List Nat :=
  let c := (List.range 5).map (fun x =>
    lane a x 0 ^^^ lane a x 1 ^^^ lane a x 2 ^^^ lane a x 3 ^^^ lane a x 4)
  let d := (List.range 5).map (fun x =>
    c.getD ((x + 4) % 5) 0 ^^^ rotl64 (c.getD ((x + 1) % 5) 0) 1)
  let t := (List.range 25).map (fun i => a.getD i 0 ^^^ d.getD (i % 5) 0)
  let b := (List.range 25).map (fun j =>
    let y := j % 5
    let x := (3 * (j / 5 + 25 - 3 * y % 5)) % 5
    rotl64 (lane t x y) (rotationOffsets.getD (x + 5 * y) 0))
  let e := (List.range 25).map (fun i =>
    lane b (i % 5) (i / 5)
      ^^^ ((2 ^ 64 - 1 - lane b (i % 5 + 1) (i / 5)) &&& lane b (i % 5 + 2) (i / 5)))
  e.set 0 (e.getD 0 0 ^^^ rc)

/-- The permutation Keccak-f[1600]. -/
def keccakF (a : List Nat) : List Nat := roundConstants.foldl keccakRound a

/-- A 64-bit lane from 8 bytes, little endian. -/
def laneOfBytes (bs : List Nat) : Nat :=
  bs.foldr (fun b acc => b % 256 + 256 * acc) 0

/-- The 8 bytes of a lane, little endian. -/
def bytesOfLane (x : Nat) : List Nat :=
  (List.range 8).map (fun i => (x >>> (8 * i)) % 256)

/-- Legacy Keccak-256 (rate 136 bytes, padding `0x01 .. 0x80`) of a message
of fewer than 136 bytes, which is all `Address.Hex` hashes (40 bytes). -/
def keccak256 (msg : GoString) : List Nat :=
  let padded := msg ++ [1] ++ List.replicate (136 - msg.length - 1) 0
  let padded := padded.set 135 (padded.getD 135 0 ||| 0x80)
  let block := (List.range 25).map (fun i =>
    if i < 17 then laneOfBytes ((padded.drop (8 * i)).take 8) else 0)
  ((keccakF block).take 4).flatMap bytesOfLane

end sha3

/-! ## `github.com/ethereum/go-ethereum/common` -/

namespace common

/-- `AddressLength`. -/
def AddressLength : Nat := 20

/-- `Address`, a `[20]byte`. -/
structure Address where
  bytes : List Nat
  size : bytes.length = 20
  deriving DecidableEq, Repr

/-- `isHexCharacter`: `0-9`, `a-f`, `A-F`. -/
def isHexCharacter (c : Nat) : Bool :=
  decide ((48 ≤ c ∧ c ≤ 57) ∨ (97 ≤ c ∧ c ≤ 102) ∨ (65 ≤ c ∧ c ≤ 70))

/-- `has0xPrefix`: at least two bytes, `0` then `x` or `X`. -/
def has0xPrefix (s : GoString) : Bool :=
  match s with
  | 48 :: c :: _ => decide (c = 120 ∨ c = 88)
  | _ => false

/-- `isHex`: even length and only hex characters. -/
def isHex (s : GoString) : Bool :=
  if s.length % 2 ≠ 0 then false else s.all isHexCharacter

/-- `IsHexAddress`: after an optional `0x`, exactly 40 hex characters. -/
def IsHexAddress (s : GoString) : Bool :=
  let s := if has0xPrefix s then s.drop 2 else s
  decide (s.length = 2 * AddressLength) && isHex s

/-- The value of a hex digit (`encoding/hex`), `none` for any other byte. -/
def fromHexChar (c : Nat) : Option Nat :=
  if 48 ≤ c ∧ c ≤ 57 then some (c - 48)
  else if 97 ≤ c ∧ c ≤ 102 then some (c - 97 + 10)
  else if 65 ≤ c ∧ c ≤ 70 then some (c - 65 + 10)
  else none

/-- `Hex2Bytes`: `hex.DecodeString` with its error dropped, which leaves the
bytes decoded before the first invalid byte. -/
def Hex2Bytes : GoString → List Nat
  | a :: b :: rest =>
      match fromHexChar a, fromHexChar b with
      | some x, some y => (16 * x + y) :: Hex2Bytes rest
      | _, _ => []
  | _ => []

/-- `FromHex`: drop an optional `0x`, pad an odd length with a leading `0`,
decode. -/
def FromHex (s : GoString) : List Nat :=
  let s := if has0xPrefix s then s.drop 2 else s
  let s := if s.length % 2 = 1 then 48 :: s else s
  Hex2Bytes s

/-- The slice `b[len(b)-AddressLength:]` that `SetBytes` keeps when `b` is
longer than an address. -/
def lastBytes (b : List Nat) : List Nat :=
  if b.length > AddressLength then b.drop (b.length - AddressLength) else b

/-- `BytesToAddress`: the last 20 bytes of `b`, left-padded with zeros. -/
def BytesToAddress (b : List Nat) : Address :=
  { bytes := List.replicate (AddressLength - (lastBytes b).length) 0 ++ lastBytes b
    size := by
      have h : (lastBytes b).length ≤ 20 := by
        unfold lastBytes AddressLength
        split
        · rw [List.length_drop]; omega
        · omega
      simp only [List.length_append, List.length_replicate, AddressLength]
      omega }

/-- `HexToAddress`: never fails; any string gives some address. -/
def HexToAddress (s : GoString) : Address := BytesToAddress (FromHex s)

/-- A digit of the table `0123456789abcdef`. -/
def hexDigit (n : Nat) : Nat := if n % 16 < 10 then 48 + n % 16 else 87 + n % 16

/-- `hex.Encode`: two lower-case digits per byte. -/
def hexEncode (bs : List Nat) : GoString :=
  bs.flatMap (fun b => [hexDigit (b / 16), hexDigit b])

/-- The loop of `checksumHex` over the hex digits, `i` the index of the first
digit of `buf`: a letter is upper-cased when its nibble of the hash is above
7. -/
def checksumCase (hash : List Nat) : Nat → GoString → GoString
  | _, [] => []
  | i, c :: cs =>
      let hashByte := hash.getD (i / 2) 0
      let nibble := if i % 2 = 0 then hashByte / 16 else hashByte % 16
      (if decide (c > 57) && decide (nibble > 7) then c - 32 else c)
        :: checksumCase hash (i + 1) cs

/-- `Address.Hex`: `0x` and the EIP-55 checksummed hex digits. -/
def Address.Hex (a : Address) : GoString :=
  let buf := hexEncode a.bytes
  48 :: 120 :: checksumCase (sha3.keccak256 buf) 0 buf

end common

/-! ## `relayer/internal/domain/entity/reward.go` -/

namespace entity

/-- The `Reward` struct. -/
structure Reward where
  Id : ObjectID
  Token : GoString
  Amount : GoString
  Receiver : GoString
  Latitude : Float64
  Longitude : Float64
  TxHash : GoString
  Data : GoString
  CreatedAt : Time
  UpdatedAt : Time
  deriving DecidableEq, Repr

/-- `(*Reward).Validate`; `none` is a nil error. -/
def Reward.Validate (r : Reward) : Option Err :=
  if r.Token = [] ∨ ¬ common.IsHexAddress r.Token = true then some Err.ErrInvalidReward
  else
    match big.SetString r.Amount with
    | none => some Err.ErrInvalidReward
    | some amount =>
        if big.Sign amount ≤ 0 then some Err.ErrInvalidReward
        else if r.Receiver = [] ∨ ¬ common.IsHexAddress r.Receiver = true then
          some Err.ErrInvalidReward
        else if r.Data = [] then some Err.ErrInvalidReward
        else if r.CreatedAt = 0 then some Err.ErrInvalidReward
        else none

/-- `NewReward`; `now1` and `now2` are the two readings of `time.Now()`. The
`Id` is left at its zero value. -/
def NewReward (token : common.Address) (amount : Int) (receiver : common.Address)
    (latitude longitude : Float64) (data : GoString) (now1 now2 : Time) :
    Except Err Reward :=
  let reward : Reward :=
    { Id := 0
      Token := token.Hex
      Amount := big.String amount
      Receiver := receiver.Hex
      Latitude := latitude
      Longitude := longitude
      TxHash := []
      Data := data
      CreatedAt := now1
      UpdatedAt := now2 }
  match reward.Validate with
  | some err => Except.error err
  | none => Except.ok reward

end entity

/-! ## `relayer/internal/infra/repository/mongodb` -/

namespace mongodb

open entity

/-- A call of a `RewardRepository` method with its arguments. -/
inductive Call
  | CreateReward (input : Reward)
  | FindRewardByLocation (latitude longitude : Float64)
  | UpdateReward (reward : Reward)
  | UpdateRewardTxHash (rewardId : ObjectID) (txHash : GoString)
  deriving DecidableEq, Repr

/-- The repository: the documents of its collection in natural order, the
fate of the coming driver calls (`true`: the call fails with a driver error;
past the end of the list no call fails), and a history of the repository
methods called so far. -/
structure MongoDBRepository where
  docs : List Reward
  faults : List Bool
  calls : List Call
  deriving DecidableEq, Repr

/-- Take the fate of the next driver call. -/
def nextFault (s : MongoDBRepository) : Bool × MongoDBRepository :=
  match s.faults with
  | [] => (false, s)
  | b :: rest => (b, { s with faults := rest })

/-- An `ObjectID` no document of the collection has (the driver generates
one for a document inserted without `_id`): not the zero value, not in use. -/
def freshId (docs : List Reward) : ObjectID :=
  (docs.map (fun d => d.Id)).foldr max 0 + 1

/-- `Collection.UpdateOne(filter{_id}, $set ...)` on the documents: the first
document with the id is changed; the second component is `MatchedCount`. -/
def updateOne (id : ObjectID) (set : Reward → Reward) : List Reward → List Reward × Nat
  | [] => ([], 0)
  | d :: ds =>
      if d.Id = id then (set d :: ds, 1)
      else (d :: (updateOne id set ds).1, (updateOne id set ds).2)

/-- `FindRewardById`: `FindOne` by `_id`; no document gives
`ErrRewardNotFound`. -/
def FindRewardById (s : MongoDBRepository) (id : ObjectID) :
    (Option Reward × Option Err) × MongoDBRepository :=
  match nextFault s with
  | (true, s1) => ((none, some Err.driver), s1)
  | (false, s1) =>
      match s1.docs.find? (fun d => decide (d.Id = id)) with
      | none => ((none, some Err.ErrRewardNotFound), s1)
      | some reward => ((some reward, none), s1)

/-- `CreateReward`: `InsertOne`, then `FindRewardById` of the inserted id. A
document whose `Id` is the zero value is stored under a generated id
(`bson:"_id,omitempty"`); an id already in use is a duplicate-key error. The
inserted id always is an `ObjectID`, so the `mongo.ErrNilValue` return is
never taken. -/
def CreateReward (s : MongoDBRepository) (input : Reward) :
    (Option Reward × Option Err) × MongoDBRepository :=
  match nextFault { s with calls := s.calls ++ [Call.CreateReward input] } with
  | (true, s1) => ((none, some Err.driver), s1)
  | (false, s1) =>
      if input.Id = 0 then
        FindRewardById
          { s1 with docs := s1.docs ++ [{ input with Id := freshId s1.docs }] }
          (freshId s1.docs)
      else if s1.docs.any (fun d => decide (d.Id = input.Id)) then
        ((none, some Err.driver), s1)
      else
        FindRewardById { s1 with docs := s1.docs ++ [input] } input.Id

/-- The filter `{latitude, longitude}` of `FindRewardByLocation`. -/
def atLocation (latitude longitude : Float64) (d : Reward) : Bool :=
  decide (d.Latitude = latitude ∧ d.Longitude = longitude)

/-- `FindRewardByLocation`: `FindOne` with the filter on `latitude` and
`longitude`. -/
def FindRewardByLocation (s : MongoDBRepository) (latitude longitude : Float64) :
    (Option Reward × Option Err) × MongoDBRepository :=
  match nextFault
      { s with calls := s.calls ++ [Call.FindRewardByLocation latitude longitude] } with
  | (true, s1) => ((none, some Err.driver), s1)
  | (false, s1) =>
      match s1.docs.find? (atLocation latitude longitude) with
      | none => ((none, some Err.ErrRewardNotFound), s1)
      | some reward => ((some reward, none), s1)

/-- The `$set` document of `UpdateReward` applied to a stored document: every
field but `_id` and `created_at`. -/
def setFields (reward : Reward) (d : Reward) : Reward :=
  { d with
      Token := reward.Token
      Amount := reward.Amount
      Receiver := reward.Receiver
      Latitude := reward.Latitude
      Longitude := reward.Longitude
      TxHash := reward.TxHash
      Data := reward.Data
      UpdatedAt := reward.UpdatedAt }

/-- `UpdateReward`: `UpdateOne` by `_id`, `ErrRewardNotFound` when nothing
matched, then `FindRewardById`. -/
def UpdateReward (s : MongoDBRepository) (reward : Reward) :
    (Option Reward × Option Err) × MongoDBRepository :=
  match nextFault { s with calls := s.calls ++ [Call.UpdateReward reward] } with
  | (true, s1) => ((none, some Err.driver), s1)
  | (false, s1) =>
      if (updateOne reward.Id (setFields reward) s1.docs).2 = 0 then
        ((none, some Err.ErrRewardNotFound), s1)
      else
        FindRewardById
          { s1 with docs := (updateOne reward.Id (setFields reward) s1.docs).1 } reward.Id

/-- `UpdateRewardTxHash`: `UpdateOne` by `_id` setting `tx_hash`. -/
def UpdateRewardTxHash (s : MongoDBRepository) (rewardId : ObjectID) (txHash : GoString) :
    Option Err × MongoDBRepository :=
  match nextFault
      { s with calls := s.calls ++ [Call.UpdateRewardTxHash rewardId txHash] } with
  | (true, s1) => (some Err.driver, s1)
  | (false, s1) =>
      if (updateOne rewardId (fun d => { d with TxHash := txHash }) s1.docs).2 = 0 then
        (some Err.ErrRewardNotFound, s1)
      else
        (none,
         { s1 with docs := (updateOne rewardId (fun d => { d with TxHash := txHash })
                              s1.docs).1 })

end mongodb

/-! ## `relayer/internal/usecase/create_reward.go` -/

namespace usecase

open entity mongodb

/-- `CreateRewardInputDTO`. -/
structure CreateRewardInputDTO where
  Token : common.Address
  Amount : GoString
  Receiver : GoString
  Latitude : Float64
  Longitude : Float64
  Data : GoString
  deriving DecidableEq, Repr

/-- `CreateRewardOutputDTO`. -/
structure CreateRewardOutputDTO where
  Id : ObjectID
  Token : GoString
  Amount : GoString
  Receiver : GoString
  Latitude : Float64
  Longitude : Float64
  TxHash : GoString
  Data : GoString
  deriving DecidableEq, Repr

/-- How a call of `Execute` ends: with an output and a nil error, with an
error, or in a nil-pointer panic (a repository call that returns neither a
record nor an error). -/
inductive Outcome
  | ok (output : CreateRewardOutputDTO)
  | error (err : Err)
  | nilDereference
  deriving DecidableEq, Repr

/-- The final `return &CreateRewardOutputDTO{...}, nil` of `Execute`. -/
def output (result : Option Reward) : Outcome :=
  match result with
  | none => Outcome.nilDereference
  | some result =>
      Outcome.ok
        { Id := result.Id
          Token := result.Token
          Amount := result.Amount
          Receiver := result.Receiver
          Latitude := result.Latitude
          Longitude := result.Longitude
          TxHash := result.TxHash
          Data := result.Data }

/-- The record `Execute` hands to `UpdateReward` (lines 58-61): the existing
record with `Data`, `Receiver`, `Amount` and `UpdatedAt` overwritten. -/
def overwrite (existingReward : Reward) (input : CreateRewardInputDTO) (amount : Int)
    (now : Time) : Reward :=
  { existingReward with
      Data := input.Data
      Receiver := (common.HexToAddress input.Receiver).Hex
      Amount := big.String amount
      UpdatedAt := now }

/-- `(*CreateRewardUseCase).Execute` on the MongoDB repository; `now1` and
`now2` are the readings of `time.Now()` during the call, in order. -/
def Execute (repo : MongoDBRepository) (input : CreateRewardInputDTO) (now1 now2 : Time) :
    Outcome × MongoDBRepository :=
  match big.SetString input.Amount with
  | none => (Outcome.error Err.invalidAmount, repo)
  | some amount =>
      match FindRewardByLocation repo input.Latitude input.Longitude with
      | ((some existingReward, none), repo1) =>
          match UpdateReward repo1 (overwrite existingReward input amount now1) with
          | ((_, some err), repo2) =>
              (Outcome.error (Err.wrapped "failed to update reward" err), repo2)
          | ((result, none), repo2) => (output result, repo2)
      | ((_, some Err.ErrRewardNotFound), repo1) =>
          match NewReward input.Token amount (common.HexToAddress input.Receiver)
              input.Latitude input.Longitude input.Data now1 now2 with
          | Except.error createErr =>
              (Outcome.error (Err.wrapped "failed to create reward" createErr), repo1)
          | Except.ok newReward =>
              match CreateReward repo1 newReward with
              | ((_, some createErr), repo2) =>
                  (Outcome.error (Err.wrapped "failed to save reward" createErr), repo2)
              | ((result, none), repo2) => (output result, repo2)
      | ((_, some err), repo1) =>
          (Outcome.error (Err.wrapped "failed to check existing reward" err), repo1)
      | ((none, none), repo1) =>
          (Outcome.error (Err.wrappedNil "failed to check existing reward"), repo1)

end usecase

namespace usecase

/-- How a call ended, without the output: success, the error, or the panic. -/
inductive Status
  | ok
  | error (err : Err)
  | nilDereference
  deriving DecidableEq, Repr

/-- The status of an outcome. -/
def Outcome.status : Outcome → Status
  | Outcome.ok _ => Status.ok
  | Outcome.error err => Status.error err
  | Outcome.nilDereference => Status.nilDereference

end usecase

/-! ## Sample events and stores -/

namespace usecase

open entity mongodb

/-- The configured reward token of the samples, `0x00..01`. -/
def sampleToken : common.Address :=
  common.HexToAddress (str "0x0000000000000000000000000000000000000001")

/-- The event of the end-to-end scenario, with digit-only addresses:
amount `100`, data `x`, at latitude 1 and longitude 2. -/
def sampleEvent : CreateRewardInputDTO :=
  { Token := sampleToken
    Amount := str "100"
    Receiver := str "0x0000000000000000000000000000000000000022"
    Latitude := 1
    Longitude := 2
    Data := str "x" }

/-- An empty collection on a driver that does not fail. -/
def emptyRepository : MongoDBRepository :=
  { docs := [], faults := [], calls := [] }

/-- The record that processing `sampleEvent` at times 5 and 6 creates in an
empty collection. -/
def sampleRecord : Reward :=
  { Id := 1
    Token := str "0x0000000000000000000000000000000000000001"
    Amount := str "100"
    Receiver := str "0x0000000000000000000000000000000000000022"
    Latitude := 1
    Longitude := 2
    TxHash := []
    Data := str "x"
    CreatedAt := 5
    UpdatedAt := 6 }

/-- A collection holding `sampleRecord`, on a driver that does not fail. -/
def sampleRepository : MongoDBRepository :=
  { docs := [sampleRecord], faults := [], calls := [] }

/-- A second record at the coordinates of `sampleRecord`, as two workers
leave behind when both look the coordinates up before either has inserted. -/
def duplicateRepository : MongoDBRepository :=
  { docs := [sampleRecord, { sampleRecord with Id := 2 }], faults := [], calls := [] }

/-- A later event at the same coordinates: another amount (with a leading
zero), another receiver (lower-case hex), other data. -/
def secondEvent : CreateRewardInputDTO :=
  { sampleEvent with
      Amount := str "0250"
      Receiver := str "0xbbbbbbbbbbbbbbbbbbbbbbbbbbbbbbbbbbbbbbbb"
      Data := str "y" }

/-- An event whose receiver is not a hex address. -/
def malformedEvent : CreateRewardInputDTO :=
  { sampleEvent with Receiver := str "not-an-address" }

/-- An event with amount zero and empty data. -/
def invalidEvent : CreateRewardInputDTO :=
  { sampleEvent with Amount := str "0", Data := [] }

end usecase

/-! ## `relayer/internal/usecase/update_reward_txhash.go` -/

namespace usecase

open mongodb

/-- `(*UpdateRewardTxHashUseCase).Execute`. -/
def UpdateRewardTxHashUseCase.Execute (repo : MongoDBRepository) (rewardId : ObjectID)
    (txHash : GoString) : Option Err × MongoDBRepository :=
  match UpdateRewardTxHash repo rewardId txHash with
  | (some err, repo1) => (some (Err.wrapped "failed to update reward tx hash" err), repo1)
  | (none, repo1) => (none, repo1)

end usecase

/-! ## `relayer/pkg/kafka/consumer.go` -/

namespace kafka

/-- `ckafka.Message`: key, value and source position. -/
structure Message where
  Key : GoString
  Value : GoString
  Partition : Int
  Offset : Int
  deriving DecidableEq, Repr

/-- The errors of `CommitMessage`. -/
inductive CommitError
  | notInitialized
  | client
  deriving DecidableEq, Repr

/-- `KafkaConsumer` with the client behind it: whether `c.consumer` is set,
the fate of the coming commits of the client (`true`: the commit fails), the
messages `CommitMessage` was called with, and the messages whose position the
client committed. -/
structure KafkaConsumer where
  initialized : Bool
  faults : List Bool
  calls : List Message
  committed : List Message
  deriving DecidableEq, Repr

/-- `(*KafkaConsumer).CommitMessage`. -/
def KafkaConsumer.CommitMessage (c : KafkaConsumer) (msg : Message) :
    Option CommitError × KafkaConsumer :=
  let c1 := { c with calls := c.calls ++ [msg] }
  if c1.initialized = false then (some CommitError.notInitialized, c1)
  else
    match c1.faults with
    | true :: rest => (some CommitError.client, { c1 with faults := rest })
    | false :: rest => (none, { c1 with faults := rest, committed := c1.committed ++ [msg] })
    | [] => (none, { c1 with committed := c1.committed ++ [msg] })

end kafka

/-! ## The chain client: `ethclient`, `bind` and the `rewardtoken` binding -/

namespace common

/-- `Hash`, a `[32]byte`. -/
structure Hash where
  bytes : List Nat
  deriving DecidableEq, Repr

/-- `Hash.Hex`: `0x` and the lower-case hex digits. -/
def Hash.Hex (h : Hash) : GoString := 48 :: 120 :: hexEncode h.bytes

end common

namespace bind

/-- `bind.TransactOpts`: the sender, the nonce (`none` is a nil pointer) and
the other per-transaction settings the relayer never assigns. -/
structure TransactOpts where
  From : common.Address
  Nonce : Option Int
  Value : Option Int
  GasPrice : Option Int
  GasLimit : Nat
  NoSend : Bool
  deriving DecidableEq, Repr

end bind

namespace ethclient

/-- A call of `Mint` as the chain client sees it: the contract, the
transaction options, the receiver and the amount. -/
structure MintCall where
  token : common.Address
  opts : bind.TransactOpts
  receiver : common.Address
  amount : Int
  deriving DecidableEq, Repr

/-- The node behind `ethClient` and the contract binding: the pending nonce
of the sender account, which grows by one with every mint the node accepts;
the fate of the coming calls (`true`: binding the contract fails; `true`: the
nonce query fails; `none`: the mint is refused, `some h`: it is accepted with
transaction hash `h`; past the end of a list no call fails); and the `Mint`
calls seen so far. -/
structure Client where
  pending : Nat
  bindFaults : List Bool
  nonceFaults : List Bool
  mintFates : List (Option common.Hash)
  mints : List MintCall
  deriving DecidableEq, Repr

/-- `rewardtoken.NewRewardToken(address, backend)`; `true` is an error. -/
def Client.NewRewardToken (c : Client) : Bool × Client :=
  match c.bindFaults with
  | [] => (false, c)
  | b :: rest => (b, { c with bindFaults := rest })

/-- `PendingNonceAt(ctx, account)`: a `uint64`, or `none` for an error. -/
def Client.PendingNonceAt (c : Client) : Option Nat × Client :=
  match c.nonceFaults with
  | true :: rest => (none, { c with nonceFaults := rest })
  | false :: rest => (some (c.pending % 2 ^ 64), { c with nonceFaults := rest })
  | [] => (some (c.pending % 2 ^ 64), c)

/-- `contract.Mint(opts, to, amount)`: the hash of the accepted transaction,
or `none` for an error. -/
def Client.Mint (c : Client) (call : MintCall) : Option common.Hash × Client :=
  let c1 := { c with mints := c.mints ++ [call] }
  match c1.mintFates with
  | none :: rest => (none, { c1 with mintFates := rest })
  | some h :: rest => (some h, { c1 with mintFates := rest, pending := c1.pending + 1 })
  | [] => (some ⟨List.replicate 32 0⟩, { c1 with pending := c1.pending + 1 })

/-- A chain client none of whose coming calls fails: it binds the contract,
answers every nonce query and accepts every mint. -/
def Client.Accepting (c : Client) : Prop :=
  (∀ b ∈ c.bindFaults, b = false) ∧ (∀ b ∈ c.nonceFaults, b = false) ∧
  ∀ f ∈ c.mintFates, f ≠ none

instance (c : Client) : Decidable c.Accepting := by
  unfold Client.Accepting
  infer_instance

end ethclient

/-! ## `relayer/internal/infra/service/relayer/relayer.go` -/

namespace relayer

open usecase mongodb

/-- The `error` values of the service: the error of `json.Unmarshal`, an
error of the use cases, `invalid amount format`, an error of the chain
client, an error of the pool, an error of `repository.Close`, and
`fmt.Errorf(msg + ": %w", err)`. -/
inductive Error
  | unmarshal
  | usecase (err : Err)
  | invalidAmountFormat (amount : GoString)
  | client
  | pool (err : workerpool.PoolError)
  | disconnect
  | wrapped (msg : String) (err : Error)
  deriving DecidableEq, Repr

/-- The run-time panics the service code can raise. -/
inductive Panic
  | typeAssertion
  | nilDereference
  | closeOfClosedChannel
  | sendOnClosedChannel
  deriving DecidableEq, Repr

/-- A buffered channel: the queued values, oldest first, the capacity, and
whether the channel has been closed. -/
structure Chan (α : Type) where
  buf : List α
  cap : Nat
  closed : Bool
  deriving DecidableEq, Repr

/-- `close(c)`: closing a closed channel panics. -/
def Chan.close {α : Type} (c : Chan α) : Except Panic (Chan α) :=
  if c.closed = true then Except.error Panic.closeOfClosedChannel
  else Except.ok { c with closed := true }

/-- Whether a send on the channel can proceed: there is room, or the channel
is closed (the send then panics). -/
def Chan.sendReady {α : Type} (c : Chan α) : Bool :=
  c.closed || decide (c.buf.length < c.cap)

/-- A `workerpool.Job` (`interface{}`): a `*ckafka.Message`, which may be a
nil pointer, or a value of another type. -/
inductive Job
  | message (msg : Option kafka.Message)
  | other
  deriving DecidableEq, Repr

/-- `RewardResult`. -/
structure RewardResult where
  MessageId : GoString
  Success : Bool
  Error : Option Error
  Output : Option CreateRewardOutputDTO
  KafkaMsg : Option kafka.Message
  deriving DecidableEq, Repr

/-- A `workerpool.Result` (`interface{}`): a `RewardResult` or a value of
another type. -/
inductive Result
  | reward (r : RewardResult)
  | other
  deriving DecidableEq, Repr

/-- `Service` with what its pointers refer to: the consumer, the repository
(and how often it was closed), the three channels, `s.Context`, the chain
client and the stored transaction options. `Create` makes the three channels
and nothing assigns them afterwards, so they are never nil; `sigintChan`
carries no values and is `true` once closed. -/
structure Service where
  token : common.Address
  kafkaConsumer : kafka.KafkaConsumer
  repository : MongoDBRepository
  repositoryClosed : Nat
  jobChan : Chan Job
  txChan : Chan CreateRewardOutputDTO
  sigintChan : Bool
  ctxDone : Bool
  ethClient : ethclient.Client
  txOpts : bind.TransactOpts
  deriving DecidableEq, Repr

/-- How a call ends: it returns, it panics, or it cannot go on yet. -/
inductive Returned (α : Type)
  | returned (a : α)
  | panicked (p : Panic)
  | blocked
  deriving DecidableEq, Repr

/-- Which case a `select` takes when both the send and the done case are
ready (the run time picks one at random). -/
inductive Select
  | send
  | done
  deriving DecidableEq, Repr

/-- Where `processFunc` stands after line 144: it has returned a result, it
has persisted the record and reached the `select` with `result` and `output`,
or it has panicked. -/
inductive Persisted
  | done (result : RewardResult)
  | handOff (result : RewardResult) (output : CreateRewardOutputDTO)
  | panicked (p : Panic)
  deriving DecidableEq, Repr

/-- Lines 107-144 of `processFunc`: the type assertion, `json.Unmarshal`
(`unmarshal`, `none` for an error), the token override and `Execute`. -/
def persist (unmarshal : GoString → Option CreateRewardInputDTO) (s : Service) (job : Job)
    (now1 now2 : Time) : Persisted × Service :=
  match job with
  | Job.other => (Persisted.panicked Panic.typeAssertion, s)
  | Job.message none => (Persisted.panicked Panic.nilDereference, s)
  | Job.message (some msg) =>
      let result : RewardResult :=
        { MessageId := msg.Key, Success := false, Error := none, Output := none,
          KafkaMsg := some msg }
      match unmarshal msg.Value with
      | none =>
          (Persisted.done
            { result with
                Error := some (Error.wrapped "failed to unmarshal message" Error.unmarshal) },
           s)
      | some input =>
          match Execute s.repository { input with Token := s.token } now1 now2 with
          | (Outcome.error err, repo) =>
              (Persisted.done
                { result with
                    Error := some (Error.wrapped "failed to create reward"
                                    (Error.usecase err)) },
               { s with repository := repo })
          | (Outcome.nilDereference, repo) =>
              (Persisted.panicked Panic.nilDereference, { s with repository := repo })
          | (Outcome.ok output, repo) =>
              (Persisted.handOff result output, { s with repository := repo })

/-- Lines 146-156 of `processFunc`: the `select` between the send on `txChan`
and `ctx.Done()`, then the successful result. -/
def handOff (s : Service) (result : RewardResult) (output : CreateRewardOutputDTO)
    (pick : Select) : Returned RewardResult × Service :=
  if s.txChan.sendReady = true ∧ (s.ctxDone = false ∨ pick = Select.send) then
    if s.txChan.closed = true then (Returned.panicked Panic.sendOnClosedChannel, s)
    else
      (Returned.returned { result with Success := true, Output := some output },
       { s with txChan := { s.txChan with buf := s.txChan.buf ++ [output] } })
  else if s.ctxDone = true then
    (Returned.returned { result with Success := true, Output := some output }, s)
  else (Returned.blocked, s)

/-- `processFunc`, the task function `Create` gives to the worker pool. -/
def processFunc (unmarshal : GoString → Option CreateRewardInputDTO) (s : Service) (job : Job)
    (now1 now2 : Time) (pick : Select) : Returned RewardResult × Service :=
  match persist unmarshal s job now1 now2 with
  | (Persisted.done result, s1) => (Returned.returned result, s1)
  | (Persisted.panicked p, s1) => (Returned.panicked p, s1)
  | (Persisted.handOff result output, s1) => handOff s1 result output pick

/-- The `resultChan` case of `processWorkerResults` for a received result
(lines 223-244). -/
def processWorkerResult (s : Service) (result : Result) : Service :=
  match result with
  | Result.other => s
  | Result.reward rewardResult =>
      match rewardResult.Success, rewardResult.KafkaMsg with
      | true, some msg =>
          { s with kafkaConsumer := (s.kafkaConsumer.CommitMessage msg).2 }
      | _, _ => s

/-- `processWorkerResults` over the results that arrive on `resultChan`, in
order. -/
def processWorkerResults (s : Service) (results : List Result) : Service :=
  results.foldl processWorkerResult s

/-- The conversion `int64(nonce)` of a `uint64`. -/
def toInt64 (n : Nat) : Int :=
  if n % 2 ^ 64 < 2 ^ 63 then ((n % 2 ^ 64 : Nat) : Int)
  else ((n % 2 ^ 64 : Nat) : Int) - 2 ^ 64

/-- `(*Service).mintReward`. -/
def mintReward (s : Service) (reward : CreateRewardOutputDTO) :
    Except Error common.Hash × Service :=
  let tokenAddr := s.token
  let receiverAddr := common.HexToAddress reward.Receiver
  match s.ethClient.NewRewardToken with
  | (true, c1) =>
      (Except.error (Error.wrapped "failed to create contract" Error.client),
       { s with ethClient := c1 })
  | (false, c1) =>
      match big.SetString reward.Amount with
      | none =>
          (Except.error (Error.invalidAmountFormat reward.Amount), { s with ethClient := c1 })
      | some amount =>
          let txOpts := s.txOpts
          match c1.PendingNonceAt with
          | (none, c2) =>
              (Except.error (Error.wrapped "failed to get nonce" Error.client),
               { s with ethClient := c2 })
          | (some nonce, c2) =>
              let txOpts := { txOpts with Nonce := some (toInt64 nonce) }
              match c2.Mint { token := tokenAddr, opts := txOpts, receiver := receiverAddr,
                              amount := amount } with
              | (none, c3) =>
                  (Except.error (Error.wrapped "failed to mint" Error.client),
                   { s with ethClient := c3 })
              | (some txHash, c3) => (Except.ok txHash, { s with ethClient := c3 })

/-- The `txChan` case of `processBlockchainTransactions` (lines 299-330): a
receive from the closed and empty channel yields a nil pointer, which line
301 dereferences. -/
def settle (s : Service) : Returned Unit × Service :=
  match s.txChan.buf with
  | [] =>
      if s.txChan.closed = true then (Returned.panicked Panic.nilDereference, s)
      else (Returned.blocked, s)
  | reward :: rest =>
      match mintReward { s with txChan := { s.txChan with buf := rest } } reward with
      | (Except.error _, s1) => (Returned.returned (), s1)
      | (Except.ok txHash, s1) =>
          (Returned.returned (),
           { s1 with
               repository :=
                 (UpdateRewardTxHashUseCase.Execute s1.repository reward.Id txHash.Hex).2 })

/-- Which ready case the `select` of a stage loop takes. -/
inductive StageSelect
  | queue
  | sigint
  | ctx
  deriving DecidableEq, Repr

/-- `processBlockchainTransactions`: the loop, driven by the cases its
`select` takes one after the other. It returns on the stop signal or the
cancelled context; `blocked` is a loop that still runs when the list ends or
that waits for a case which is not ready. -/
def processBlockchainTransactions : List StageSelect → Service → Returned Unit × Service
  | [], s => (Returned.blocked, s)
  | StageSelect.queue :: picks, s =>
      match settle s with
      | (Returned.returned _, s1) => processBlockchainTransactions picks s1
      | (Returned.panicked p, s1) => (Returned.panicked p, s1)
      | (Returned.blocked, s1) => (Returned.blocked, s1)
  | StageSelect.sigint :: _, s =>
      if s.sigintChan = true then (Returned.returned (), s) else (Returned.blocked, s)
  | StageSelect.ctx :: _, s =>
      if s.ctxDone = true then (Returned.returned (), s) else (Returned.blocked, s)

end relayer

/-! ## The goroutines of the relayer service

`Serve` starts the worker pool and the three stage goroutines; `Stop` may be
called from any goroutine. The pool itself is the one of `workerpool`; here a
worker is followed through `processFunc` only, in two steps, so that what
other goroutines do while it stands at the `select` of lines 146-151 can be
told. -/

namespace relayer

open usecase mongodb

/-- The statement a call of `Stop` executes next, by its line in
`relayer.go`; `poolWait` is the wait inside `workerPool.Stop()`. -/
inductive StopPC
  | line374
  | line378
  | line382
  | line386
  | poolWait
  | line390
  | line392
  | returned
  deriving DecidableEq, Repr

/-- A call of `Stop` in progress: where it stands and its `errs` so far. -/
structure StopCall where
  pc : StopPC
  errs : List Error
  deriving DecidableEq, Repr

/-- A worker of the pool: waiting for a job, inside `processFunc` at the
`select` of lines 146-151 with the result and the output it holds, or
returned from its loop. -/
inductive WorkerPC
  | idle
  | atSelect (result : RewardResult) (output : CreateRewardOutputDTO)
  | exited
  deriving DecidableEq, Repr

/-- The three goroutines `Serve` starts under `s.wg`. -/
inductive Stage
  | settlement
  | ack
  | ingestion
  deriving DecidableEq, Repr

/-- The service and its goroutines: the state of the pool and its workers,
the results the workers have returned and the acknowledgment stage has not
taken yet, the stage goroutines that have not returned (`s.wg` counts them),
the calls of `Stop`, and the panic that has ended the process, if any. -/
structure Pipeline where
  svc : Service
  poolState : workerpool.State
  workers : List WorkerPC
  results : List Result
  stages : List Stage
  stops : List StopCall
  panic : Option Panic
  deriving DecidableEq, Repr

/-- `(*Service).Serve`: start the pool with its five workers, then the three
stage goroutines; a pool that is not idle refuses to start. -/
def Serve (p : Pipeline) : Option Error × Pipeline :=
  if p.poolState ≠ workerpool.State.StateIdle then
    (some (Error.wrapped "failed to start worker pool"
            (Error.pool workerpool.PoolError.ErrWorkerPoolAlreadyRunning)), p)
  else
    (none,
     { p with
         poolState := workerpool.State.StateRunning
         workers := List.replicate 5 WorkerPC.idle
         stages := p.stages ++ [Stage.settlement, Stage.ack, Stage.ingestion] })

/-- One statement of `(*Service).Stop` (lines 371-398) for the call at index
`k`; `none` when the call has to wait. -/
def stopStep (p : Pipeline) (k : Nat) (call : StopCall) : Option Pipeline :=
  match call.pc with
  | StopPC.line374 =>
      if p.svc.sigintChan = true then some { p with panic := some Panic.closeOfClosedChannel }
      else
        some { p with
                 svc := { p.svc with sigintChan := true }
                 stops := p.stops.set k { call with pc := StopPC.line378 } }
  | StopPC.line378 =>
      match p.svc.jobChan.close with
      | Except.error panic => some { p with panic := some panic }
      | Except.ok c =>
          some { p with
                   svc := { p.svc with jobChan := c }
                   stops := p.stops.set k { call with pc := StopPC.line382 } }
  | StopPC.line382 =>
      match p.svc.txChan.close with
      | Except.error panic => some { p with panic := some panic }
      | Except.ok c =>
          some { p with
                   svc := { p.svc with txChan := c }
                   stops := p.stops.set k { call with pc := StopPC.line386 } }
  | StopPC.line386 =>
      if p.poolState = workerpool.State.StateRunning then
        some { p with
                 poolState := workerpool.State.StateStopping
                 stops := p.stops.set k { call with pc := StopPC.poolWait } }
      else
        some { p with
                 stops := p.stops.set k
                   { pc := StopPC.line390
                     errs := call.errs ++
                       [Error.wrapped "failed to stop worker pool"
                         (Error.pool workerpool.PoolError.ErrWorkerPoolNotRunning)] } }
  | StopPC.poolWait =>
      if p.workers.all (fun w => decide (w = WorkerPC.exited)) = true then
        some { p with
                 poolState := workerpool.State.StateIdle
                 stops := p.stops.set k { call with pc := StopPC.line390 } }
      else none
  | StopPC.line390 =>
      if p.stages = [] then some { p with stops := p.stops.set k { call with pc := StopPC.line392 } }
      else none
  | StopPC.line392 =>
      match nextFault p.svc.repository with
      | (true, repo) =>
          some { p with
                   svc := { p.svc with repository := repo,
                                       repositoryClosed := p.svc.repositoryClosed + 1 }
                   stops := p.stops.set k
                     { pc := StopPC.returned
                       errs := call.errs ++
                         [Error.wrapped "failed to close repository" Error.disconnect] } }
      | (false, repo) =>
          some { p with
                   svc := { p.svc with repository := repo,
                                       repositoryClosed := p.svc.repositoryClosed + 1 }
                   stops := p.stops.set k { call with pc := StopPC.returned } }
  | StopPC.returned => none

/-- What a goroutine of the service can do next. -/
inductive Action
  | serve
  | stop
  | stopStep (k : Nat)
  | cancel
  | ingest (msg : kafka.Message) (pick : Select)
  | fatal
  | work (i : Nat) (now1 now2 : Time)
  | handOff (i : Nat) (pick : Select)
  | workerExit (i : Nat)
  | ack
  | settle
  | stageExit (stage : Stage)
  deriving DecidableEq, Repr

/-- One step of the service; `none` when the action cannot be taken. After a
panic the process is gone and nothing steps.

* `serve`: `Serve` is called. `stop`: a goroutine calls `Stop`. `stopStep k`:
  the call at index `k` executes its next statement. `cancel`: `s.Context` is
  cancelled.
* `ingest msg pick`: `consumeKafkaMessages` has received `msg` and runs the
  inner `select` of lines 272-282. `fatal`: it takes the `errChan` case of
  lines 283-286, closing the stop signal unless it is closed, and returns.
* `work i now1 now2`: worker `i` takes the oldest job and runs `processFunc`
  up to line 144. `handOff i pick`: it runs the `select` of lines 146-151 and
  returns. `workerExit i`: it leaves its loop, the pool stopping, the context
  cancelled or the job channel closed and drained.
* `ack`: `processWorkerResults` takes a result. `settle`:
  `processBlockchainTransactions` takes the `txChan` case. `stageExit`: a
  stage takes the stop-signal or the context case and returns. -/
def step (unmarshal : GoString → Option CreateRewardInputDTO) (p : Pipeline) :
    Action → Option Pipeline
  | Action.serve => if p.panic ≠ none then none else some (Serve p).2
  | Action.stop =>
      if p.panic ≠ none then none
      else some { p with stops := p.stops ++ [{ pc := StopPC.line374, errs := [] }] }
  | Action.stopStep k =>
      if p.panic ≠ none then none
      else
        match p.stops[k]? with
        | none => none
        | some call => stopStep p k call
  | Action.cancel =>
      if p.panic ≠ none then none else some { p with svc := { p.svc with ctxDone := true } }
  | Action.ingest msg pick =>
      if p.panic ≠ none ∨ Stage.ingestion ∉ p.stages then none
      else if p.svc.jobChan.sendReady = true ∧
          ((p.svc.sigintChan = false ∧ p.svc.ctxDone = false) ∨ pick = Select.send) then
        if p.svc.jobChan.closed = true then
          some { p with panic := some Panic.sendOnClosedChannel }
        else
          some { p with
                   svc := { p.svc with
                              jobChan := { p.svc.jobChan with
                                             buf := p.svc.jobChan.buf
                                               ++ [Job.message (some msg)] } } }
      else if p.svc.sigintChan = true ∨ p.svc.ctxDone = true then
        some { p with stages := p.stages.erase Stage.ingestion }
      else none
  | Action.fatal =>
      if p.panic ≠ none ∨ Stage.ingestion ∉ p.stages then none
      else
        some { p with
                 svc := { p.svc with sigintChan := true }
                 stages := p.stages.erase Stage.ingestion }
  | Action.work i now1 now2 =>
      if p.panic ≠ none then none
      else
        match p.workers[i]?, p.svc.jobChan.buf with
        | some WorkerPC.idle, job :: rest =>
            match persist unmarshal
                { p.svc with jobChan := { p.svc.jobChan with buf := rest } } job now1 now2 with
            | (Persisted.done result, s1) =>
                some { p with svc := s1, results := p.results ++ [Result.reward result] }
            | (Persisted.handOff result output, s1) =>
                some { p with svc := s1,
                              workers := p.workers.set i (WorkerPC.atSelect result output) }
            | (Persisted.panicked panic, s1) => some { p with svc := s1, panic := some panic }
        | _, _ => none
  | Action.handOff i pick =>
      if p.panic ≠ none then none
      else
        match p.workers[i]? with
        | some (WorkerPC.atSelect result output) =>
            match handOff p.svc result output pick with
            | (Returned.returned r, s1) =>
                some { p with svc := s1,
                              workers := p.workers.set i WorkerPC.idle,
                              results := p.results ++ [Result.reward r] }
            | (Returned.panicked panic, s1) => some { p with svc := s1, panic := some panic }
            | (Returned.blocked, _) => none
        | _ => none
  | Action.workerExit i =>
      if p.panic ≠ none then none
      else
        match p.workers[i]? with
        | some WorkerPC.idle =>
            if p.poolState = workerpool.State.StateStopping ∨ p.svc.ctxDone = true ∨
                (p.svc.jobChan.closed = true ∧ p.svc.jobChan.buf = []) then
              some { p with workers := p.workers.set i WorkerPC.exited }
            else none
        | _ => none
  | Action.ack =>
      if p.panic ≠ none ∨ Stage.ack ∉ p.stages then none
      else
        match p.results with
        | [] => none
        | result :: rest =>
            some { p with svc := processWorkerResult p.svc result, results := rest }
  | Action.settle =>
      if p.panic ≠ none ∨ Stage.settlement ∉ p.stages then none
      else
        match settle p.svc with
        | (Returned.returned _, s1) => some { p with svc := s1 }
        | (Returned.panicked panic, s1) => some { p with svc := s1, panic := some panic }
        | (Returned.blocked, _) => none
  | Action.stageExit stage =>
      if p.panic ≠ none ∨ stage ∉ p.stages then none
      else if p.svc.sigintChan = true ∨ p.svc.ctxDone = true then
        some { p with stages := p.stages.erase stage }
      else none

/-- A run: the actions taken one after the other; `none` if one of them
cannot be taken. -/
def run (unmarshal : GoString → Option CreateRewardInputDTO) :
    Pipeline → List Action → Option Pipeline
  | p, [] => some p
  | p, a :: rest =>
      match step unmarshal p a with
      | none => none
      | some q => run unmarshal q rest

end relayer

/-! ## Sample values of the relayer service -/

namespace relayer

open usecase mongodb entity

/-- The service `Create` returns when it succeeds: the configured token, the
consumer, the repository, the chain client and the transaction options it was
given, the three channels freshly made (lines 102-104), and a live context. -/
def Create (token : common.Address) (consumer : kafka.KafkaConsumer)
    (repository : MongoDBRepository) (client : ethclient.Client)
    (txOpts : bind.TransactOpts) : Service :=
  { token := token
    kafkaConsumer := consumer
    repository := repository
    repositoryClosed := 0
    jobChan := { buf := [], cap := 100, closed := false }
    txChan := { buf := [], cap := 100, closed := false }
    sigintChan := false
    ctxDone := false
    ethClient := client
    txOpts := txOpts }

/-- A consumer that is initialised and whose commits succeed. -/
def sampleConsumer : kafka.KafkaConsumer :=
  { initialized := true, faults := [], calls := [], committed := [] }

/-- A chain client with pending nonce 0 that accepts every call. -/
def sampleClient : ethclient.Client :=
  { pending := 0, bindFaults := [], nonceFaults := [], mintFates := [], mints := [] }

/-- Transaction options as `bind.NewKeyedTransactorWithChainID` returns them:
the sender set, everything else at its zero value. -/
def sampleTxOpts : bind.TransactOpts :=
  { From := common.HexToAddress (str "0x00000000000000000000000000000000000000aa")
    Nonce := none
    Value := none
    GasPrice := none
    GasLimit := 0
    NoSend := false }

/-- The service of the samples, on an empty collection. -/
def sampleService : Service :=
  Create sampleToken sampleConsumer emptyRepository sampleClient sampleTxOpts

/-- A message whose value is the JSON text of `sampleEvent` (with another
token in its `token` field). -/
def sampleMessage : kafka.Message :=
  { Key := str "sensor-1"
    Value :=
      str "\x7b\"token\":\"0x0000000000000000000000000000000000000009\"," ++
      str "\"amount\":\"100\",\"receiver\":\"0x0000000000000000000000000000000000000022\"," ++
      str "\"latitude\":1,\"longitude\":2,\"data\":\"x\"\x7d"
    Partition := 0
    Offset := 7 }

/-- A message whose value is not JSON. -/
def malformedMessage : kafka.Message :=
  { Key := str "sensor-1", Value := str "not json", Partition := 0, Offset := 8 }

/-- The event `json.Unmarshal` reads from the value of `sampleMessage`. -/
def sampleDecoded : CreateRewardInputDTO :=
  { sampleEvent with
      Token := common.HexToAddress (str "0x0000000000000000000000000000000000000009") }

/-- What `json.Unmarshal` does on the values of the sample messages. -/
def sampleUnmarshal (value : GoString) : Option CreateRewardInputDTO :=
  if value = sampleMessage.Value then some sampleDecoded else none

/-- The service of the samples on a driver whose next call fails. -/
def failingService : Service :=
  Create sampleToken sampleConsumer { docs := [], faults := [true], calls := [] }
    sampleClient sampleTxOpts

/-- The service of the samples after lines 374-384 of `Stop`: the stop signal
and both queues are closed. -/
def closedService : Service :=
  { sampleService with
      sigintChan := true
      jobChan := { sampleService.jobChan with closed := true }
      txChan := { sampleService.txChan with closed := true } }

/-- The projection of `sampleRecord`, which processing `sampleMessage` on an
empty collection returns and hands to settlement. -/
def sampleOutput : CreateRewardOutputDTO :=
  { Id := 1
    Token := str "0x0000000000000000000000000000000000000001"
    Amount := str "100"
    Receiver := str "0x0000000000000000000000000000000000000022"
    Latitude := 1
    Longitude := 2
    TxHash := []
    Data := str "x" }

/-- A chain client that refuses the next mint. -/
def refusingClient : ethclient.Client :=
  { sampleClient with mintFates := [none] }

/-- The record `sampleRecord` after an earlier settlement wrote a
transaction reference into it. -/
def settledRecord : Reward :=
  { sampleRecord with
      TxHash := str "0x1111111111111111111111111111111111111111111111111111111111111111" }

/-- A service whose collection holds `settledRecord` and whose chain client
refuses the next mint. -/
def settledService : Service :=
  Create sampleToken sampleConsumer { docs := [settledRecord], faults := [], calls := [] }
    refusingClient sampleTxOpts

/-- The output of processing `sampleMessage` on `settledService`: the update
path keeps the reference of `settledRecord`. -/
def settledOutput : CreateRewardOutputDTO :=
  { sampleOutput with TxHash := settledRecord.TxHash }

/-- The service `settledService` with `settledOutput` waiting in `txChan`. -/
def queuedService : Service :=
  { settledService with txChan := { buf := [settledOutput], cap := 100, closed := false } }

/-- The service `queuedService` after the settlement turn in which the chain
client refused the mint. -/
def refusedOnceService : Service :=
  { settledService with
      ethClient :=
        { sampleClient with
            mints := [{ token := sampleToken
                        opts := { sampleTxOpts with Nonce := some 0 }
                        receiver := common.HexToAddress settledOutput.Receiver
                        amount := 100 }] } }

/-- A service with two outputs waiting in `txChan` and a chain client whose
pending nonce is `2^63 - 1`. -/
def wrappingService : Service :=
  { Create sampleToken sampleConsumer emptyRepository
      { sampleClient with pending := 2 ^ 63 - 1 } sampleTxOpts with
    txChan := { buf := [sampleOutput, { sampleOutput with Id := 2 }], cap := 100,
                closed := false } }

/-- A service with two outputs waiting in `txChan` and a chain client that
refuses the first mint. -/
def refusedService : Service :=
  { Create sampleToken sampleConsumer emptyRepository refusingClient sampleTxOpts with
    txChan := { buf := [sampleOutput, { sampleOutput with Id := 2 }], cap := 100,
                closed := false } }

end relayer

namespace relayer

open usecase mongodb entity

/-- The goroutines of a service right after `Create`: the pool idle, no
worker, no stage goroutine, no call of `Stop`. -/
def created (s : Service) : Pipeline :=
  { svc := s
    poolState := workerpool.State.StateIdle
    workers := []
    results := []
    stages := []
    stops := []
    panic := none }

/-- A full call of `Stop` on the served sample service, while no job is in
flight: the three closes, the pool stopped once its five workers have left,
the three stages gone, the repository closed. -/
def stopActions : List Action :=
  [Action.stop, Action.stopStep 0, Action.stopStep 0, Action.stopStep 0, Action.stopStep 0,
   Action.workerExit 0, Action.workerExit 1, Action.workerExit 2, Action.workerExit 3,
   Action.workerExit 4, Action.stopStep 0,
   Action.stageExit Stage.settlement, Action.stageExit Stage.ack,
   Action.stageExit Stage.ingestion, Action.stopStep 0, Action.stopStep 0]

/-- The served sample service after a full call of `Stop` and the entry of a
second call. -/
def stoppedPipeline : Pipeline :=
  { svc := { closedService with repositoryClosed := 1 }
    poolState := workerpool.State.StateIdle
    workers := List.replicate 5 WorkerPC.exited
    results := []
    stages := []
    stops := [{ pc := StopPC.returned, errs := [] }, { pc := StopPC.line374, errs := [] }]
    panic := none }

/-- The served sample service after a fatal error of the source made the
ingestion stage close the stop signal, and `Stop` has been called. -/
def fatalPipeline : Pipeline :=
  { svc := { sampleService with sigintChan := true }
    poolState := workerpool.State.StateRunning
    workers := List.replicate 5 WorkerPC.idle
    results := []
    stages := [Stage.settlement, Stage.ack]
    stops := [{ pc := StopPC.line374, errs := [] }]
    panic := none }

/-- The served sample service when worker 0 has persisted the record of
`sampleMessage` and stands at the `select` of lines 146-151, and a call of
`Stop` has closed the stop signal and the job channel and stands before line
383. -/
def inflightPipeline : Pipeline :=
  { svc :=
      { sampleService with
          sigintChan := true
          jobChan := { sampleService.jobChan with closed := true }
          repository :=
            { docs := [sampleRecord], faults := [],
              calls := [Call.FindRewardByLocation 1 2,
                        Call.CreateReward { sampleRecord with Id := 0 }] } }
    poolState := workerpool.State.StateRunning
    workers :=
      [WorkerPC.atSelect
         { MessageId := sampleMessage.Key, Success := false, Error := none, Output := none,
           KafkaMsg := some sampleMessage } sampleOutput,
       WorkerPC.idle, WorkerPC.idle, WorkerPC.idle, WorkerPC.idle]
    results := []
    stages := [Stage.settlement, Stage.ack, Stage.ingestion]
    stops := [{ pc := StopPC.line382, errs := [] }]
    panic := none }

end relayer

namespace big

/-- A canonical positive decimal string: a digit from 1 to 9 followed by any
number of digits (no sign, no leading zero). -/
def canonicalPositive (s : GoString) : Bool :=
  match s with
  | [] => false
  | c :: cs => decide (49 ≤ c ∧ c ≤ 57) && cs.all (fun d => decide (48 ≤ d ∧ d ≤ 57))

end big

/-! ## Pieces of `strings` and `encoding/hex` -/

namespace strings

/-- `strings.HasPrefix`. -/
def HasPrefix : GoString → GoString → Bool
  | _, [] => true
  | [], _ :: _ => false
  | c :: s, d :: pre => decide (c = d) && HasPrefix s pre

/-- `strings.HasSuffix`. -/
def HasSuffix (s suffix : GoString) : Bool := HasPrefix s.reverse suffix.reverse

/-- `strings.TrimPrefix`. -/
def TrimPrefix (s pre : GoString) : GoString :=
  if HasPrefix s pre = true then s.drop pre.length else s

/-- The UTF-8 encodings of the runes of `unicode.IsSpace`: tab, line feed,
vertical tab, form feed, carriage return, space, U+0085, U+00A0, U+1680,
U+2000 to U+200A, U+2028, U+2029, U+202F, U+205F and U+3000. A string starts
(ends) with white space exactly when it starts (ends) with one of them:
decoding yields a rune only from its own valid encoding. -/
def whiteSpace : List GoString :=
  [[9], [10], [11], [12], [13], [32], [194, 133], [194, 160], [225, 154, 128],
   [226, 128, 128], [226, 128, 129], [226, 128, 130], [226, 128, 131], [226, 128, 132],
   [226, 128, 133], [226, 128, 134], [226, 128, 135], [226, 128, 136], [226, 128, 137],
   [226, 128, 138], [226, 128, 168], [226, 128, 169], [226, 128, 175], [226, 129, 159],
   [227, 128, 128]]

/-- The width in bytes of the white-space rune a string starts with; 0 when it
starts with none. -/
def leadingSpace (s : GoString) : Nat :=
  match whiteSpace.find? (fun e => HasPrefix s e) with
  | some e => e.length
  | none => 0

/-- The width in bytes of the white-space rune a string ends with; 0 when it
ends with none. -/
def trailingSpace (s : GoString) : Nat :=
  match whiteSpace.find? (fun e => HasSuffix s e) with
  | some e => e.length
  | none => 0

/-- Remove leading white-space runes, at most `fuel` of them. -/
def trimLeft : Nat → GoString → GoString
  | 0, s => s
  | fuel + 1, s => if leadingSpace s = 0 then s else trimLeft fuel (s.drop (leadingSpace s))

/-- Remove trailing white-space runes, at most `fuel` of them. -/
def trimRight : Nat → GoString → GoString
  | 0, s => s
  | fuel + 1, s =>
      if trailingSpace s = 0 then s else trimRight fuel (s.take (s.length - trailingSpace s))

/-- `strings.TrimSpace`: all leading and trailing white space removed (a
string has no more white-space runes than bytes). -/
def TrimSpace (s : GoString) : GoString :=
  trimRight (trimLeft s.length s).length (trimLeft s.length s)

/-- `strings.Split(s, sep)` for a separator of one byte: the parts between
the separators, in order; a string without separator is its only part. -/
def Split : GoString → Nat → List GoString
  | [], _ => [[]]
  | c :: cs, sep =>
      if c = sep then [] :: Split cs sep
      else (c :: (Split cs sep).headD []) :: (Split cs sep).tail

end strings

namespace hex

/-- `hex.DecodeString`: the bytes of an even number of hex digits; `none` is
an error (`ErrLength` or `InvalidByteError`). -/
def DecodeString : GoString → Option (List Nat)
  | [] => some []
  | [_] => none
  | a :: b :: rest =>
      match common.fromHexChar a, common.fromHexChar b with
      | some x, some y => (DecodeString rest).map (fun bytes => (16 * x + y) :: bytes)
      | _, _ => none

end hex

/-! ## `relayer/configs/config.go` and `relayer/pkg/ethutil/utils.go` -/

namespace configs

/-- The errors of the parsing functions: `invalid address`, and the error of
`hex.DecodeString`. -/
inductive ParseError
  | invalidAddress (s : GoString)
  | decode
  deriving DecidableEq, Repr

/-- `ToAddressFromString`. -/
def ToAddressFromString (s : GoString) : Except ParseError common.Address :=
  if s.length < 3 ∨
      (strings.HasPrefix s (str "0x") = false ∧ strings.HasPrefix s (str "0X") = false) then
    Except.error (ParseError.invalidAddress s)
  else
    match hex.DecodeString (s.drop 2) with
    | none => Except.error ParseError.decode
    | some b => Except.ok (common.BytesToAddress b)

/-- `ToSliceStringFromString`: the loop over the parts appends each part that
is not empty after `TrimSpace`. -/
def ToSliceStringFromString (s : GoString) : Except ParseError (List GoString) :=
  Except.ok
    ((strings.Split s 44).foldl
      (fun result part =>
        if strings.TrimSpace part = [] then result else result ++ [strings.TrimSpace part])
      [])

end configs

namespace ethutil

/-- `TrimHex`. -/
def TrimHex (s : GoString) : GoString :=
  strings.TrimSpace (strings.TrimPrefix (strings.TrimPrefix s (str "0x")) (str "0X"))

end ethutil

/-! ## The simulator: `entity/sensor.go`, `sampling/confidence.go`, `usecase/emit_data.go` -/

namespace simulator

/-- The run-time panic of `make` with a length out of range. -/
inductive Panic
  | makeslice
  deriving DecidableEq, Repr

namespace entity

/-- `Param`. -/
structure Param where
  Min : Int
  Max : Int
  Factor : Float64
  deriving DecidableEq, Repr

/-- `Sensor`; the map `Params` as the list of its entries. -/
structure Sensor where
  Id : ObjectID
  Name : GoString
  Latitude : Float64
  Longitude : Float64
  Receiver : GoString
  Amount : GoString
  Params : List (GoString × Param)
  deriving DecidableEq, Repr

/-- `(*Sensor).Validate`; `none` is a nil error, `some msg` is
`errors.New(msg)`. -/
def Sensor.Validate (s : Sensor) : Option String :=
  if s.Name = [] then some "name is required"
  else if s.Latitude = 0 then some "latitude is required"
  else if s.Longitude = 0 then some "longitude is required"
  else if s.Receiver = [] then some "receiver is required"
  else if s.Amount = [] then some "amount is required and must be positive"
  else if s.Params.length = 0 then some "params is required"
  else none

/-- `NewSensor`; `none` is the nil pointer. -/
def NewSensor (name : GoString) (latitude longitude : Float64) (receiver amount : GoString)
    (params : List (GoString × Param)) : Option Sensor :=
  let sensor : Sensor :=
    { Id := 0, Name := name, Latitude := latitude, Longitude := longitude,
      Receiver := receiver, Amount := amount, Params := params }
  match sensor.Validate with
  | some _ => none
  | none => some sensor

end entity

namespace sampling

/-- Arithmetic of the 64-bit `int`: the result wraps around. -/
def wrapInt (x : Int) : Int := (x + 2 ^ 63) % 2 ^ 64 - 2 ^ 63

/-- `math.Round`: to the nearest integer, halves away from zero. -/
def Round (x : Float64) : Float64 :=
  if 0 ≤ x then (Rat.floor (x + 1 / 2) : Int) else -((Rat.floor (-x + 1 / 2) : Int) : Float64)

/-- `calculateConfidenceInterval`, with `stat.MeanStdDev` and `math.Sqrt` as
`MeanStdDev` and `Sqrt`. `make([]float64, n)` panics when `n` is negative or
the slice would exceed the address space (`n > 2^45` elements of 8 bytes). -/
def calculateConfidenceInterval (MeanStdDev : List Float64 → Float64 × Float64)
    (Sqrt : Float64 → Float64) (min max : Int) (factor : Float64) :
    Except Panic (Float64 × Float64) :=
  let n := wrapInt (wrapInt (max - min) + 1)
  if n < 0 ∨ 2 ^ 45 < n then Except.error Panic.makeslice
  else
    let intervalValues : List Float64 :=
      (List.range n.toNat).map (fun i => (min : Float64) + (i : Float64))
    let confidenceFactor :=
      (MeanStdDev intervalValues).2 / Sqrt (intervalValues.length : Float64)
    Except.ok ((MeanStdDev intervalValues).1 - factor * confidenceFactor,
               (MeanStdDev intervalValues).1 + factor * confidenceFactor)

/-- `GenerateValue`; `u` is the draw `g.rng.Float64()`. -/
def GenerateValue (MeanStdDev : List Float64 → Float64 × Float64)
    (Sqrt : Float64 → Float64) (u : Float64) (min max : Int) (factor : Float64) :
    Except Panic Float64 :=
  match calculateConfidenceInterval MeanStdDev Sqrt min max factor with
  | Except.error panic => Except.error panic
  | Except.ok (lowerBound, upperBound) =>
      Except.ok (Round (u * (upperBound - lowerBound) + lowerBound))

end sampling

namespace usecase

open entity

/-- `EmitDataOutputDTO`. -/
structure EmitDataOutputDTO where
  Name : GoString
  Latitude : Float64
  Longitude : Float64
  Receiver : GoString
  Amount : GoString
  Data : GoString
  deriving DecidableEq, Repr

/-- What `EmitDataUseCase.Execute` calls and does not define: the repository
behind the `SensorRepository` interface (`none` is an error), the two
numerical library functions, `json.Marshal` of the data map (`none` is an
error) and the event dispatcher (`true` is an error). -/
structure Env where
  FindSensorById : ObjectID → Option Sensor
  MeanStdDev : List Float64 → Float64 × Float64
  Sqrt : Float64 → Float64
  Marshal : List (GoString × Float64) → Option GoString
  Dispatch : EmitDataOutputDTO → Bool

/-- How a call of `Execute` ends. -/
inductive Outcome
  | ok (dto : EmitDataOutputDTO)
  | error
  | panicked (panic : Panic)
  deriving DecidableEq, Repr

/-- The loop of lines 53-55 over the entries of `Params`, in the order the
map yields them; `draws` are the values of `rng.Float64()`, one per entry
(0 when the list runs out). -/
def generate (env : Env) : List (GoString × Param) → List Float64 →
    Except Panic (List (GoString × Float64))
  | [], _ => Except.ok []
  | entry :: rest, draws =>
      (sampling.GenerateValue env.MeanStdDev env.Sqrt (draws.headD 0) entry.2.Min
          entry.2.Max entry.2.Factor).bind
        (fun value =>
          (generate env rest draws.tail).map (fun data => (entry.1, value) :: data))

/-- `(*EmitDataUseCase).Execute`. -/
def Execute (env : Env) (id : ObjectID) (draws : List Float64) : Outcome :=
  match env.FindSensorById id with
  | none => Outcome.error
  | some res =>
      match generate env res.Params draws with
      | Except.error panic => Outcome.panicked panic
      | Except.ok data =>
          match env.Marshal data with
          | none => Outcome.error
          | some dataBytes =>
              let dto : EmitDataOutputDTO :=
                { Name := res.Name, Latitude := res.Latitude, Longitude := res.Longitude,
                  Receiver := res.Receiver, Amount := res.Amount, Data := dataBytes }
              if env.Dispatch dto = true then Outcome.error else Outcome.ok dto

end usecase

end simulator

/-! ## Sample values for the last properties -/

namespace workerpool

/-- A run of a one-worker pool in which the goroutine of the first `Start`
is overtaken: `Stop` is called, the worker returns, the goroutine passes
`Wait`, `Stop` returns, the goroutine closes its result channel, `Start` is
called again, and only then the goroutine takes the mutex and sets the
state. -/
def staleCloserSchedule : List (Action Nat) :=
  [Action.start, Action.stopEnter, Action.workerStop 0, Action.closerWait 0,
   Action.stopReturn, Action.closerClose 0, Action.start, Action.closerIdle 0]

/-- The run of `staleCloserSchedule` with the worker of the second `Start`
(position 1) entering its `select` before the goroutine of the first `Start`
sets the state, followed by a third `Start`: the pool is running with two
live workers, and the worker of the second `Start` waits on the stop channel
of the second `Start`, which is no longer `wp.stopCh`. -/
def staleWorkerSchedule : List (Action Nat) :=
  [Action.start, Action.stopEnter, Action.workerStop 0, Action.closerWait 0,
   Action.stopReturn, Action.closerClose 0, Action.start, Action.workerEnter 1,
   Action.closerIdle 0, Action.start]

end workerpool

namespace relayer

open usecase mongodb entity

/-- The served sample service after a call of `Stop` has run lines 374-384:
the stop signal and both queues are closed, the pool still runs, the three
stage goroutines have not returned yet, the call stands before line 386. -/
def drainingPipeline : Pipeline :=
  { svc := closedService
    poolState := workerpool.State.StateRunning
    workers := List.replicate 5 WorkerPC.idle
    results := []
    stages := [Stage.settlement, Stage.ack, Stage.ingestion]
    stops := [{ pc := StopPC.line386, errs := [] }]
    panic := none }

/-- The sample service with a chain client whose pending nonce is `2^63`. -/
def highNonceService : Service :=
  Create sampleToken sampleConsumer emptyRepository
    { sampleClient with pending := 2 ^ 63 } sampleTxOpts

/-- A message like `sampleMessage` with another address in its `token`
field. -/
def otherTokenMessage : kafka.Message :=
  { Key := str "sensor-1"
    Value :=
      str "\x7b\"token\":\"0x0000000000000000000000000000000000000007\"," ++
      str "\"amount\":\"100\",\"receiver\":\"0x0000000000000000000000000000000000000022\"," ++
      str "\"latitude\":1,\"longitude\":2,\"data\":\"x\"\x7d"
    Partition := 0
    Offset := 9 }

/-- What `json.Unmarshal` does on the values of `sampleMessage` and
`otherTokenMessage`. -/
def tokenUnmarshal (value : GoString) : Option CreateRewardInputDTO :=
  if value = sampleMessage.Value then some sampleDecoded
  else if value = otherTokenMessage.Value then
    some { sampleEvent with
             Token := common.HexToAddress (str "0x0000000000000000000000000000000000000007") }
  else none

end relayer

namespace simulator

open entity

/-- A sensor that passes `Validate`, with one parameter whose interval runs
from 20 to 30. -/
def sampleSensor : Sensor :=
  { Id := 1
    Name := str "station-1"
    Latitude := 1
    Longitude := 2
    Receiver := str "0x0000000000000000000000000000000000000022"
    Amount := str "100"
    Params := [(str "temperature", { Min := 20, Max := 30, Factor := 2 })] }

/-- The sample sensor with the amount `-5`. -/
def negativeAmountSensor : Sensor :=
  { sampleSensor with Amount := str "-5" }

/-- The sample sensor with an interval whose `min` is above its `max`. -/
def invertedSensor : Sensor :=
  { sampleSensor with
      Params := [(str "temperature", { Min := 10, Max := 5, Factor := 2 })] }

/-- An environment whose repository holds `invertedSensor` under id 1; the
library functions are stand-ins that the run never reaches. -/
def invertedEnv : usecase.Env :=
  { FindSensorById := fun id => if id = 1 then some invertedSensor else none
    MeanStdDev := fun _ => (0, 0)
    Sqrt := fun x => x
    Marshal := fun _ => some []
    Dispatch := fun _ => false }

end simulator

namespace workerpool

variable {J R : Type}

/-! ## Properties of the worker pool -/

theorem modify_split {α : Type} (f : α → α) (l : List α) (i : Nat) (a : α)
    (h : l[i]? = some a) :
    ∃ l₁ l₂, l = l₁ ++ a :: l₂ ∧ l.modify f i = l₁ ++ f a :: l₂ := by
  obtain ⟨hi, ha⟩ := List.getElem?_eq_some.mp h
  obtain ⟨l₁, b, l₂, hl, hlen, hm⟩ := List.exists_of_modify f hi
  have hb : b = a := by
    subst hl
    subst hlen
    rw [List.getElem?_append_right (le_refl _)] at h
    simpa using h
  subst hb
  exact ⟨l₁, l₂, hl, hm⟩

theorem Inv_fresh (f : ProcessFunc J R) (cfg : Config) : Inv (World.fresh f cfg) := by
  constructor <;> simp [World.fresh, New, World.isClosed]
  split
  · exact le_refl _
  · omega

theorem countP_spawn (n : Int) (c : Nat) :
    (spawnWorkers n c : List (Worker R)).countP Worker.isLive = n.toNat := by
  unfold spawnWorkers
  rw [List.countP_eq_length.mpr]
  · simp
  · intro wk hwk
    simp only [List.mem_map] at hwk
    obtain ⟨i, _, rfl⟩ := hwk
    rfl

theorem Inv_Start (w : World J R) (h : Inv w) : Inv (Start w).2 := by
  unfold Start
  split
  · exact h
  · rename_i hidle
    have hwg := h.wg_live
    have hc := h.count_pos
    have hnn : ¬ (w.pool.stopWg + w.pool.workerCount < 0) := by omega
    simp only [hnn, if_false]
    constructor
    · exact h.count_pos
    · simp only [List.countP_append, countP_spawn, hwg]
      push_cast
      omega
    · intro c hc
      have := h.closed_lt c hc
      simp only
      omega
    · simp
    · intro k hk
      simp only [List.mem_append, List.mem_singleton] at hk
      rcases hk with hk | hk
      · have := h.closer_lt k hk
        have := h.stop_lt
        simp only
        omega
      · subst hk
        simp
    · intro _
      simp only [World.isClosed, List.contains_eq_any_beq, List.any_eq_false, beq_iff_eq]
      intro c hc
      have := h.closed_lt c hc
      simp
      omega
    · intro hm
      have := h.mutex_stopping hm
      simp at hidle
      rw [hidle] at this
      cases this

theorem Inv_congr {w w1 : World J R} (h : Inv w) (hp : w1.pool = w.pool)
    (hn : w1.nextChan = w.nextChan) (hc : w1.closedChans = w.closedChans)
    (hw : w1.workers = w.workers) (hk : w1.closers = w.closers) : Inv w1 := by
  obtain ⟨a, b, c, d, e, f, g⟩ := h
  constructor
  · rw [hp]; exact a
  · rw [hp, hw]; exact b
  · rw [hc, hn]; exact c
  · rw [hp, hn]; exact d
  · rw [hk, hp]; exact e
  · rw [hp]; unfold World.isClosed; rw [hc]; exact f
  · rw [hp]; exact g

theorem countP_setWorkerPC (w : World J R) (i : Nat) (wk : Worker R) (pc : WorkerPC R)
    (h : w.workers[i]? = some wk) :
    (setWorkerPC w i pc).workers.countP Worker.isLive + (if wk.isLive then 1 else 0)
      = w.workers.countP Worker.isLive
          + (if ({ wk with pc := pc } : Worker R).isLive then 1 else 0) := by
  obtain ⟨l₁, l₂, hl, hm⟩ := modify_split (fun wk => { wk with pc := pc }) w.workers i wk h
  simp only [setWorkerPC, hm]
  rw [hl]
  simp only [List.countP_append, List.countP_cons]
  omega

/-- A live worker returns: it is marked exited and its deferred `Done` runs. -/
theorem Inv_exit {w : World J R} (h : Inv w) (i : Nat) (wk : Worker R)
    (hi : w.workers[i]? = some wk) (hl : wk.isLive = true) :
    Inv (wgDone (setWorkerPC w i WorkerPC.exited)) ∧
      (wgDone (setWorkerPC w i WorkerPC.exited)).crashed = w.crashed := by
  have hcount := countP_setWorkerPC w i wk WorkerPC.exited hi
  have hx : ({ wk with pc := WorkerPC.exited } : Worker R).isLive = false := rfl
  simp only [hl, hx, if_true] at hcount
  have hwg := h.wg_live
  refine ⟨?_, ?_⟩
  · constructor
    · exact h.count_pos
    · show w.pool.stopWg - 1 = _
      simp only [wgDone]
      rw [hwg]
      simp at hcount
      omega
    · exact h.closed_lt
    · exact h.stop_lt
    · exact h.closer_lt
    · exact h.running_open
    · exact h.mutex_stopping
  · simp only [wgDone, setWorkerPC]
    simp at hcount
    have : ¬ (w.pool.stopWg - 1 < 0) := by omega
    simp [this]

/-- A worker moves between its two `select` statements. -/
theorem Inv_move {w : World J R} (h : Inv w) (i : Nat) (wk : Worker R) (pc : WorkerPC R)
    (hi : w.workers[i]? = some wk) (hl : wk.isLive = true)
    (hpc : ({ wk with pc := pc } : Worker R).isLive = true) :
    Inv (setWorkerPC w i pc) := by
  have hcount := countP_setWorkerPC w i wk pc hi
  simp only [hl, hpc, if_true] at hcount
  constructor
  · exact h.count_pos
  · show w.pool.stopWg = _
    rw [h.wg_live]
    simp at hcount
    omega
  · exact h.closed_lt
  · exact h.stop_lt
  · exact h.closer_lt
  · exact h.running_open
  · exact h.mutex_stopping


theorem Inv_StopEnter (w : World J R) (h : Inv w) : Inv (StopEnter w).2 := by
  unfold StopEnter
  split
  · exact h
  · constructor
    · exact h.count_pos
    · exact h.wg_live
    · intro c hc
      simp only [List.mem_cons] at hc
      rcases hc with hc | hc
      · subst hc; exact h.stop_lt
      · exact h.closed_lt c hc
    · exact h.stop_lt
    · exact h.closer_lt
    · intro hs; simp at hs
    · intro _; rfl

theorem Inv_StopReturn (w : World J R) (h : Inv w) : Inv (StopReturn w) := by
  constructor
  · exact h.count_pos
  · exact h.wg_live
  · exact h.closed_lt
  · exact h.stop_lt
  · exact h.closer_lt
  · intro hs; simp [StopReturn] at hs
  · intro hs; simp [StopReturn] at hs

theorem Inv_workerQuit {w w1 : World J R} (h : Inv w) (i : Nat) (wk : Worker R)
    (hi : w.workers[i]? = some wk) (hq : workerQuit w i wk = some w1) :
    Inv w1 ∧ w1.crashed = w.crashed := by
  unfold workerQuit at hq
  split at hq
  · rename_i hpc
    cases hq
    exact Inv_exit h i wk hi (by simp [Worker.isLive, hpc])
  · rename_i r hpc
    cases hq
    have h2 : Inv ({ w with dropped := w.dropped ++ [(wk.resultCh, r)] } : World J R) :=
      Inv_congr h rfl rfl rfl rfl rfl
    exact Inv_exit h2 i wk hi (by simp [Worker.isLive, hpc])
  · cases hq

theorem Inv_crash_irrelevant {w : World J R} (h : Inv w) (b : Bool) :
    Inv ({ w with crashed := b } : World J R) :=
  Inv_congr h rfl rfl rfl rfl rfl

theorem Inv_workerRecv {w w1 : World J R} (h : Inv w) (i : Nat) (wk : Worker R)
    (hi : w.workers[i]? = some wk) (hq : workerRecv w i wk = some w1) : Inv w1 := by
  unfold workerRecv at hq
  split at hq
  · rename_i hpc
    have hl : wk.isLive = true := by simp [Worker.isLive, hpc]
    split at hq
    · rename_i job rest hbuf
      have h2 : Inv ({ w with inputBuf := rest
                              taken := w.taken ++ [(wk.resultCh, w.ctxDone, job)] } :
                      World J R) := Inv_congr h rfl rfl rfl rfl rfl
      split at hq
      · cases hq
        exact Inv_move h2 i wk _ hi hl rfl
      · cases hq
        exact Inv_crash_irrelevant (Inv_exit h2 i wk hi hl).1 true
    · split at hq
      · cases hq
        exact (Inv_exit h i wk hi hl).1
      · cases hq
  · cases hq

theorem Inv_workerSend {w w1 : World J R} (h : Inv w) (i : Nat) (wk : Worker R)
    (hi : w.workers[i]? = some wk) (hq : workerSend w i wk = some w1) : Inv w1 := by
  unfold workerSend at hq
  split at hq
  · rename_i r hpc
    have hl : wk.isLive = true := by simp [Worker.isLive, hpc]
    split at hq
    · cases hq
      have h2 : Inv ({ w with dropped := w.dropped ++ [(wk.resultCh, r)] } : World J R) :=
        Inv_congr h rfl rfl rfl rfl rfl
      exact Inv_crash_irrelevant (Inv_exit h2 i wk hi hl).1 true
    · cases hq
      have h2 : Inv ({ w with delivered := w.delivered ++ [(wk.resultCh, r)] } : World J R) :=
        Inv_congr h rfl rfl rfl rfl rfl
      exact Inv_move h2 i wk _ hi hl rfl
  · cases hq

theorem closers_setCloserPC (w : World J R) (k : Nat) (c : Closer) (pc : CloserPC)
    (hk : w.closers[k]? = some c) :
    ∀ c1 ∈ (setCloserPC w k pc).closers, ∃ c0 ∈ w.closers, c1.resultCh = c0.resultCh := by
  obtain ⟨l₁, l₂, hl, hm⟩ := modify_split (fun c => { c with pc := pc }) w.closers k c hk
  intro c1 hc1
  simp only [setCloserPC, hm, List.mem_append, List.mem_cons] at hc1
  rw [hl]
  rcases hc1 with hc1 | hc1 | hc1
  · exact ⟨c1, by simp [hc1], rfl⟩
  · exact ⟨c, by simp, by rw [hc1]⟩
  · exact ⟨c1, by simp [hc1], rfl⟩

theorem Inv_setCloserPC {w : World J R} (h : Inv w) (k : Nat) (c : Closer) (pc : CloserPC)
    (hk : w.closers[k]? = some c) : Inv (setCloserPC w k pc) := by
  constructor
  · exact h.count_pos
  · exact h.wg_live
  · exact h.closed_lt
  · exact h.stop_lt
  · intro c1 hc1
    obtain ⟨c0, hc0, heq⟩ := closers_setCloserPC w k c pc hk c1 hc1
    rw [heq]
    exact h.closer_lt c0 hc0
  · exact h.running_open
  · exact h.mutex_stopping

/-- Entering a `select` changes nothing but what the worker watches. -/
theorem workerEnter_frame {w w1 : World J R} {i : Nat} {wk : Worker R}
    (hq : workerEnter w i wk = some w1) :
    w.watch i = none ∧ wk.isLive = true ∧
      w1 = { w with watch := Function.update w.watch i (some w.pool.stopCh) } := by
  unfold workerEnter at hq
  cases hpc : wk.pc <;> cases hw : w.watch i <;> rw [hpc, hw] at hq <;> simp only at hq <;>
    cases hq <;> exact ⟨rfl, by simp [Worker.isLive, hpc], rfl⟩

theorem Inv_step {w w1 : World J R} {a : Action J} (h : Inv w) (hs : step w a = some w1) :
    Inv w1 := by
  unfold step at hs
  split at hs
  · cases hs
  · cases a with
    | start =>
        simp only at hs
        split at hs
        · cases hs
        · cases hs; exact Inv_Start w h
    | stopEnter =>
        simp only at hs
        split at hs
        · cases hs
        · cases hs; exact Inv_StopEnter w h
    | stopReturn =>
        simp only at hs
        split at hs
        · cases hs; exact Inv_StopReturn w h
        · cases hs
    | send job =>
        simp only at hs
        split at hs
        · cases hs
        · cases hs; exact Inv_congr h rfl rfl rfl rfl rfl
    | closeInput =>
        simp only at hs
        split at hs
        · cases hs
        · cases hs; exact Inv_congr h rfl rfl rfl rfl rfl
    | cancel =>
        simp only at hs
        cases hs; exact Inv_congr h rfl rfl rfl rfl rfl
    | workerStop i =>
        simp only at hs
        split at hs
        · rename_i wk hi
          split at hs
          · exact (Inv_workerQuit h i wk hi hs).1
          · cases hs
        · cases hs
    | workerCtx i =>
        simp only at hs
        split at hs
        · rename_i wk hi
          split at hs
          · exact (Inv_workerQuit h i wk hi hs).1
          · cases hs
        · cases hs
    | workerRecv i =>
        simp only at hs
        split at hs
        · rename_i wk hi
          exact Inv_workerRecv h i wk hi hs
        · cases hs
    | workerSend i =>
        simp only at hs
        split at hs
        · rename_i wk hi
          exact Inv_workerSend h i wk hi hs
        · cases hs
    | workerEnter i =>
        simp only at hs
        split at hs
        · rw [(workerEnter_frame hs).2.2]
          exact Inv_congr h rfl rfl rfl rfl rfl
        · cases hs
    | closerWait k =>
        simp only at hs
        split at hs
        · rename_i c hk
          split at hs
          · cases hs; exact Inv_setCloserPC h k c _ hk
          · cases hs
        · cases hs
    | closerClose k =>
        simp only at hs
        split at hs
        · rename_i c hk
          split at hs
          · cases hs
            have h2 := Inv_setCloserPC h k c CloserPC.closedCh hk
            have hmem : c ∈ w.closers := List.getElem?_mem hk
            have hlt := h.closer_lt c hmem
            have hsl := h.stop_lt
            constructor
            · exact h2.count_pos
            · exact h2.wg_live
            · intro c1 hc1
              simp only [List.mem_cons] at hc1
              rcases hc1 with hc1 | hc1
              · subst hc1
                show c.resultCh < w.nextChan
                omega
              · exact h.closed_lt c1 hc1
            · exact h2.stop_lt
            · exact h2.closer_lt
            · intro hrun
              have := h.running_open hrun
              simp only [World.isClosed, List.contains_cons, Bool.or_eq_false_iff]
              refine ⟨?_, this⟩
              simp only [beq_eq_false_iff_ne]
              show w.pool.stopCh ≠ c.resultCh
              omega
            · exact h2.mutex_stopping
          · cases hs
        · cases hs
    | closerIdle k =>
        simp only at hs
        split at hs
        · rename_i c hk
          split at hs
          · rename_i hg
            cases hs
            have h2 := Inv_setCloserPC h k c CloserPC.finished hk
            constructor
            · exact h2.count_pos
            · exact h2.wg_live
            · exact h2.closed_lt
            · exact h2.stop_lt
            · exact h2.closer_lt
            · intro hrun; simp at hrun
            · intro hm
              have := hg.2
              simp only [setCloserPC] at hm
              rw [this] at hm
              cases hm
          · cases hs
        · cases hs

theorem Inv_run {acts : List (Action J)} {w w1 : World J R} (h : Inv w)
    (hr : run w acts = some w1) : Inv w1 := by
  induction acts generalizing w with
  | nil => simp only [run] at hr; cases hr; exact h
  | cons a rest ih =>
      simp only [run] at hr
      cases hs : step w a with
      | none => rw [hs] at hr; cases hr
      | some w2 =>
          rw [hs] at hr
          exact ih (Inv_step h hs) hr

theorem Start_config (w : World J R) :
    (Start w).2.pool.workerCount = w.pool.workerCount ∧
      (Start w).2.pool.processFunc = w.pool.processFunc := by
  unfold Start
  split
  · exact ⟨rfl, rfl⟩
  · split <;> exact ⟨rfl, rfl⟩

theorem StopEnter_config (w : World J R) :
    (StopEnter w).2.pool.workerCount = w.pool.workerCount ∧
      (StopEnter w).2.pool.processFunc = w.pool.processFunc := by
  unfold StopEnter
  split <;> exact ⟨rfl, rfl⟩

/-- What a step never touches: the task function and the worker count. -/
theorem step_config {w w1 : World J R} {a : Action J} (hs : step w a = some w1) :
    w1.pool.workerCount = w.pool.workerCount ∧ w1.pool.processFunc = w.pool.processFunc := by
  unfold step at hs
  split at hs
  · cases hs
  · cases a <;> simp only at hs <;> (repeat' split at hs) <;>
      (try simp only [workerQuit, workerRecv, workerSend, workerEnter] at hs) <;>
      (repeat' split at hs) <;> cases hs <;>
      first
        | exact Start_config w
        | exact StopEnter_config w
        | exact ⟨rfl, rfl⟩

theorem run_config {acts : List (Action J)} {w w1 : World J R} (hr : run w acts = some w1) :
    w1.pool.workerCount = w.pool.workerCount ∧ w1.pool.processFunc = w.pool.processFunc := by
  induction acts generalizing w with
  | nil => simp only [run] at hr; cases hr; exact ⟨rfl, rfl⟩
  | cons a rest ih =>
      simp only [run] at hr
      cases hs : step w a with
      | none => rw [hs] at hr; cases hr
      | some w2 =>
          rw [hs] at hr
          have h1 := step_config hs
          have h2 := ih hr
          exact ⟨h2.1.trans h1.1, h2.2.trans h1.2⟩

theorem workerQuit_frame {w w1 : World J R} {i : Nat} {wk : Worker R}
    (hq : workerQuit w i wk = some w1) :
    w1.pool.stopCh = w.pool.stopCh ∧ w1.pool.state = w.pool.state ∧
      w1.pool.stateMutex = w.pool.stateMutex ∧ w1.closedChans = w.closedChans ∧
      w1.pool.stopWg = w.pool.stopWg - 1 := by
  unfold workerQuit at hq
  split at hq <;> cases hq <;> exact ⟨rfl, rfl, rfl, rfl, rfl⟩

theorem exists_live_index (l : List (Worker R)) (h : 0 < l.countP Worker.isLive) :
    ∃ (i : Nat) (wk : Worker R), l[i]? = some wk ∧ wk.isLive = true := by
  obtain ⟨wk, hmem, hl⟩ := List.countP_pos_iff.mp h
  obtain ⟨i, hi, hget⟩ := List.getElem_of_mem hmem
  exact ⟨i, wk, by rw [List.getElem?_eq_getElem hi, hget], hl⟩

theorem Acc_fresh (f : ProcessFunc J R) (cfg : Config) : Acc (World.fresh f cfg) := by
  constructor <;> simp [World.fresh, World.held, World.produced]

theorem Acc_congr {w w1 : World J R} (h : Acc w)
    (hs : w1.sent = w.sent) (ht : w1.taken = w.taken) (hb : w1.inputBuf = w.inputBuf)
    (hd : w1.delivered = w.delivered) (hdr : w1.dropped = w.dropped)
    (hh : w1.held = w.held) (hp : w1.pool.processFunc = w.pool.processFunc) : Acc w1 := by
  obtain ⟨a, b⟩ := h
  constructor
  · rw [hs, ht, hb]; exact a
  · unfold World.produced
    rw [hd, hdr, hh, ht, hp]; exact b

theorem held_setWorkerPC (w : World J R) (i : Nat) (wk : Worker R) (pc : WorkerPC R)
    (h : w.workers[i]? = some wk) :
    ∃ l₁ l₂ : List (Nat × R),
      w.held = l₁ ++ wk.holding.toList ++ l₂ ∧
      (setWorkerPC w i pc).held
        = l₁ ++ ({ wk with pc := pc } : Worker R).holding.toList ++ l₂ := by
  obtain ⟨l₁, l₂, hl, hm⟩ := modify_split (fun wk => { wk with pc := pc }) w.workers i wk h
  refine ⟨l₁.filterMap Worker.holding, l₂.filterMap Worker.holding, ?_, ?_⟩
  · unfold World.held
    rw [hl, List.filterMap_append, List.filterMap_cons]
    cases wk.holding <;> simp
  · unfold World.held
    simp only [setWorkerPC, hm]
    rw [List.filterMap_append, List.filterMap_cons]
    cases ({ wk with pc := pc } : Worker R).holding <;> simp

theorem held_spawn (n : Int) (c : Nat) :
    (spawnWorkers n c : List (Worker R)).filterMap Worker.holding = [] := by
  unfold spawnWorkers
  rw [List.filterMap_eq_nil_iff]
  intro wk hwk
  simp only [List.mem_map] at hwk
  obtain ⟨i, _, rfl⟩ := hwk
  rfl

theorem held_wgDone (w : World J R) : (wgDone w).held = w.held := rfl

theorem Acc_Start (w : World J R) (h : Acc w) : Acc (Start w).2 := by
  unfold Start
  split
  · exact h
  · split
    · exact Acc_congr h rfl rfl rfl rfl rfl rfl rfl
    · refine Acc_congr h rfl rfl rfl rfl rfl ?_ rfl
      simp only [World.held, List.filterMap_append, held_spawn, List.append_nil]

theorem Acc_StopEnter (w : World J R) (h : Acc w) : Acc (StopEnter w).2 := by
  unfold StopEnter
  split
  · exact h
  · exact Acc_congr h rfl rfl rfl rfl rfl rfl rfl

theorem Acc_workerQuit {w w1 : World J R} (h : Acc w) (i : Nat) (wk : Worker R)
    (hi : w.workers[i]? = some wk) (hq : workerQuit w i wk = some w1) : Acc w1 := by
  unfold workerQuit at hq
  split at hq
  · rename_i hpc
    cases hq
    obtain ⟨l₁, l₂, h1, h2⟩ := held_setWorkerPC w i wk WorkerPC.exited hi
    refine Acc_congr h rfl rfl rfl rfl rfl ?_ rfl
    rw [held_wgDone, h2, h1]
    simp [Worker.holding, hpc]
  · rename_i r hpc
    cases hq
    obtain ⟨l₁, l₂, h1, h2⟩ := held_setWorkerPC
      ({ w with dropped := w.dropped ++ [(wk.resultCh, r)] } : World J R) i wk
      WorkerPC.exited hi
    have h1' : w.held = l₁ ++ wk.holding.toList ++ l₂ := h1
    obtain ⟨a, b⟩ := h
    constructor
    · exact a
    · show ((w.delivered : Multiset (Nat × R))
          + ((w.dropped ++ [(wk.resultCh, r)] : List (Nat × R)) : Multiset (Nat × R))
          + ((wgDone (setWorkerPC ({ w with dropped := w.dropped ++ [(wk.resultCh, r)] } :
              World J R) i WorkerPC.exited)).held : Multiset (Nat × R)))
          = (w.produced : Multiset (Nat × R))
      rw [held_wgDone, h2, ← b, h1']
      simp only [Worker.holding, hpc, Option.toList, ← Multiset.coe_add, List.append_nil]
      abel
  · cases hq

theorem Acc_workerRecv {w w1 : World J R} (h : Acc w) (i : Nat) (wk : Worker R)
    (hi : w.workers[i]? = some wk) (hq : workerRecv w i wk = some w1) : Acc w1 := by
  unfold workerRecv at hq
  split at hq
  · rename_i hpc
    split at hq
    · rename_i job rest hbuf
      obtain ⟨a, b⟩ := h
      have hfifo : w.sent
          = (w.taken ++ [(wk.resultCh, w.ctxDone, job)]).map (fun t => t.2.2) ++ rest := by
        rw [a, hbuf]; simp
      split at hq
      · rename_i result hres
        cases hq
        obtain ⟨l₁, l₂, h1, h2⟩ := held_setWorkerPC
          ({ w with inputBuf := rest, taken := w.taken ++ [(wk.resultCh, w.ctxDone, job)] } : World J R) i wk
          (WorkerPC.sending result) hi
        have h1' : w.held = l₁ ++ wk.holding.toList ++ l₂ := h1
        constructor
        · exact hfifo
        · show ((w.delivered : Multiset (Nat × R)) + (w.dropped : Multiset (Nat × R))
              + ((setWorkerPC ({ w with inputBuf := rest, taken := w.taken ++ [(wk.resultCh, w.ctxDone, job)] } : World J R) i
                    (WorkerPC.sending result)).held : Multiset (Nat × R)))
              = (((w.taken ++ [(wk.resultCh, w.ctxDone, job)]).filterMap (fun t =>
                  match w.pool.processFunc t.2.1 t.2.2 with
                  | Outcome.returned r => some (t.1, r)
                  | Outcome.panicked => none) : List (Nat × R)) : Multiset (Nat × R))
          rw [h2, List.filterMap_append]
          have hp : (w.produced : Multiset (Nat × R)) = _ := b.symm
          unfold World.produced at hp
          simp only [← Multiset.coe_add, hp, h1']
          simp only [Worker.holding, hpc, Option.toList, List.filterMap_cons, hres,
            List.filterMap_nil, ← Multiset.coe_add, List.append_nil]
          simp only [Multiset.coe_nil, add_zero]
          abel
      · rename_i hres
        cases hq
        obtain ⟨l₁, l₂, h1, h2⟩ := held_setWorkerPC
          ({ w with inputBuf := rest, taken := w.taken ++ [(wk.resultCh, w.ctxDone, job)] } : World J R) i wk
          WorkerPC.exited hi
        have h1' : w.held = l₁ ++ wk.holding.toList ++ l₂ := h1
        constructor
        · exact hfifo
        · show ((w.delivered : Multiset (Nat × R)) + (w.dropped : Multiset (Nat × R))
              + ((setWorkerPC ({ w with inputBuf := rest, taken := w.taken ++ [(wk.resultCh, w.ctxDone, job)] } : World J R) i
                    WorkerPC.exited).held : Multiset (Nat × R)))
              = (((w.taken ++ [(wk.resultCh, w.ctxDone, job)]).filterMap (fun t =>
                  match w.pool.processFunc t.2.1 t.2.2 with
                  | Outcome.returned r => some (t.1, r)
                  | Outcome.panicked => none) : List (Nat × R)) : Multiset (Nat × R))
          rw [h2, List.filterMap_append]
          have hp : (w.produced : Multiset (Nat × R)) = _ := b.symm
          unfold World.produced at hp
          simp only [← Multiset.coe_add, hp, h1']
          simp only [Worker.holding, hpc, Option.toList, List.filterMap_cons, hres,
            List.filterMap_nil, ← Multiset.coe_add, List.append_nil]
          simp
    · split at hq
      · cases hq
        obtain ⟨l₁, l₂, h1, h2⟩ := held_setWorkerPC w i wk WorkerPC.exited hi
        refine Acc_congr h rfl rfl rfl rfl rfl ?_ rfl
        rw [held_wgDone, h2, h1]
        simp [Worker.holding, hpc]
      · cases hq
  · cases hq

/-- Moving one held result to the end of another list keeps the accounting. -/
theorem results_shift (d dr l₁ l₂ p : List (Nat × R)) (x : Nat × R)
    (h : ((d : Multiset (Nat × R)) + (dr : Multiset (Nat × R))
        + ((l₁ ++ [x] ++ l₂ : List (Nat × R)) : Multiset (Nat × R))) = (p : Multiset (Nat × R))) :
    (((d ++ [x] : List (Nat × R)) : Multiset (Nat × R)) + (dr : Multiset (Nat × R))
        + ((l₁ ++ [] ++ l₂ : List (Nat × R)) : Multiset (Nat × R))) = (p : Multiset (Nat × R)) ∧
    ((d : Multiset (Nat × R)) + ((dr ++ [x] : List (Nat × R)) : Multiset (Nat × R))
        + ((l₁ ++ [] ++ l₂ : List (Nat × R)) : Multiset (Nat × R))) = (p : Multiset (Nat × R)) := by
  rw [← h]
  simp only [← Multiset.coe_add, Multiset.coe_nil, add_zero]
  constructor <;> abel

theorem Acc_workerSend {w w1 : World J R} (h : Acc w) (i : Nat) (wk : Worker R)
    (hi : w.workers[i]? = some wk) (hq : workerSend w i wk = some w1) : Acc w1 := by
  unfold workerSend at hq
  split at hq
  · rename_i r hpc
    obtain ⟨a, b⟩ := h
    split at hq
    · cases hq
      obtain ⟨l₁, l₂, h1, h2⟩ := held_setWorkerPC
        ({ w with dropped := w.dropped ++ [(wk.resultCh, r)] } : World J R) i wk
        WorkerPC.exited hi
      have h1' : w.held = l₁ ++ wk.holding.toList ++ l₂ := h1
      rw [h1'] at b
      simp only [Worker.holding, hpc, Option.toList] at b
      refine ⟨a, ?_⟩
      have key := (results_shift _ _ _ _ _ _ b).2
      have h2' : (setWorkerPC ({ w with dropped := w.dropped ++ [(wk.resultCh, r)] } :
          World J R) i WorkerPC.exited).held = l₁ ++ [] ++ l₂ := h2
      rw [← h2'] at key
      exact key
    · cases hq
      obtain ⟨l₁, l₂, h1, h2⟩ := held_setWorkerPC
        ({ w with delivered := w.delivered ++ [(wk.resultCh, r)] } : World J R) i wk
        WorkerPC.selecting hi
      have h1' : w.held = l₁ ++ wk.holding.toList ++ l₂ := h1
      rw [h1'] at b
      simp only [Worker.holding, hpc, Option.toList] at b
      refine ⟨a, ?_⟩
      have key := (results_shift _ _ _ _ _ _ b).1
      have h2' : (setWorkerPC ({ w with delivered := w.delivered ++ [(wk.resultCh, r)] } :
          World J R) i WorkerPC.selecting).held = l₁ ++ [] ++ l₂ := h2
      rw [← h2'] at key
      exact key
  · cases hq

theorem Acc_step {w w1 : World J R} {a : Action J} (h : Acc w) (hs : step w a = some w1) :
    Acc w1 := by
  unfold step at hs
  split at hs
  · cases hs
  · cases a with
    | start =>
        simp only at hs
        split at hs
        · cases hs
        · cases hs; exact Acc_Start w h
    | stopEnter =>
        simp only at hs
        split at hs
        · cases hs
        · cases hs; exact Acc_StopEnter w h
    | stopReturn =>
        simp only at hs
        split at hs
        · cases hs; exact Acc_congr h rfl rfl rfl rfl rfl rfl rfl
        · cases hs
    | send job =>
        simp only at hs
        split at hs
        · cases hs
        · cases hs
          obtain ⟨a, b⟩ := h
          exact ⟨by show w.sent ++ [job] = _ ++ (w.inputBuf ++ [job]); rw [a]; simp, b⟩
    | closeInput =>
        simp only at hs
        split at hs
        · cases hs
        · cases hs; exact Acc_congr h rfl rfl rfl rfl rfl rfl rfl
    | cancel =>
        simp only at hs
        cases hs; exact Acc_congr h rfl rfl rfl rfl rfl rfl rfl
    | workerStop i =>
        simp only at hs
        split at hs
        · rename_i wk hi
          split at hs
          · exact Acc_workerQuit h i wk hi hs
          · cases hs
        · cases hs
    | workerCtx i =>
        simp only at hs
        split at hs
        · rename_i wk hi
          split at hs
          · exact Acc_workerQuit h i wk hi hs
          · cases hs
        · cases hs
    | workerRecv i =>
        simp only at hs
        split at hs
        · rename_i wk hi
          exact Acc_workerRecv h i wk hi hs
        · cases hs
    | workerSend i =>
        simp only at hs
        split at hs
        · rename_i wk hi
          exact Acc_workerSend h i wk hi hs
        · cases hs
    | workerEnter i =>
        simp only at hs
        split at hs
        · rw [(workerEnter_frame hs).2.2]
          exact Acc_congr h rfl rfl rfl rfl rfl rfl rfl
        · cases hs
    | closerWait k =>
        simp only at hs
        split at hs
        · split at hs
          · cases hs; exact Acc_congr h rfl rfl rfl rfl rfl rfl rfl
          · cases hs
        · cases hs
    | closerClose k =>
        simp only at hs
        split at hs
        · split at hs
          · cases hs; exact Acc_congr h rfl rfl rfl rfl rfl rfl rfl
          · cases hs
        · cases hs
    | closerIdle k =>
        simp only at hs
        split at hs
        · split at hs
          · cases hs; exact Acc_congr h rfl rfl rfl rfl rfl rfl rfl
          · cases hs
        · cases hs

theorem Acc_run {acts : List (Action J)} {w w1 : World J R} (h : Acc w)
    (hr : run w acts = some w1) : Acc w1 := by
  induction acts generalizing w with
  | nil => simp only [run] at hr; cases hr; exact h
  | cons a rest ih =>
      simp only [run] at hr
      cases hs : step w a with
      | none => rw [hs] at hr; cases hr
      | some w2 =>
          rw [hs] at hr
          exact ih (Acc_step h hs) hr

theorem Chans_fresh (f : ProcessFunc J R) (cfg : Config) : Chans (World.fresh f cfg) := by
  constructor <;> simp [World.fresh, New]

theorem watch_update_none {f : Nat → Option Nat} {i j c : Nat}
    (h : Function.update f i none j = some c) : f j = some c := by
  rw [Function.update_apply] at h
  split at h
  · cases h
  · exact h

theorem Chans_congr {w w1 : World J R} (h : Chans w) (hn : w1.nextChan = w.nextChan)
    (hs : w1.pool.stopCh = w.pool.stopCh)
    (hk : ∀ k ∈ w1.closers, ∃ k0 ∈ w.closers, k.resultCh = k0.resultCh)
    (hw : ∀ i c, w1.watch i = some c → w.watch i = some c ∨ c = w.pool.stopCh) :
    Chans w1 := by
  constructor
  · rw [hn]; exact h.next_odd
  · rw [hs]; exact h.stop_even
  · intro k hk1
    obtain ⟨k0, hk0, heq⟩ := hk k hk1
    rw [heq]; exact h.closer_odd k0 hk0
  · intro i c hc
    rcases hw i c hc with h1 | h1
    · exact h.watch_even i c h1
    · rw [h1]; exact h.stop_even

theorem Chans_Start (w : World J R) (h : Chans w) : Chans (Start w).2 := by
  have h1 := h.next_odd
  unfold Start
  split
  · exact h
  · split
    · exact ⟨by show (w.nextChan + 2) % 2 = 1; omega,
        by show (w.nextChan + 1) % 2 = 0; omega, h.closer_odd, h.watch_even⟩
    · refine ⟨by show (w.nextChan + 2) % 2 = 1; omega,
        by show (w.nextChan + 1) % 2 = 0; omega, ?_, h.watch_even⟩
      intro k hk
      simp only [List.mem_append, List.mem_singleton] at hk
      rcases hk with hk | hk
      · exact h.closer_odd k hk
      · subst hk; exact h1

/-- What a worker leaving a `select` through a returning case keeps. -/
theorem workerQuit_kept {w w1 : World J R} {i : Nat} {wk : Worker R}
    (hq : workerQuit w i wk = some w1) :
    w1.nextChan = w.nextChan ∧ w1.pool.stopCh = w.pool.stopCh ∧ w1.closers = w.closers ∧
      w1.closedChans = w.closedChans ∧ ∀ j c, w1.watch j = some c → w.watch j = some c := by
  unfold workerQuit at hq
  split at hq <;> cases hq <;>
    exact ⟨rfl, rfl, rfl, rfl, fun j c hj => watch_update_none hj⟩

theorem workerRecv_kept {w w1 : World J R} {i : Nat} {wk : Worker R}
    (hq : workerRecv w i wk = some w1) :
    w1.nextChan = w.nextChan ∧ w1.pool.stopCh = w.pool.stopCh ∧ w1.closers = w.closers ∧
      w1.closedChans = w.closedChans ∧ ∀ j c, w1.watch j = some c → w.watch j = some c := by
  unfold workerRecv at hq
  (repeat' split at hq) <;> cases hq <;>
    exact ⟨rfl, rfl, rfl, rfl, fun j c hj => watch_update_none hj⟩

theorem workerSend_kept {w w1 : World J R} {i : Nat} {wk : Worker R}
    (hq : workerSend w i wk = some w1) :
    w1.nextChan = w.nextChan ∧ w1.pool.stopCh = w.pool.stopCh ∧ w1.closers = w.closers ∧
      w1.closedChans = w.closedChans ∧ ∀ j c, w1.watch j = some c → w.watch j = some c := by
  unfold workerSend at hq
  (repeat' split at hq) <;> cases hq <;>
    exact ⟨rfl, rfl, rfl, rfl, fun j c hj => watch_update_none hj⟩

theorem Chans_step {w w1 : World J R} {a : Action J} (h : Chans w) (hs : step w a = some w1) :
    Chans w1 := by
  have keep : ∀ w2 : World J R,
      (w2.nextChan = w.nextChan ∧ w2.pool.stopCh = w.pool.stopCh ∧ w2.closers = w.closers ∧
        w2.closedChans = w.closedChans ∧ ∀ j c, w2.watch j = some c → w.watch j = some c) →
      Chans w2 := fun w2 hk =>
    Chans_congr h hk.1 hk.2.1 (fun k hk1 => ⟨k, by rw [← hk.2.2.1]; exact hk1, rfl⟩)
      (fun j c hj => Or.inl (hk.2.2.2.2 j c hj))
  unfold step at hs
  split at hs
  · cases hs
  · cases a with
    | start =>
        simp only at hs
        split at hs
        · cases hs
        · cases hs; exact Chans_Start w h
    | stopEnter =>
        simp only at hs
        split at hs
        · cases hs
        · cases hs
          unfold StopEnter
          split
          · exact h
          · exact ⟨h.next_odd, h.stop_even, h.closer_odd, h.watch_even⟩
    | stopReturn =>
        simp only at hs
        split at hs
        · cases hs; exact ⟨h.next_odd, h.stop_even, h.closer_odd, h.watch_even⟩
        · cases hs
    | send job =>
        simp only at hs
        split at hs
        · cases hs
        · cases hs; exact ⟨h.next_odd, h.stop_even, h.closer_odd, h.watch_even⟩
    | closeInput =>
        simp only at hs
        split at hs
        · cases hs
        · cases hs; exact ⟨h.next_odd, h.stop_even, h.closer_odd, h.watch_even⟩
    | cancel =>
        simp only at hs
        cases hs; exact ⟨h.next_odd, h.stop_even, h.closer_odd, h.watch_even⟩
    | workerStop i =>
        simp only at hs
        split at hs
        · split at hs
          · exact keep _ (workerQuit_kept hs)
          · cases hs
        · cases hs
    | workerCtx i =>
        simp only at hs
        split at hs
        · split at hs
          · exact keep _ (workerQuit_kept hs)
          · cases hs
        · cases hs
    | workerRecv i =>
        simp only at hs
        split at hs
        · exact keep _ (workerRecv_kept hs)
        · cases hs
    | workerSend i =>
        simp only at hs
        split at hs
        · exact keep _ (workerSend_kept hs)
        · cases hs
    | workerEnter i =>
        simp only at hs
        split at hs
        · rw [(workerEnter_frame hs).2.2]
          refine Chans_congr h rfl rfl (fun k hk => ⟨k, hk, rfl⟩) ?_
          intro j c hj
          have hj1 : Function.update w.watch i (some w.pool.stopCh) j = some c := hj
          rw [Function.update_apply] at hj1
          split at hj1
          · exact Or.inr (Option.some.inj hj1).symm
          · exact Or.inl hj1
        · cases hs
    | closerWait k =>
        simp only at hs
        split at hs
        · rename_i c hk
          split at hs
          · cases hs
            exact Chans_congr h rfl rfl (closers_setCloserPC w k c _ hk)
              (fun j c hj => Or.inl hj)
          · cases hs
        · cases hs
    | closerClose k =>
        simp only at hs
        split at hs
        · rename_i c hk
          split at hs
          · cases hs
            exact Chans_congr h rfl rfl (closers_setCloserPC w k c _ hk)
              (fun j c hj => Or.inl hj)
          · cases hs
        · cases hs
    | closerIdle k =>
        simp only at hs
        split at hs
        · rename_i c hk
          split at hs
          · cases hs
            exact Chans_congr h rfl rfl (closers_setCloserPC w k c _ hk)
              (fun j c hj => Or.inl hj)
          · cases hs
        · cases hs

theorem Chans_run {acts : List (Action J)} {w w1 : World J R} (h : Chans w)
    (hr : run w acts = some w1) : Chans w1 := by
  induction acts generalizing w with
  | nil => simp only [run] at hr; cases hr; exact h
  | cons a rest ih =>
      simp only [run] at hr
      cases hs : step w a with
      | none => rw [hs] at hr; cases hr
      | some w2 =>
          rw [hs] at hr
          exact ih (Chans_step h hs) hr

theorem Unstopped_fresh (f : ProcessFunc J R) (cfg : Config) :
    Unstopped (World.fresh f cfg) := by
  constructor
  simp [World.fresh]

/-- While no stop channel has been closed, every stop channel is open. -/
theorem Unstopped.isOpen {w : World J R} (h : Unstopped w) (c : Nat) (hc : c % 2 = 0) :
    w.isClosed c = false := by
  simp only [World.isClosed, List.contains_eq_any_beq, List.any_eq_false, beq_iff_eq]
  intro d hd heq
  have := h.closed_odd d hd
  omega

theorem Start_closed (w : World J R) : (Start w).2.closedChans = w.closedChans := by
  unfold Start
  split
  · rfl
  · split <;> rfl

theorem Unstopped_step {w w1 : World J R} {a : Action J} (hC : Chans w) (h : Unstopped w)
    (hs : step w a = some w1) (ha : a ≠ Action.stopEnter) : Unstopped w1 := by
  have keep : ∀ w2 : World J R, w2.closedChans = w.closedChans → Unstopped w2 :=
    fun w2 hk => ⟨by rw [hk]; exact h.closed_odd⟩
  unfold step at hs
  split at hs
  · cases hs
  · cases a with
    | start =>
        simp only at hs
        split at hs
        · cases hs
        · cases hs; exact keep _ (Start_closed w)
    | stopEnter => exact absurd rfl ha
    | stopReturn =>
        simp only at hs
        split at hs
        · cases hs; exact keep _ rfl
        · cases hs
    | send job =>
        simp only at hs
        split at hs
        · cases hs
        · cases hs; exact keep _ rfl
    | closeInput =>
        simp only at hs
        split at hs
        · cases hs
        · cases hs; exact keep _ rfl
    | cancel =>
        simp only at hs
        cases hs; exact keep _ rfl
    | workerStop i =>
        simp only at hs
        split at hs
        · split at hs
          · exact keep _ (workerQuit_kept hs).2.2.2.1
          · cases hs
        · cases hs
    | workerCtx i =>
        simp only at hs
        split at hs
        · split at hs
          · exact keep _ (workerQuit_kept hs).2.2.2.1
          · cases hs
        · cases hs
    | workerRecv i =>
        simp only at hs
        split at hs
        · exact keep _ (workerRecv_kept hs).2.2.2.1
        · cases hs
    | workerSend i =>
        simp only at hs
        split at hs
        · exact keep _ (workerSend_kept hs).2.2.2.1
        · cases hs
    | workerEnter i =>
        simp only at hs
        split at hs
        · rw [(workerEnter_frame hs).2.2]
          exact keep _ rfl
        · cases hs
    | closerWait k =>
        simp only at hs
        split at hs
        · split at hs
          · cases hs; exact keep _ rfl
          · cases hs
        · cases hs
    | closerClose k =>
        simp only at hs
        split at hs
        · rename_i c hk
          split at hs
          · cases hs
            constructor
            intro d hd
            have hd1 : d ∈ c.resultCh :: w.closedChans := hd
            simp only [List.mem_cons] at hd1
            rcases hd1 with hd1 | hd1
            · rw [hd1]; exact hC.closer_odd c (List.getElem?_mem hk)
            · exact h.closed_odd d hd1
          · cases hs
        · cases hs
    | closerIdle k =>
        simp only at hs
        split at hs
        · split at hs
          · cases hs; exact keep _ rfl
          · cases hs
        · cases hs

/-- The channel a worker's stop case waits on is a stop channel. -/
theorem Chans.watched_even {w : World J R} (h : Chans w) (i : Nat) :
    w.watched i % 2 = 0 := by
  unfold World.watched
  cases hw : w.watch i with
  | none => exact h.stop_even
  | some c => exact h.watch_even i c hw

theorem Quiet_fresh (f : ProcessFunc J R) (cfg : Config) : Quiet (World.fresh f cfg) := by
  constructor <;> simp [World.fresh, New, World.isClosed]

theorem mem_setWorkerPC {w : World J R} {i : Nat} {wk : Worker R} (pc : WorkerPC R)
    (hi : w.workers[i]? = some wk) (wk1 : Worker R)
    (h : wk1 ∈ (setWorkerPC w i pc).workers) :
    wk1 ∈ w.workers ∨ wk1 = { wk with pc := pc } := by
  obtain ⟨l₁, l₂, hl, hm⟩ := modify_split (fun wk => { wk with pc := pc }) w.workers i wk hi
  simp only [setWorkerPC, hm, List.mem_append, List.mem_cons] at h
  rw [hl]
  simp only [List.mem_append, List.mem_cons]
  tauto

theorem Quiet_Start (w : World J R) (hI : Inv w) (h : Quiet w) : Quiet (Start w).2 := by
  have hopen : ∀ c, w.nextChan ≤ c → w.closedChans.contains c = false := by
    intro c hc
    simp only [List.contains_eq_any_beq, List.any_eq_false, beq_iff_eq]
    intro d hd
    have := hI.closed_lt d hd
    omega
  unfold Start
  split
  · exact h
  · split
    · exact ⟨h.ctx, hopen _ (by simp), fun hc => by simp at hc, h.flags,
        fun hc => by simp at hc⟩
    · refine ⟨h.ctx, hopen _ (by simp), h.no_drop, h.flags, ?_⟩
      intro hc hex
      obtain ⟨wk, hwk, hpc⟩ := hex
      simp only [List.mem_append] at hwk
      rcases hwk with hwk | hwk
      · exact h.drained hc ⟨wk, hwk, hpc⟩
      · simp only [spawnWorkers, List.mem_map] at hwk
        obtain ⟨j, _, rfl⟩ := hwk
        cases hpc

theorem Quiet_workerRecv {w w1 : World J R} (h : Quiet w) (hc0 : w.crashed = false)
    (i : Nat) (wk : Worker R)
    (hi : w.workers[i]? = some wk) (hq : workerRecv w i wk = some w1) : Quiet w1 := by
  unfold workerRecv at hq
  split at hq
  · rename_i hpc
    split at hq
    · rename_i job rest hbuf
      have hflags : ∀ t ∈ w.taken ++ [(wk.resultCh, w.ctxDone, job)], t.2.1 = false := by
        intro t ht
        simp only [List.mem_append, List.mem_singleton] at ht
        rcases ht with ht | ht
        · exact h.flags t ht
        · subst ht; exact h.ctx
      split at hq
      · rename_i result hres
        cases hq
        refine ⟨h.ctx, h.stop_open, h.no_drop, hflags, ?_⟩
        intro _ hex
        obtain ⟨wk1, hwk1, hpc1⟩ := hex
        rcases mem_setWorkerPC (w := ({ w with inputBuf := rest, taken := w.taken ++ [(wk.resultCh, w.ctxDone, job)] } : World J R)) _ hi wk1 hwk1 with hm | hm
        · have := (h.drained hc0 ⟨wk1, hm, hpc1⟩).2
          rw [hbuf] at this
          cases this
        · subst hm
          cases hpc1
      · cases hq
        exact ⟨h.ctx, h.stop_open, fun hc => by simp at hc, hflags,
          fun hc => by simp at hc⟩
    · rename_i hbuf
      split at hq
      · rename_i hclosed
        cases hq
        exact ⟨h.ctx, h.stop_open, fun hc => h.no_drop hc0, h.flags,
          fun _ _ => ⟨hclosed, hbuf⟩⟩
      · cases hq
  · cases hq

theorem Quiet_workerSend {w w1 : World J R} (h : Quiet w) (hc0 : w.crashed = false)
    (i : Nat) (wk : Worker R)
    (hi : w.workers[i]? = some wk) (hq : workerSend w i wk = some w1) : Quiet w1 := by
  unfold workerSend at hq
  split at hq
  · rename_i r hpc
    split at hq
    · cases hq
      exact ⟨h.ctx, h.stop_open, fun hc => by simp at hc, h.flags,
        fun hc => by simp at hc⟩
    · cases hq
      refine ⟨h.ctx, h.stop_open, h.no_drop, h.flags, ?_⟩
      intro _ hex
      obtain ⟨wk1, hwk1, hpc1⟩ := hex
      rcases mem_setWorkerPC (w := ({ w with delivered := w.delivered ++ [(wk.resultCh, r)] } : World J R)) _ hi wk1 hwk1 with hm | hm
      · exact h.drained hc0 ⟨wk1, hm, hpc1⟩
      · subst hm
        cases hpc1
  · cases hq

theorem Quiet_step {w w1 : World J R} {a : Action J} (hI : Inv w) (hC : Chans w)
    (hU : Unstopped w) (h : Quiet w)
    (hs : step w a = some w1) (ha1 : a ≠ Action.stopEnter) (ha2 : a ≠ Action.cancel) :
    Quiet w1 := by
  unfold step at hs
  split at hs
  · cases hs
  · rename_i hcr
    have hc0 : w.crashed = false := by simpa using hcr
    cases a with
    | start =>
        simp only at hs
        split at hs
        · cases hs
        · cases hs; exact Quiet_Start w hI h
    | stopEnter => exact absurd rfl ha1
    | cancel => exact absurd rfl ha2
    | stopReturn =>
        simp only at hs
        split at hs
        · cases hs; exact ⟨h.ctx, h.stop_open, h.no_drop, h.flags, h.drained⟩
        · cases hs
    | send job =>
        simp only at hs
        split at hs
        · cases hs
        · rename_i hopen
          cases hs
          refine ⟨h.ctx, h.stop_open, h.no_drop, h.flags, ?_⟩
          intro _ hex
          exact absurd (h.drained hc0 hex).1 hopen
    | closeInput =>
        simp only at hs
        split at hs
        · cases hs
        · rename_i hopen
          cases hs
          refine ⟨h.ctx, h.stop_open, h.no_drop, h.flags, ?_⟩
          intro _ hex
          exact absurd (h.drained hc0 hex).1 hopen
    | workerStop i =>
        simp only at hs
        split at hs
        · split at hs
          · rename_i hcl
            rw [hU.isOpen _ (hC.watched_even i)] at hcl
            cases hcl
          · cases hs
        · cases hs
    | workerCtx i =>
        simp only at hs
        split at hs
        · split at hs
          · rename_i hcl
            rw [h.ctx] at hcl
            cases hcl
          · cases hs
        · cases hs
    | workerRecv i =>
        simp only at hs
        split at hs
        · rename_i wk hi
          exact Quiet_workerRecv h hc0 i wk hi hs
        · cases hs
    | workerSend i =>
        simp only at hs
        split at hs
        · rename_i wk hi
          exact Quiet_workerSend h hc0 i wk hi hs
        · cases hs
    | workerEnter i =>
        simp only at hs
        split at hs
        · rw [(workerEnter_frame hs).2.2]
          exact ⟨h.ctx, h.stop_open, h.no_drop, h.flags, h.drained⟩
        · cases hs
    | closerWait k =>
        simp only at hs
        split at hs
        · split at hs
          · cases hs; exact ⟨h.ctx, h.stop_open, h.no_drop, h.flags, h.drained⟩
          · cases hs
        · cases hs
    | closerClose k =>
        simp only at hs
        split at hs
        · rename_i c hk
          split at hs
          · cases hs
            have hmem : c ∈ w.closers := List.getElem?_mem hk
            have hlt := hI.closer_lt c hmem
            refine ⟨h.ctx, ?_, fun hc => h.no_drop hc0, h.flags, fun _ hex => h.drained hc0 hex⟩
            have := h.stop_open
            simp only [World.isClosed, List.contains_cons, Bool.or_eq_false_iff]
            refine ⟨?_, this⟩
            simp only [beq_eq_false_iff_ne]
            show w.pool.stopCh ≠ c.resultCh
            omega
          · cases hs
        · cases hs
    | closerIdle k =>
        simp only at hs
        split at hs
        · split at hs
          · cases hs; exact ⟨h.ctx, h.stop_open, h.no_drop, h.flags, h.drained⟩
          · cases hs
        · cases hs

theorem Unstopped_run {acts : List (Action J)} {w w1 : World J R} (hC : Chans w)
    (h : Unstopped w) (hr : run w acts = some w1) (ha : ∀ a ∈ acts, Action.quiet a) :
    Unstopped w1 := by
  induction acts generalizing w with
  | nil => simp only [run] at hr; cases hr; exact h
  | cons a rest ih =>
      simp only [run] at hr
      cases hs : step w a with
      | none => rw [hs] at hr; cases hr
      | some w2 =>
          rw [hs] at hr
          have haq := ha a (List.mem_cons_self _ _)
          exact ih (Chans_step hC hs) (Unstopped_step hC h hs haq.1) hr
            (fun b hb => ha b (List.mem_cons_of_mem _ hb))

theorem Quiet_run {acts : List (Action J)} {w w1 : World J R} (hI : Inv w) (hC : Chans w)
    (hU : Unstopped w) (h : Quiet w)
    (hr : run w acts = some w1) (ha : ∀ a ∈ acts, Action.quiet a) : Quiet w1 := by
  induction acts generalizing w with
  | nil => simp only [run] at hr; cases hr; exact h
  | cons a rest ih =>
      simp only [run] at hr
      cases hs : step w a with
      | none => rw [hs] at hr; cases hr
      | some w2 =>
          rw [hs] at hr
          have haq := ha a (List.mem_cons_self _ _)
          exact ih (Inv_step hI hs) (Chans_step hC hs) (Unstopped_step hC hU hs haq.1)
            (Quiet_step hI hC hU h hs haq.1 haq.2) hr
            (fun b hb => ha b (List.mem_cons_of_mem _ hb))

theorem Unstarted_fresh (f : ProcessFunc J R) (cfg : Config) :
    Unstarted (World.fresh f cfg) := by
  constructor <;> simp [World.fresh, New]

theorem Unstarted_step {w w1 : World J R} {a : Action J} (h : Unstarted w)
    (hs : step w a = some w1) (ha : a ≠ Action.start) : Unstarted w1 := by
  obtain ⟨h1, h2, h3, h4, h5, h6⟩ := h
  unfold step at hs
  split at hs
  · cases hs
  · cases a with
    | start => exact absurd rfl ha
    | stopEnter =>
        simp only at hs
        split at hs
        · cases hs
        · cases hs
          unfold StopEnter
          rw [if_pos (by rw [h1]; decide)]
          exact ⟨h1, h2, h3, h4, h5, h6⟩
    | stopReturn =>
        simp only at hs
        split at hs
        · cases hs; exact ⟨rfl, h2, h3, h4, h5, h6⟩
        · cases hs
    | send job =>
        simp only at hs
        split at hs
        · cases hs
        · cases hs; exact ⟨h1, h2, h3, h4, h5, h6⟩
    | closeInput =>
        simp only at hs
        split at hs
        · cases hs
        · cases hs; exact ⟨h1, h2, h3, h4, h5, h6⟩
    | cancel => simp only at hs; cases hs; exact ⟨h1, h2, h3, h4, h5, h6⟩
    | workerStop i => simp [h2] at hs
    | workerCtx i => simp [h2] at hs
    | workerRecv i => simp [h2] at hs
    | workerSend i => simp [h2] at hs
    | workerEnter i => simp [h2] at hs
    | closerWait k => simp [h3] at hs
    | closerClose k => simp [h3] at hs
    | closerIdle k => simp [h3] at hs

theorem Single_Start_of_Unstarted (w : World J R) (hI : Inv w) (h : Unstarted w) :
    Single 1 (Start w).2 := by
  have hwg := hI.wg_live
  have hc := hI.count_pos
  have hnn : ¬ (w.pool.stopWg + w.pool.workerCount < 0) := by omega
  unfold Start
  rw [if_neg (by rw [h.idle]; decide)]
  simp only [hnn, if_false, h.no_workers, h.next, List.nil_append]
  obtain ⟨n, hn⟩ : ∃ n : Nat, w.pool.workerCount.toNat = n + 1 :=
    ⟨w.pool.workerCount.toNat - 1, by omega⟩
  constructor
  · simp only [spawnWorkers, hn, List.range_succ]
    simp
  · intro wk hwk
    simp only [spawnWorkers, List.mem_map] at hwk
    obtain ⟨j, _, rfl⟩ := hwk
    rfl
  · intro t ht
    rw [h.no_taken] at ht
    cases ht
  · intro d hd
    rw [h.no_delivered] at hd
    cases hd

theorem Single_setWorkerPC {c : Nat} {w : World J R} (h : Single c w) {i : Nat}
    {wk : Worker R} (hi : w.workers[i]? = some wk) (pc : WorkerPC R) (w1 : World J R)
    (hw : w1.workers = (setWorkerPC w i pc).workers)
    (ht : ∀ t ∈ w1.taken, t ∈ w.taken ∨ t.1 = wk.resultCh)
    (hd : ∀ d ∈ w1.delivered, d ∈ w.delivered ∨ d.1 = wk.resultCh) : Single c w1 := by
  have hwkc : wk.resultCh = c := h.worker_ch wk (List.getElem?_mem hi)
  constructor
  · rw [hw]
    obtain ⟨l₁, l₂, _, hm⟩ := modify_split (fun wk => { wk with pc := pc }) w.workers i wk hi
    simp only [setWorkerPC, hm]
    simp
  · intro wk1 hwk1
    rw [hw] at hwk1
    rcases mem_setWorkerPC pc hi wk1 hwk1 with hm | hm
    · exact h.worker_ch wk1 hm
    · subst hm; exact hwkc
  · intro t ht1
    rcases ht t ht1 with hm | hm
    · exact h.taken_ch t hm
    · rw [hm, hwkc]
  · intro d hd1
    rcases hd d hd1 with hm | hm
    · exact h.delivered_ch d hm
    · rw [hm, hwkc]

theorem Single_step {c : Nat} {w w1 : World J R} {a : Action J} (h : Single c w)
    (hs : step w a = some w1) (ha : a ≠ Action.start) : Single c w1 := by
  unfold step at hs
  split at hs
  · cases hs
  · cases a with
    | start => exact absurd rfl ha
    | stopEnter =>
        simp only at hs
        split at hs
        · cases hs
        · cases hs
          unfold StopEnter
          split
          · exact h
          · exact ⟨h.workers_ne, h.worker_ch, h.taken_ch, h.delivered_ch⟩
    | stopReturn =>
        simp only at hs
        split at hs
        · cases hs; exact ⟨h.workers_ne, h.worker_ch, h.taken_ch, h.delivered_ch⟩
        · cases hs
    | send job =>
        simp only at hs
        split at hs
        · cases hs
        · cases hs; exact ⟨h.workers_ne, h.worker_ch, h.taken_ch, h.delivered_ch⟩
    | closeInput =>
        simp only at hs
        split at hs
        · cases hs
        · cases hs; exact ⟨h.workers_ne, h.worker_ch, h.taken_ch, h.delivered_ch⟩
    | cancel =>
        simp only at hs
        cases hs; exact ⟨h.workers_ne, h.worker_ch, h.taken_ch, h.delivered_ch⟩
    | workerStop i =>
        simp only at hs
        split at hs
        · rename_i wk hi
          split at hs
          · unfold workerQuit at hs
            split at hs <;> cases hs <;>
              exact Single_setWorkerPC h hi _ _ rfl (fun t ht => Or.inl ht)
                (fun d hd => Or.inl hd)
          · cases hs
        · cases hs
    | workerCtx i =>
        simp only at hs
        split at hs
        · rename_i wk hi
          split at hs
          · unfold workerQuit at hs
            split at hs <;> cases hs <;>
              exact Single_setWorkerPC h hi _ _ rfl (fun t ht => Or.inl ht)
                (fun d hd => Or.inl hd)
          · cases hs
        · cases hs
    | workerRecv i =>
        simp only at hs
        split at hs
        · rename_i wk hi
          unfold workerRecv at hs
          have hmem : ∀ (job : J) (t : Nat × Bool × J),
              t ∈ w.taken ++ [(wk.resultCh, w.ctxDone, job)] →
              t ∈ w.taken ∨ t.1 = wk.resultCh := by
            intro job t ht
            simp only [List.mem_append, List.mem_singleton] at ht
            rcases ht with ht | ht
            · exact Or.inl ht
            · subst ht; exact Or.inr rfl
          (repeat' split at hs) <;> cases hs <;>
            first
              | exact Single_setWorkerPC h hi _ _ rfl (fun t ht => Or.inl ht)
                  (fun d hd => Or.inl hd)
              | exact Single_setWorkerPC h hi _ _ rfl (hmem _) (fun d hd => Or.inl hd)
        · cases hs
    | workerSend i =>
        simp only at hs
        split at hs
        · rename_i wk hi
          unfold workerSend at hs
          (repeat' split at hs) <;> cases hs <;>
            first
              | exact Single_setWorkerPC h hi _ _ rfl (fun t ht => Or.inl ht)
                  (fun d hd => Or.inl hd)
              | (refine Single_setWorkerPC h hi _ _ rfl (fun t ht => Or.inl ht) ?_
                 intro d hd
                 rcases List.mem_append.mp hd with hd1 | hd1
                 · exact Or.inl hd1
                 · rw [List.mem_singleton.mp hd1]; exact Or.inr rfl)
        · cases hs
    | workerEnter i =>
        simp only at hs
        split at hs
        · rw [(workerEnter_frame hs).2.2]
          exact ⟨h.workers_ne, h.worker_ch, h.taken_ch, h.delivered_ch⟩
        · cases hs
    | closerWait k =>
        simp only at hs
        split at hs
        · split at hs
          · cases hs; exact ⟨h.workers_ne, h.worker_ch, h.taken_ch, h.delivered_ch⟩
          · cases hs
        · cases hs
    | closerClose k =>
        simp only at hs
        split at hs
        · split at hs
          · cases hs; exact ⟨h.workers_ne, h.worker_ch, h.taken_ch, h.delivered_ch⟩
          · cases hs
        · cases hs
    | closerIdle k =>
        simp only at hs
        split at hs
        · split at hs
          · cases hs; exact ⟨h.workers_ne, h.worker_ch, h.taken_ch, h.delivered_ch⟩
          · cases hs
        · cases hs

theorem run_append (w : World J R) (xs ys : List (Action J)) :
    run w (xs ++ ys) = (run w xs).bind (fun w1 => run w1 ys) := by
  induction xs generalizing w with
  | nil => simp [run]
  | cons a rest ih =>
      simp only [List.cons_append, run]
      cases step w a with
      | none => rfl
      | some w2 => simp [ih]

theorem Unstarted_run {acts : List (Action J)} {w w1 : World J R} (h : Unstarted w)
    (hr : run w acts = some w1) (ha : ∀ a ∈ acts, a ≠ Action.start) : Unstarted w1 := by
  induction acts generalizing w with
  | nil => simp only [run] at hr; cases hr; exact h
  | cons a rest ih =>
      simp only [run] at hr
      cases hs : step w a with
      | none => rw [hs] at hr; cases hr
      | some w2 =>
          rw [hs] at hr
          exact ih (Unstarted_step h hs (ha a (List.mem_cons_self _ _))) hr
            (fun b hb => ha b (List.mem_cons_of_mem _ hb))

theorem Single_run {c : Nat} {acts : List (Action J)} {w w1 : World J R} (h : Single c w)
    (hr : run w acts = some w1) (ha : ∀ a ∈ acts, a ≠ Action.start) : Single c w1 := by
  induction acts generalizing w with
  | nil => simp only [run] at hr; cases hr; exact h
  | cons a rest ih =>
      simp only [run] at hr
      cases hs : step w a with
      | none => rw [hs] at hr; cases hr
      | some w2 =>
          rw [hs] at hr
          exact ih (Single_step h hs (ha a (List.mem_cons_self _ _))) hr
            (fun b hb => ha b (List.mem_cons_of_mem _ hb))

/-- In a world where every worker has returned nothing is held. -/
theorem held_nil_of_exited (w : World J R)
    (h : ∀ wk ∈ w.workers, wk.pc = WorkerPC.exited) : w.held = [] := by
  unfold World.held
  rw [List.filterMap_eq_nil_iff]
  intro wk hwk
  simp [Worker.holding, h wk hwk]

/-- With a task function that returns `g job` under a live context, and every
job received under a live context, the produced results are `g` of the jobs. -/
theorem produced_eq_map (w : World J R) (g : J → R)
    (hf : ∀ j, w.pool.processFunc false j = Outcome.returned (g j))
    (hflags : ∀ t ∈ w.taken, t.2.1 = false) :
    w.produced = w.taken.map (fun t => (t.1, g t.2.2)) := by
  unfold World.produced
  generalize w.taken = l at hflags
  induction l with
  | nil => rfl
  | cons t rest ih =>
      have ht := hflags t (List.mem_cons_self _ _)
      rw [List.filterMap_cons, ht, hf]
      simp only [List.map_cons]
      rw [ih (fun t1 h1 => hflags t1 (List.mem_cons_of_mem _ h1))]

theorem received_eq_map (w : World J R) (c : Nat) (h : ∀ d ∈ w.delivered, d.1 = c) :
    w.received c = w.delivered.map Prod.snd := by
  unfold World.received
  rw [List.filter_eq_self.mpr]
  intro d hd
  simp [h d hd]

/-- C1: in every world reachable from a pool built by `New` (any task
function, any configured worker count, any schedule), `Start` succeeds exactly
when the state is Idle: then it returns a non-nil, open result channel and no
error and the pool is Running; otherwise it returns a nil channel and
`ErrWorkerPoolAlreadyRunning` and changes nothing at all. A freshly built pool
is Idle and not running. -/
theorem Start_succeeds_exactly_when_idle (f : ProcessFunc J R) (cfg : Config)
    (acts : List (Action J)) (w : World J R)
    (hr : run (World.fresh f cfg) acts = some w) :
    IsRunning (World.fresh f cfg) = false ∧
    (World.fresh f cfg).pool.state = State.StateIdle ∧
    (w.pool.state = State.StateIdle →
        (Start w).1 = (some w.nextChan, none) ∧
        (Start w).2.isClosed w.nextChan = false ∧
        (Start w).2.pool.state = State.StateRunning ∧
        IsRunning (Start w).2 = true) ∧
    (w.pool.state ≠ State.StateIdle →
        (Start w).1 = (none, some PoolError.ErrWorkerPoolAlreadyRunning) ∧
        (Start w).2 = w) := by
  have hI : Inv w := Inv_run (Inv_fresh f cfg) hr
  refine ⟨rfl, rfl, ?_, ?_⟩
  · intro h
    have hwg := hI.wg_live
    have hc := hI.count_pos
    have h2 : ¬ (w.pool.stopWg + w.pool.workerCount < 0) := by omega
    have hopen : w.nextChan ∉ w.closedChans := by
      intro hd
      have := hI.closed_lt _ hd
      omega
    simp [Start, h, h2, IsRunning, World.isClosed, hopen]
  · intro h
    simp [Start, h]

/-- Witness for C1: a second `Start` right after the first, one worker. -/
theorem Start_succeeds_exactly_when_idle_witness :
    run (World.fresh testProcessFunc ⟨1⟩) [Action.start]
        = some (Start (World.fresh testProcessFunc ⟨1⟩)).2 ∧
    (Start (Start (World.fresh testProcessFunc ⟨1⟩)).2).1
        = (none, some PoolError.ErrWorkerPoolAlreadyRunning) :=
  ⟨rfl,
   ((Start_succeeds_exactly_when_idle testProcessFunc ⟨1⟩ [Action.start]
      (Start (World.fresh testProcessFunc ⟨1⟩)).2 rfl).2.2.2 (by decide)).1⟩

theorem update_none_none {f : Nat → Option Nat} {i j : Nat} (h : f j = none) :
    Function.update f i none j = none := by
  rw [Function.update_apply]
  split
  · rfl
  · exact h

theorem workerQuit_unspawned {w w1 : World J R} {i : Nat} {wk : Worker R}
    (hq : workerQuit w i wk = some w1) :
    w1.workers.length = w.workers.length ∧ ∀ j, w.watch j = none → w1.watch j = none := by
  unfold workerQuit at hq
  split at hq <;> cases hq <;>
    exact ⟨by simp [setWorkerPC, wgDone], fun j hj => update_none_none hj⟩

theorem workerRecv_unspawned {w w1 : World J R} {i : Nat} {wk : Worker R}
    (hq : workerRecv w i wk = some w1) :
    w1.workers.length = w.workers.length ∧ ∀ j, w.watch j = none → w1.watch j = none := by
  unfold workerRecv at hq
  (repeat' split at hq) <;> cases hq <;>
    exact ⟨by simp [setWorkerPC, wgDone], fun j hj => update_none_none hj⟩

theorem workerSend_unspawned {w w1 : World J R} {i : Nat} {wk : Worker R}
    (hq : workerSend w i wk = some w1) :
    w1.workers.length = w.workers.length ∧ ∀ j, w.watch j = none → w1.watch j = none := by
  unfold workerSend at hq
  (repeat' split at hq) <;> cases hq <;>
    exact ⟨by simp [setWorkerPC, wgDone], fun j hj => update_none_none hj⟩

theorem Start_unspawned (w : World J R) :
    w.workers.length ≤ (Start w).2.workers.length ∧ (Start w).2.watch = w.watch := by
  unfold Start
  split
  · exact ⟨le_refl _, rfl⟩
  · split
    · exact ⟨le_refl _, rfl⟩
    · exact ⟨by simp, rfl⟩

theorem step_unspawned {w w1 : World J R} {a : Action J} (hs : step w a = some w1) :
    w.workers.length ≤ w1.workers.length ∧
      ∀ j, w.workers.length ≤ j → w.watch j = none → w1.watch j = none := by
  have keep : ∀ w2 : World J R,
      (w2.workers.length = w.workers.length ∧ ∀ j, w.watch j = none → w2.watch j = none) →
      w.workers.length ≤ w2.workers.length ∧
        ∀ j, w.workers.length ≤ j → w.watch j = none → w2.watch j = none :=
    fun w2 hk => ⟨by rw [hk.1], fun j _ hj => hk.2 j hj⟩
  unfold step at hs
  split at hs
  · cases hs
  · cases a with
    | start =>
        simp only at hs
        split at hs
        · cases hs
        · cases hs
          exact ⟨(Start_unspawned w).1, fun j _ hj => by rw [(Start_unspawned w).2]; exact hj⟩
    | stopEnter =>
        simp only at hs
        split at hs
        · cases hs
        · cases hs
          unfold StopEnter
          split <;> exact ⟨le_refl _, fun j _ hj => hj⟩
    | stopReturn =>
        simp only at hs
        split at hs
        · cases hs; exact ⟨le_refl _, fun j _ hj => hj⟩
        · cases hs
    | send job =>
        simp only at hs
        split at hs
        · cases hs
        · cases hs; exact ⟨le_refl _, fun j _ hj => hj⟩
    | closeInput =>
        simp only at hs
        split at hs
        · cases hs
        · cases hs; exact ⟨le_refl _, fun j _ hj => hj⟩
    | cancel =>
        simp only at hs
        cases hs; exact ⟨le_refl _, fun j _ hj => hj⟩
    | workerStop i =>
        simp only at hs
        split at hs
        · split at hs
          · exact keep _ (workerQuit_unspawned hs)
          · cases hs
        · cases hs
    | workerCtx i =>
        simp only at hs
        split at hs
        · split at hs
          · exact keep _ (workerQuit_unspawned hs)
          · cases hs
        · cases hs
    | workerRecv i =>
        simp only at hs
        split at hs
        · exact keep _ (workerRecv_unspawned hs)
        · cases hs
    | workerSend i =>
        simp only at hs
        split at hs
        · exact keep _ (workerSend_unspawned hs)
        · cases hs
    | workerEnter i =>
        simp only at hs
        split at hs
        · rename_i wk hi
          rw [(workerEnter_frame hs).2.2]
          refine ⟨le_refl _, ?_⟩
          intro j hj hnone
          have hlt : i < w.workers.length := (List.getElem?_eq_some.mp hi).1
          show Function.update w.watch i (some w.pool.stopCh) j = none
          rw [Function.update_noteq (by omega)]
          exact hnone
        · cases hs
    | closerWait k =>
        simp only at hs
        split at hs
        · split at hs
          · cases hs; exact ⟨le_refl _, fun j _ hj => hj⟩
          · cases hs
        · cases hs
    | closerClose k =>
        simp only at hs
        split at hs
        · split at hs
          · cases hs; exact ⟨le_refl _, fun j _ hj => hj⟩
          · cases hs
        · cases hs
    | closerIdle k =>
        simp only at hs
        split at hs
        · split at hs
          · cases hs; exact ⟨le_refl _, fun j _ hj => hj⟩
          · cases hs
        · cases hs

/-- A worker that `Start` is about to spawn has not entered a `select`: in
every world reachable from a pool built by `New`, nothing is watched at a
position beyond the workers spawned so far. -/
theorem watch_none_of_unspawned (f : ProcessFunc J R) (cfg : Config)
    (acts : List (Action J)) (w : World J R)
    (hr : run (World.fresh f cfg) acts = some w) :
    ∀ j, w.workers.length ≤ j → w.watch j = none := by
  have gen : ∀ (acts : List (Action J)) (w0 w : World J R),
      (∀ j, w0.workers.length ≤ j → w0.watch j = none) → run w0 acts = some w →
      ∀ j, w.workers.length ≤ j → w.watch j = none := by
    intro acts
    induction acts with
    | nil =>
        intro w0 w h0 hr
        simp only [run] at hr
        cases hr
        exact h0
    | cons a rest ih =>
        intro w0 w h0 hr
        simp only [run] at hr
        cases hs : step w0 a with
        | none => rw [hs] at hr; cases hr
        | some w2 =>
            rw [hs] at hr
            obtain ⟨hlen, hkeep⟩ := step_unspawned hs
            exact ih w2 w
              (fun j hj => hkeep j (le_trans hlen hj) (h0 j (le_trans hlen hj))) hr
  exact gen acts _ w (fun _ _ => rfl) hr

theorem setWorkerPC_other (w : World J R) (j i : Nat) (pc : WorkerPC R) (hne : i ≠ j) :
    (setWorkerPC w j pc).workers[i]? = w.workers[i]? ∧
      (setWorkerPC w j pc).watch i = w.watch i := by
  constructor
  · simp only [setWorkerPC]
    rw [List.getElem?_modify]
    have : ¬ j = i := fun h => hne h.symm
    simp [this]
  · simp only [setWorkerPC]
    exact Function.update_noteq hne _ _

theorem Stale_of_eq {i c : Nat} {w w1 : World J R} (h : Stale i c w)
    (hm : w1.pool.stateMutex = w.pool.stateMutex) (hw : w1.workers[i]? = w.workers[i]?)
    (hwa : w1.watch i = w.watch i) (hc : w1.closedChans = w.closedChans)
    (hb : w1.inputBuf = w.inputBuf) (hi : w1.inputClosed = w.inputClosed)
    (hx : w1.ctxDone = w.ctxDone) : Stale i c w1 := by
  obtain ⟨a1, a2, a3, a4, a5, a6, a7⟩ := h
  constructor
  · rw [hm]; exact a1
  · rw [hw]; exact a2
  · rw [hwa]; exact a3
  · unfold World.isClosed; rw [hc]; exact a4
  · rw [hb]; exact a5
  · rw [hi]; exact a6
  · rw [hx]; exact a7

/-- The stale worker is alive, so the wait-group counter is not zero. -/
theorem Stale.wg_ne_zero {i c : Nat} {w : World J R} (h : Stale i c w) (hI : Inv w) :
    w.pool.stopWg ≠ 0 := by
  obtain ⟨wk, hi, hpc⟩ := h.worker
  have hmem : wk ∈ w.workers := List.getElem?_mem hi
  have hpos : 0 < w.workers.countP Worker.isLive :=
    List.countP_pos_iff.mpr ⟨wk, hmem, by simp [Worker.isLive, hpc]⟩
  rw [hI.wg_live]
  omega

/-- While `Stop` waits and nothing comes from outside, no step lets the stale
worker leave: its stop channel stays open, the mutex stays held. -/
theorem Stale_step {i c : Nat} {w w1 : World J R} {a : Action J} (hI : Inv w)
    (hC : Chans w) (h : Stale i c w) (hs : step w a = some w1) (ha : Action.internal a) :
    Stale i c w1 := by
  obtain ⟨wk, hi, hpc⟩ := h.worker
  unfold step at hs
  split at hs
  · cases hs
  · cases a with
    | start => simp [h.mutex] at hs
    | stopEnter => simp [h.mutex] at hs
    | stopReturn => simp [h.mutex, h.wg_ne_zero hI] at hs
    | send job => exact absurd rfl (ha.1 job)
    | closeInput => exact absurd rfl ha.2.1
    | cancel => exact absurd rfl ha.2.2
    | workerStop j =>
        simp only at hs
        split at hs
        · rename_i wk1 hj
          split at hs
          · rename_i hcl
            by_cases hji : i = j
            · subst hji
              have hwd : w.watched i = c := by simp [World.watched, h.watch]
              rw [hwd, h.chan_open] at hcl
              cases hcl
            · unfold workerQuit at hs
              split at hs
              · cases hs
                exact Stale_of_eq h rfl (setWorkerPC_other w j i WorkerPC.exited hji).1
                  (setWorkerPC_other w j i WorkerPC.exited hji).2 rfl rfl rfl rfl
              · rename_i r _
                cases hs
                exact Stale_of_eq h rfl
                  (setWorkerPC_other
                    ({ w with dropped := w.dropped ++ [(wk1.resultCh, r)] } : World J R)
                    j i WorkerPC.exited hji).1
                  (setWorkerPC_other
                    ({ w with dropped := w.dropped ++ [(wk1.resultCh, r)] } : World J R)
                    j i WorkerPC.exited hji).2 rfl rfl rfl rfl
              · cases hs
          · cases hs
        · cases hs
    | workerCtx j =>
        simp only at hs
        split at hs
        · simp [h.ctx] at hs
        · cases hs
    | workerRecv j =>
        simp only at hs
        split at hs
        · unfold workerRecv at hs
          split at hs
          · simp [h.buf, h.input_open] at hs
          · cases hs
        · cases hs
    | workerSend j =>
        simp only at hs
        split at hs
        · rename_i wk1 hj
          by_cases hji : i = j
          · subst hji
            rw [hi] at hj
            cases hj
            simp [workerSend, hpc] at hs
          · unfold workerSend at hs
            split at hs
            · rename_i r _
              split at hs
              · cases hs
                exact Stale_of_eq h rfl
                  (setWorkerPC_other
                    ({ w with dropped := w.dropped ++ [(wk1.resultCh, r)] } : World J R)
                    j i WorkerPC.exited hji).1
                  (setWorkerPC_other
                    ({ w with dropped := w.dropped ++ [(wk1.resultCh, r)] } : World J R)
                    j i WorkerPC.exited hji).2 rfl rfl rfl rfl
              · cases hs
                exact Stale_of_eq h rfl
                  (setWorkerPC_other
                    ({ w with delivered := w.delivered ++ [(wk1.resultCh, r)] } : World J R)
                    j i WorkerPC.selecting hji).1
                  (setWorkerPC_other
                    ({ w with delivered := w.delivered ++ [(wk1.resultCh, r)] } : World J R)
                    j i WorkerPC.selecting hji).2 rfl rfl rfl rfl
            · cases hs
        · cases hs
    | workerEnter j =>
        simp only at hs
        split at hs
        · obtain ⟨hnone, _, hw1⟩ := workerEnter_frame hs
          by_cases hji : i = j
          · subst hji
            rw [h.watch] at hnone
            cases hnone
          · rw [hw1]
            exact Stale_of_eq h rfl rfl (Function.update_noteq hji _ _) rfl rfl rfl rfl
        · cases hs
    | closerWait k =>
        simp only at hs
        split at hs
        · split at hs
          · cases hs
            exact Stale_of_eq h rfl rfl rfl rfl rfl rfl rfl
          · cases hs
        · cases hs
    | closerClose k =>
        simp only at hs
        split at hs
        · rename_i cl hk
          split at hs
          · cases hs
            have hodd := hC.closer_odd cl (List.getElem?_mem hk)
            have heven := hC.watch_even i c h.watch
            refine ⟨h.mutex, h.worker, h.watch, ?_, h.buf, h.input_open, h.ctx⟩
            have hopen := h.chan_open
            simp only [World.isClosed, List.contains_cons, Bool.or_eq_false_iff]
            refine ⟨?_, hopen⟩
            simp only [beq_eq_false_iff_ne]
            show c ≠ cl.resultCh
            omega
          · cases hs
        · cases hs
    | closerIdle k =>
        simp only at hs
        split at hs
        · split at hs
          · rename_i hg
            have hm := hg.2
            rw [h.mutex] at hm
            cases hm
          · cases hs
        · cases hs

theorem Stale_run {i c : Nat} {acts : List (Action J)} {w w1 : World J R} (hI : Inv w)
    (hC : Chans w) (h : Stale i c w) (hr : run w acts = some w1)
    (ha : ∀ a ∈ acts, Action.internal a) : w1.pool.stopWg ≠ 0 := by
  induction acts generalizing w with
  | nil => simp only [run] at hr; cases hr; exact h.wg_ne_zero hI
  | cons a rest ih =>
      simp only [run] at hr
      cases hs : step w a with
      | none => rw [hs] at hr; cases hr
      | some w2 =>
          rw [hs] at hr
          exact ih (Inv_step hI hs) (Chans_step hC hs)
            (Stale_step hI hC h hs (ha a (List.mem_cons_self _ _))) hr
            (fun b hb => ha b (List.mem_cons_of_mem _ hb))

/-- What a call of `Stop` returns when it returns. Not Running: it returns
`ErrWorkerPoolNotRunning` at once and changes nothing. Running: whatever the
other goroutines do while it waits, when it returns it returns no error, the
state is Idle and `IsRunning` is false. -/
theorem Stop_result (w : World J R) :
    (w.pool.state ≠ State.StateRunning →
        ∀ sched, Stop w sched = some (some PoolError.ErrWorkerPoolNotRunning, w)) ∧
    (w.pool.state = State.StateRunning →
        ∀ sched res, Stop w sched = some res →
            res.1 = none ∧ res.2.pool.state = State.StateIdle ∧ IsRunning res.2 = false) := by
  constructor
  · intro h sched
    simp [Stop, StopEnter, h]
  · intro h
    have hE : StopEnter w = (none,
        ({ w with
            pool := { w.pool with state := State.StateStopping, stateMutex := true }
            closedChans := w.pool.stopCh :: w.closedChans
            crashed := w.crashed || w.isClosed w.pool.stopCh } : World J R)) := by
      simp [StopEnter, h]
    intro sched res hres
    unfold Stop at hres
    rw [hE] at hres
    simp only at hres
    cases hrun : run ({ w with
          pool := { w.pool with state := State.StateStopping, stateMutex := true }
          closedChans := w.pool.stopCh :: w.closedChans
          crashed := w.crashed || w.isClosed w.pool.stopCh } : World J R) sched with
    | none => rw [hrun] at hres; cases hres
    | some w2 =>
        rw [hrun] at hres
        simp only [Option.some_bind] at hres
        split at hres
        · cases hres
          exact ⟨rfl, rfl, rfl⟩
        · cases hres

/-- C2 at its failing input. In a world reachable from a pool built by `New`
the pool is Running, and a worker stands at its outer `select` waiting on an
open stop channel that is not `wp.stopCh` any more (it entered the `select`
before a later `Start` replaced the field, which the overtaken goroutine of
an earlier `Start` made possible by setting the state to idle). `Stop` does
not return `ErrWorkerPoolNotRunning`; it closes `wp.stopCh` and waits in
`Wait`, and it never returns: with no job sent, the input channel open and the
context live, whatever the pool's goroutines do, the worker cannot leave and
the counter stays above zero. -/
theorem Stop_waits_forever_for_stale_worker (f : ProcessFunc J R) (cfg : Config)
    (acts : List (Action J)) (w : World J R)
    (hr : run (World.fresh f cfg) acts = some w)
    (hrun : w.pool.state = State.StateRunning)
    (i : Nat) (wk : Worker R) (c : Nat)
    (hi : w.workers[i]? = some wk) (hpc : wk.pc = WorkerPC.selecting)
    (hwatch : w.watch i = some c) (hstale : c ≠ w.pool.stopCh)
    (hopen : w.isClosed c = false)
    (hbuf : w.inputBuf = []) (hin : w.inputClosed = false) (hctx : w.ctxDone = false) :
    (StopEnter w).1 = none ∧
    ∀ sched, (∀ a ∈ sched, Action.internal a) → Stop w sched = none := by
  have hI : Inv w := Inv_run (Inv_fresh f cfg) hr
  have hC : Chans w := Chans_run (Chans_fresh f cfg) hr
  have hE : StopEnter w = (none,
      ({ w with
          pool := { w.pool with state := State.StateStopping, stateMutex := true }
          closedChans := w.pool.stopCh :: w.closedChans
          crashed := w.crashed || w.isClosed w.pool.stopCh } : World J R)) := by
    simp [StopEnter, hrun]
  have hI1 : Inv (StopEnter w).2 := Inv_StopEnter w hI
  rw [hE] at hI1
  have hC1 : Chans ({ w with
          pool := { w.pool with state := State.StateStopping, stateMutex := true }
          closedChans := w.pool.stopCh :: w.closedChans
          crashed := w.crashed || w.isClosed w.pool.stopCh } : World J R) :=
    ⟨hC.next_odd, hC.stop_even, hC.closer_odd, hC.watch_even⟩
  have hS1 : Stale i c ({ w with
          pool := { w.pool with state := State.StateStopping, stateMutex := true }
          closedChans := w.pool.stopCh :: w.closedChans
          crashed := w.crashed || w.isClosed w.pool.stopCh } : World J R) := by
    refine ⟨rfl, ⟨wk, hi, hpc⟩, hwatch, ?_, hbuf, hin, hctx⟩
    simp only [World.isClosed, List.contains_cons, Bool.or_eq_false_iff]
    refine ⟨?_, hopen⟩
    simp only [beq_eq_false_iff_ne]
    exact hstale
  refine ⟨by rw [hE], ?_⟩
  intro sched hall
  unfold Stop
  rw [hE]
  simp only
  cases hrun2 : run ({ w with
        pool := { w.pool with state := State.StateStopping, stateMutex := true }
        closedChans := w.pool.stopCh :: w.closedChans
        crashed := w.crashed || w.isClosed w.pool.stopCh } : World J R) sched with
  | none => rfl
  | some w2 =>
      have hne := Stale_run hI1 hC1 hS1 hrun2 hall
      simp [hne]

/-- Witness for C2: the run of `staleWorkerSchedule` on a pool of one worker.
The pool is Running with two live workers; the worker of the second `Start`
waits on channel 4 while `wp.stopCh` is channel 6. -/
theorem Stop_waits_forever_for_stale_worker_witness :
    ∃ w, run (World.fresh testProcessFunc ⟨1⟩) staleWorkerSchedule = some w ∧
      IsRunning w = true ∧ w.crashed = false ∧ w.live.length = 2 ∧
      w.watch 1 = some 4 ∧ w.pool.stopCh = 6 ∧
      (StopEnter w).1 = none ∧
      ∀ sched, (∀ a ∈ sched, Action.internal a) → Stop w sched = none := by
  have hsome : ((run (World.fresh testProcessFunc ⟨1⟩) staleWorkerSchedule).map
      (fun w => (w.pool.state, w.crashed, w.live.length, w.workers[1]?, w.watch 1,
                 w.pool.stopCh, w.isClosed 4, w.inputBuf, w.inputClosed, w.ctxDone)))
      = some (State.StateRunning, false, 2,
          some { id := 0, resultCh := 3, pc := WorkerPC.selecting }, some 4, 6, false, [],
          false, false) := by rfl
  cases hw : run (World.fresh testProcessFunc ⟨1⟩) staleWorkerSchedule with
  | none => rw [hw] at hsome; cases hsome
  | some w =>
      rw [hw] at hsome
      simp only [Option.map_some', Option.some.injEq, Prod.mk.injEq] at hsome
      obtain ⟨h1, h2, h3, h4, h5, h6, h7, h8, h9, h10⟩ := hsome
      have key := Stop_waits_forever_for_stale_worker testProcessFunc ⟨1⟩
        staleWorkerSchedule w hw h1 1 { id := 0, resultCh := 3, pc := WorkerPC.selecting } 4
        h4 rfl h5 (by rw [h6]; decide) h7 h8 h9 h10
      exact ⟨w, rfl, by simp [IsRunning, h1], h2, h3, h5, h6, key.1, key.2⟩

/-- C3, as stated, fails: with one worker, job 5 is sent and received, the
context is cancelled while the worker waits to send, and the worker leaves
through `<-ctx.Done()`. At the end every worker has returned, the result
channel (channel 1) is closed, the process is alive, one job was sent and no
result was received. -/
theorem job_without_result :
    (run (World.fresh testProcessFunc ⟨1⟩)
        [Action.start, Action.send 5, Action.workerRecv 0, Action.cancel,
         Action.workerCtx 0, Action.closerWait 0, Action.closerClose 0,
         Action.closerIdle 0]).map
      (fun w => (w.sent, w.received 1, w.workers.map (fun wk => wk.pc), w.isClosed 1,
                 w.crashed, w.dropped))
      = some ([5], [], [WorkerPC.exited], true, false, [(1, 105)]) := by
  rfl

/-- C3, amended. In every run of a pool built by `New`: the jobs sent are the
jobs received by workers, in order, followed by the jobs still in the input
channel, and the results received from result channels are, as a multiset,
among the values the task function returned for the received jobs (nothing
made up, nothing twice). In a run with one `Start`, no `Stop` call, no
cancellation and no panic, once every worker has returned, the values received
on the result channel are, as a multiset, `processFunc(job)` over all jobs
sent, so there are as many results as jobs. -/
theorem results_are_processed_jobs (f : ProcessFunc J R) (cfg : Config)
    (acts : List (Action J)) (w : World J R)
    (hr : run (World.fresh f cfg) acts = some w) :
    w.sent = w.taken.map (fun t => t.2.2) ++ w.inputBuf ∧
    (w.delivered : Multiset (Nat × R)) ≤ (w.produced : Multiset (Nat × R)) ∧
    (∀ (g : J → R) (pre rest : List (Action J)),
        acts = pre ++ Action.start :: rest →
        (∀ j, f false j = Outcome.returned (g j)) →
        (∀ a ∈ pre ++ rest, a ≠ Action.start ∧ a ≠ Action.stopEnter ∧ a ≠ Action.cancel) →
        w.crashed = false →
        (∀ wk ∈ w.workers, wk.pc = WorkerPC.exited) →
        (w.received 1).Perm (w.sent.map g) ∧ (w.received 1).length = w.sent.length) := by
  have hA : Acc w := Acc_run (Acc_fresh f cfg) hr
  refine ⟨hA.fifo, ?_, ?_⟩
  · rw [← hA.results, add_assoc]
    exact Multiset.le_add_right _ _
  · intro g pre rest hacts hf hq hc hex
    subst hacts
    rw [run_append] at hr
    cases hpre : run (World.fresh f cfg) pre with
    | none => rw [hpre] at hr; cases hr
    | some w0 =>
        rw [hpre] at hr
        simp only [Option.some_bind, run] at hr
        cases hst : step w0 Action.start with
        | none => rw [hst] at hr; cases hr
        | some w1 =>
            rw [hst] at hr
            simp only [Option.some_bind] at hr
            have hqpre : ∀ a ∈ pre, Action.quiet a := fun a ha =>
              (hq a (List.mem_append_left _ ha)).2
            have hqrest : ∀ a ∈ rest, Action.quiet a := fun a ha =>
              (hq a (List.mem_append_right _ ha)).2
            have hI0 : Inv w0 := Inv_run (Inv_fresh f cfg) hpre
            have hC0 : Chans w0 := Chans_run (Chans_fresh f cfg) hpre
            have hN0 : Unstopped w0 :=
              Unstopped_run (Chans_fresh f cfg) (Unstopped_fresh f cfg) hpre hqpre
            have hQ0 : Quiet w0 := Quiet_run (Inv_fresh f cfg) (Chans_fresh f cfg)
              (Unstopped_fresh f cfg) (Quiet_fresh f cfg) hpre hqpre
            have hU0 : Unstarted w0 := Unstarted_run (Unstarted_fresh f cfg) hpre
              (fun a ha => (hq a (List.mem_append_left _ ha)).1)
            have hw1 : w1 = (Start w0).2 := by
              unfold step at hst
              split at hst
              · cases hst
              · simp only at hst
                split at hst
                · cases hst
                · cases hst; rfl
            have hI1 : Inv w1 := Inv_step hI0 hst
            have hQ1 : Quiet w1 := Quiet_step hI0 hC0 hN0 hQ0 hst (by simp) (by simp)
            have hS1 : Single 1 w1 := hw1 ▸ Single_Start_of_Unstarted w0 hI0 hU0
            have hQ : Quiet w := Quiet_run hI1 (Chans_step hC0 hst)
              (Unstopped_step hC0 hN0 hst (by simp)) hQ1 hr hqrest
            have hS : Single 1 w := Single_run hS1 hr
              (fun a ha => (hq a (List.mem_append_right _ ha)).1)
            have hcfg : w.pool.processFunc = f := by
              have h1 := (run_config hr).2
              have h2 := (step_config hst).2
              have h3 := (run_config hpre).2
              rw [h1, h2, h3]; rfl
            obtain ⟨wk, hwk⟩ := List.exists_mem_of_ne_nil _ hS.workers_ne
            have hbuf := (hQ.drained hc ⟨wk, hwk, hex wk hwk⟩).2
            have hsent : w.sent = w.taken.map (fun t => t.2.2) := by
              rw [hA.fifo, hbuf, List.append_nil]
            have hres := hA.results
            rw [held_nil_of_exited w hex, hQ.no_drop hc] at hres
            simp only [Multiset.coe_nil, add_zero] at hres
            have hperm : w.delivered.Perm w.produced := Multiset.coe_eq_coe.mp hres
            have hprod := produced_eq_map w g (by rw [hcfg]; exact hf) hQ.flags
            have key : (w.received 1).Perm (w.sent.map g) := by
              rw [received_eq_map w 1 hS.delivered_ch, hsent]
              refine (hperm.map Prod.snd).trans ?_
              rw [hprod, List.map_map, List.map_map]
              exact List.Perm.refl _
            exact ⟨key, by rw [key.length_eq, List.length_map]⟩

/-- Witness for C3: three workers, two jobs sent, the input channel closed,
every result received, every worker returned, no `Stop` and no cancellation:
the results received on channel 1 are the processed jobs. -/
theorem results_are_processed_jobs_witness :
    ∃ w, run (World.fresh testProcessFunc ⟨3⟩)
        ([] ++ Action.start :: [Action.send 1, Action.send 2, Action.workerRecv 2,
         Action.workerRecv 0, Action.workerSend 0, Action.workerSend 2, Action.closeInput,
         Action.workerRecv 0, Action.workerRecv 1, Action.workerRecv 2]) = some w ∧
      w.received 1 = [102, 101] ∧ w.sent = [1, 2] ∧
      (w.received 1).Perm (w.sent.map (fun j => j + 100)) := by
  have hsome : ((run (World.fresh testProcessFunc ⟨3⟩)
        ([] ++ Action.start :: [Action.send 1, Action.send 2, Action.workerRecv 2,
         Action.workerRecv 0, Action.workerSend 0, Action.workerSend 2, Action.closeInput,
         Action.workerRecv 0, Action.workerRecv 1, Action.workerRecv 2])).map
      (fun w => (w.sent, w.received 1, w.workers.map (fun wk => wk.pc), w.crashed)))
      = some ([1, 2], [102, 101],
          [WorkerPC.exited, WorkerPC.exited, WorkerPC.exited], false) := by rfl
  cases hw : run (World.fresh testProcessFunc ⟨3⟩)
        ([] ++ Action.start :: [Action.send 1, Action.send 2, Action.workerRecv 2,
         Action.workerRecv 0, Action.workerSend 0, Action.workerSend 2, Action.closeInput,
         Action.workerRecv 0, Action.workerRecv 1, Action.workerRecv 2]) with
  | none => rw [hw] at hsome; cases hsome
  | some w =>
      rw [hw] at hsome
      simp only [Option.map_some', Option.some.injEq, Prod.mk.injEq] at hsome
      obtain ⟨h1, h2, h3, h4⟩ := hsome
      refine ⟨w, rfl, h2, h1, ?_⟩
      refine ((results_are_processed_jobs testProcessFunc ⟨3⟩ _ w hw).2.2
        (fun j => j + 100) [] _ rfl (fun _ => rfl) (by decide) h4 ?_).1
      intro wk hwk
      have hmem : wk.pc ∈ w.workers.map (fun wk => wk.pc) := List.mem_map_of_mem _ hwk
      rw [h3] at hmem
      simpa using hmem

/-- C4 at its failing run: one worker, the input channel is closed, the worker
returns, the goroutine of `Start` passes `Wait` and runs `close(resultCh)`.
The result channel (channel 1) is now closed, every worker has returned and no
`Stop` was called, yet `IsRunning` is still true; it becomes false only with
the goroutine's next statement. -/
theorem resultCh_closed_before_idle :
    (run (World.fresh testProcessFunc ⟨1⟩)
        [Action.start, Action.closeInput, Action.workerRecv 0, Action.closerWait 0,
         Action.closerClose 0]).map
      (fun w => (w.isClosed 1, w.workers.map (fun wk => wk.pc), w.pool.stateMutex,
                 IsRunning w))
      = some (true, [WorkerPC.exited], false, true) ∧
    (run (World.fresh testProcessFunc ⟨1⟩)
        [Action.start, Action.closeInput, Action.workerRecv 0, Action.closerWait 0,
         Action.closerClose 0, Action.closerIdle 0]).map
      (fun w => (w.isClosed 1, IsRunning w))
      = some (true, false) := by
  constructor <;> rfl

/-- C5: `New` turns a configured count `<= 0` into 1 and keeps a positive one,
and in every Idle world reachable from the pool `Start` spawns exactly that
many workers: the new workers are `worker(ctx, i, inputCh, resultCh)` for
`i = 0 .. workerCount-1` on the new result channel, all at their outer
`select`, the wait-group counter grows by `workerCount`, and no other worker
is added or removed. -/
theorem Start_spawns_workerCount (f : ProcessFunc J R) (cfg : Config)
    (acts : List (Action J)) (w : World J R)
    (hr : run (World.fresh f cfg) acts = some w) (hidle : w.pool.state = State.StateIdle) :
    (New f cfg).workerCount = (if cfg.WorkerCount ≤ 0 then 1 else cfg.WorkerCount) ∧
    1 ≤ (New f cfg).workerCount ∧
    w.pool.workerCount = (New f cfg).workerCount ∧
    (Start w).2.workers
      = w.workers ++ (spawnWorkers (New f cfg).workerCount w.nextChan : List (Worker R)) ∧
    ((spawnWorkers (New f cfg).workerCount w.nextChan : List (Worker R)).length : Int)
      = (New f cfg).workerCount ∧
    (spawnWorkers (New f cfg).workerCount w.nextChan : List (Worker R)).map (fun wk => wk.id)
      = List.range (New f cfg).workerCount.toNat ∧
    (∀ wk ∈ (spawnWorkers (New f cfg).workerCount w.nextChan : List (Worker R)),
      wk.pc = WorkerPC.selecting ∧ wk.resultCh = w.nextChan) ∧
    (Start w).2.pool.stopWg = w.pool.stopWg + (New f cfg).workerCount := by
  have hI : Inv w := Inv_run (Inv_fresh f cfg) hr
  have hcount : w.pool.workerCount = (New f cfg).workerCount := (run_config hr).1
  have hpos : 1 ≤ (New f cfg).workerCount := hcount ▸ hI.count_pos
  have hwg := hI.wg_live
  have hnn : ¬ (w.pool.stopWg + w.pool.workerCount < 0) := by
    have := hI.count_pos
    omega
  have hS : Start w = ((some w.nextChan, none),
      ({ w with
          pool := { w.pool with
                      state := State.StateRunning
                      stopCh := w.nextChan + 1
                      stopWg := w.pool.stopWg + w.pool.workerCount }
          nextChan := w.nextChan + 2
          workers := w.workers ++ spawnWorkers w.pool.workerCount w.nextChan
          closers := w.closers ++ [{ resultCh := w.nextChan, pc := CloserPC.waiting }] } :
        World J R)) := by
    simp [Start, hidle, hnn]
  refine ⟨?_, hpos, hcount, ?_, ?_, ?_, ?_, ?_⟩
  · unfold New
    split <;> simp_all
  · rw [hS, hcount]
  · simp only [spawnWorkers, List.length_map, List.length_range]
    omega
  · simp [spawnWorkers, List.map_map, Function.comp_def]
  · intro wk hwk
    simp only [spawnWorkers, List.mem_map] at hwk
    obtain ⟨j, _, rfl⟩ := hwk
    exact ⟨rfl, rfl⟩
  · rw [hS, hcount]

/-- Witness for C5: a pool configured with `WorkerCount = 0` starts one
worker. -/
theorem Start_spawns_workerCount_witness :
    run (World.fresh testProcessFunc ⟨0⟩) [] = some (World.fresh testProcessFunc ⟨0⟩) ∧
    (World.fresh testProcessFunc ⟨0⟩).pool.state = State.StateIdle ∧
    (New testProcessFunc ⟨0⟩).workerCount = 1 ∧
    (Start (World.fresh testProcessFunc ⟨0⟩)).2.workers
      = [{ id := 0, resultCh := 1, pc := WorkerPC.selecting }] :=
  ⟨rfl, rfl,
   (Start_spawns_workerCount testProcessFunc ⟨0⟩ [] (World.fresh testProcessFunc ⟨0⟩)
      rfl rfl).1,
   by decide⟩

/-- C6, as stated, fails: with one worker and jobs 7 and 8 in the channel, the
task function panics on job 7. Nothing recovers the panic: the worker's
deferred `Done` runs, the worker is gone without having forwarded a result,
the process is dead, job 8 is still in the channel and no goroutine can take
another step. -/
theorem panic_kills_worker :
    (run (World.fresh panickingProcessFunc ⟨1⟩)
        [Action.start, Action.send 7, Action.send 8, Action.workerRecv 0]).map
      (fun w => (w.crashed, w.delivered, w.held, w.workers.map (fun wk => wk.pc),
                 w.inputBuf))
      = some (true, [], [], [WorkerPC.exited], [8]) ∧
    (run (World.fresh panickingProcessFunc ⟨1⟩)
        [Action.start, Action.send 7, Action.send 8, Action.workerRecv 0,
         Action.workerRecv 0]).isNone = true ∧
    (run (World.fresh panickingProcessFunc ⟨1⟩)
        [Action.start, Action.send 7, Action.send 8, Action.workerRecv 0,
         Action.workerSend 0]).isNone = true := by
  refine ⟨?_, ?_, ?_⟩ <;> rfl

theorem getElem?_setWorkerPC (w : World J R) (i : Nat) (wk : Worker R) (pc : WorkerPC R)
    (hi : w.workers[i]? = some wk) :
    (setWorkerPC w i pc).workers[i]? = some { wk with pc := pc } := by
  simp [setWorkerPC, List.getElem?_modify_eq, hi]

theorem workerSend_step (w : World J R) (i : Nat) (wk : Worker R) (r : R)
    (hc : w.crashed = false) (hi : w.workers[i]? = some wk)
    (hpc : wk.pc = WorkerPC.sending r) (hopen : w.isClosed wk.resultCh = false) :
    ∃ w2, step w (Action.workerSend i) = some w2 ∧ w2.crashed = false ∧
      w2.delivered = w.delivered ++ [(wk.resultCh, r)] ∧
      w2.workers[i]? = some { wk with pc := WorkerPC.selecting } ∧
      w2.pool = w.pool := by
  refine ⟨setWorkerPC ({ w with delivered := w.delivered ++ [(wk.resultCh, r)] } : World J R)
    i WorkerPC.selecting, ?_, hc, rfl, getElem?_setWorkerPC _ i wk _ hi, rfl⟩
  simp [step, hc, hi, workerSend, hpc, hopen]

/-- C6, amended. A worker at its outer `select` that receives a job calls the
task function. If the call returns a Result (whatever it reports, an error
included), the worker keeps it, and while the result channel is open it
forwards exactly that Result and stands at the outer `select` again, ready
for the next job, the wait-group counter and the state untouched. If the call
panics, nothing recovers it: the deferred `Done` runs, the worker forwards
nothing, and the process is dead (no goroutine takes another step). -/
theorem worker_forwards_result_or_dies (w : World J R) (i : Nat) (wk : Worker R)
    (job : J) (rest : List J)
    (hc : w.crashed = false) (hi : w.workers[i]? = some wk)
    (hpc : wk.pc = WorkerPC.selecting) (hbuf : w.inputBuf = job :: rest) :
    (∀ r, w.pool.processFunc w.ctxDone job = Outcome.returned r →
      ∃ w1, step w (Action.workerRecv i) = some w1 ∧ w1.crashed = false ∧
        w1.workers[i]? = some { wk with pc := WorkerPC.sending r } ∧
        w1.pool.stopWg = w.pool.stopWg ∧ w1.pool.state = w.pool.state ∧
        w1.inputBuf = rest ∧
        (w1.isClosed wk.resultCh = false →
          ∃ w2, step w1 (Action.workerSend i) = some w2 ∧ w2.crashed = false ∧
            w2.delivered = w.delivered ++ [(wk.resultCh, r)] ∧
            w2.workers[i]? = some { wk with pc := WorkerPC.selecting } ∧
            w2.pool.stopWg = w.pool.stopWg ∧ w2.pool.state = w.pool.state)) ∧
    (w.pool.processFunc w.ctxDone job = Outcome.panicked →
      ∃ w1, step w (Action.workerRecv i) = some w1 ∧ w1.crashed = true ∧
        w1.workers[i]? = some { wk with pc := WorkerPC.exited } ∧
        w1.delivered = w.delivered ∧ w1.pool.stopWg = w.pool.stopWg - 1 ∧
        ∀ a, step w1 a = none) := by
  constructor
  · intro r hres
    have h1 : step w (Action.workerRecv i) = some (setWorkerPC
        ({ w with inputBuf := rest, taken := w.taken ++ [(wk.resultCh, w.ctxDone, job)] } :
          World J R) i (WorkerPC.sending r)) := by
      simp [step, hc, hi, workerRecv, hpc, hbuf, hres]
    have hi1 : (setWorkerPC
        ({ w with inputBuf := rest, taken := w.taken ++ [(wk.resultCh, w.ctxDone, job)] } :
          World J R) i (WorkerPC.sending r)).workers[i]?
        = some { wk with pc := WorkerPC.sending r } :=
      getElem?_setWorkerPC _ i wk _ hi
    refine ⟨_, h1, hc, hi1, rfl, rfl, rfl, ?_⟩
    intro hopen
    obtain ⟨w2, g1, g2, g3, g4, g5⟩ := workerSend_step (setWorkerPC
        ({ w with inputBuf := rest, taken := w.taken ++ [(wk.resultCh, w.ctxDone, job)] } :
          World J R) i (WorkerPC.sending r)) i
      { wk with pc := WorkerPC.sending r } r hc hi1 rfl hopen
    exact ⟨w2, g1, g2, g3, g4, by rw [g5]; rfl, by rw [g5]; rfl⟩
  · intro hres
    have h1 : step w (Action.workerRecv i) = some ({ wgDone (setWorkerPC
        ({ w with inputBuf := rest, taken := w.taken ++ [(wk.resultCh, w.ctxDone, job)] } :
          World J R) i WorkerPC.exited) with crashed := true } : World J R) := by
      simp [step, hc, hi, workerRecv, hpc, hbuf, hres]
    refine ⟨_, h1, rfl, ?_, rfl, rfl, ?_⟩
    · exact getElem?_setWorkerPC _ i wk _ hi
    · intro a
      simp [step]

/-- Witness for C6: the worker of a started one-worker pool receives job 5. -/
theorem worker_forwards_result_or_dies_witness :
    ∃ w1, step startedWithJob (Action.workerRecv 0) = some w1 ∧
      w1.workers[0]? = some { id := 0, resultCh := 1, pc := WorkerPC.sending 105 } := by
  obtain ⟨w1, h1, _, h3, _⟩ :=
    (worker_forwards_result_or_dies startedWithJob
      0 { id := 0, resultCh := 1, pc := WorkerPC.selecting } 5 [] rfl rfl rfl rfl).1
      105 rfl
  exact ⟨w1, h1, h3⟩

end workerpool

/-! ## Properties of the reward use case -/

namespace mongodb

open entity

theorem nextFault_docs (s : MongoDBRepository) :
    (nextFault s).2.docs = s.docs ∧ (nextFault s).2.calls = s.calls := by
  unfold nextFault
  split <;> exact ⟨rfl, rfl⟩

theorem FindRewardById_frame (s : MongoDBRepository) (id : ObjectID) :
    (FindRewardById s id).2.docs = s.docs ∧ (FindRewardById s id).2.calls = s.calls := by
  have h := nextFault_docs s
  unfold FindRewardById
  split
  · rename_i s1 heq
    rw [heq] at h
    exact h
  · rename_i s1 heq
    rw [heq] at h
    split <;> exact h

theorem FindRewardByLocation_frame (s : MongoDBRepository) (latitude longitude : Float64) :
    (FindRewardByLocation s latitude longitude).2.docs = s.docs ∧
    (FindRewardByLocation s latitude longitude).2.calls
      = s.calls ++ [Call.FindRewardByLocation latitude longitude] := by
  have h := nextFault_docs
    { s with calls := s.calls ++ [Call.FindRewardByLocation latitude longitude] }
  unfold FindRewardByLocation
  split
  · rename_i s1 heq
    rw [heq] at h
    exact h
  · rename_i s1 heq
    rw [heq] at h
    split <;> exact h

/-- What a successful lookup by location returned: the first document at the
coordinates. -/
theorem FindRewardByLocation_some (s : MongoDBRepository) (latitude longitude : Float64)
    (existing : Reward) (err : Option Err)
    (h : (FindRewardByLocation s latitude longitude).1 = (some existing, err)) :
    err = none ∧
    s.docs.find? (atLocation latitude longitude) = some existing := by
  have hd := nextFault_docs
    { s with calls := s.calls ++ [Call.FindRewardByLocation latitude longitude] }
  unfold FindRewardByLocation at h
  split at h
  · cases h
  · rename_i s1 heq
    rw [heq] at hd
    have hdocs : s1.docs = s.docs := hd.1
    rw [hdocs] at h
    split at h
    · cases h
    · rename_i r hr
      simp only [Prod.mk.injEq, Option.some.injEq] at h
      obtain ⟨h1, h2⟩ := h
      subst h1
      exact ⟨h2.symm, hr⟩

/-- A failed lookup by location that reports `ErrRewardNotFound` found no
document at the coordinates. -/
theorem FindRewardByLocation_notFound (s : MongoDBRepository)
    (latitude longitude : Float64) (res : Option Reward)
    (h : (FindRewardByLocation s latitude longitude).1 = (res, some Err.ErrRewardNotFound)) :
    res = none ∧
    s.docs.find? (atLocation latitude longitude) = none := by
  have hd := nextFault_docs
    { s with calls := s.calls ++ [Call.FindRewardByLocation latitude longitude] }
  unfold FindRewardByLocation at h
  split at h
  · cases h
  · rename_i s1 heq
    rw [heq] at hd
    have hdocs : s1.docs = s.docs := hd.1
    rw [hdocs] at h
    split at h
    · rename_i hr
      simp only [Prod.mk.injEq] at h
      exact ⟨h.1.symm, hr⟩
    · cases h

theorem updateOne_ids (id : ObjectID) (set : Reward → Reward) (hset : ∀ d, (set d).Id = d.Id)
    (docs : List Reward) :
    (updateOne id set docs).1.map (fun d => d.Id) = docs.map (fun d => d.Id) := by
  induction docs with
  | nil => rfl
  | cons d ds ih =>
      unfold updateOne
      split
      · simp [hset]
      · simp [ih]

theorem setFields_Id (reward d : Reward) : (setFields reward d).Id = d.Id := rfl

theorem UpdateReward_frame (s : MongoDBRepository) (reward : Reward) :
    (UpdateReward s reward).2.calls = s.calls ++ [Call.UpdateReward reward] ∧
    (UpdateReward s reward).2.docs.map (fun d => d.Id) = s.docs.map (fun d => d.Id) := by
  have h := nextFault_docs { s with calls := s.calls ++ [Call.UpdateReward reward] }
  unfold UpdateReward
  split
  · rename_i s1 heq
    rw [heq] at h
    exact ⟨h.2, by rw [h.1]⟩
  · rename_i s1 heq
    rw [heq] at h
    split
    · exact ⟨h.2, by rw [h.1]⟩
    · have hf := FindRewardById_frame
        { s1 with docs := (updateOne reward.Id (setFields reward) s1.docs).1 } reward.Id
      refine ⟨hf.2.trans h.2, ?_⟩
      rw [hf.1]
      show (updateOne reward.Id (setFields reward) s1.docs).1.map (fun d => d.Id) = _
      rw [updateOne_ids _ _ (setFields_Id reward), h.1]

end mongodb

namespace usecase

open entity mongodb

/-- `Execute` on the update path, as one equation. -/
theorem Execute_update (repo : MongoDBRepository) (input : CreateRewardInputDTO)
    (now1 now2 : Time) (amount : Int) (existing : Reward)
    (hamt : big.SetString input.Amount = some amount)
    (hfind : (FindRewardByLocation repo input.Latitude input.Longitude).1
        = (some existing, none)) :
    Execute repo input now1 now2 =
      (match (UpdateReward (FindRewardByLocation repo input.Latitude input.Longitude).2
          (overwrite existing input amount now1)).1 with
       | (_, some err) => Outcome.error (Err.wrapped "failed to update reward" err)
       | (result, none) => output result,
       (UpdateReward (FindRewardByLocation repo input.Latitude input.Longitude).2
          (overwrite existing input amount now1)).2) := by
  have hpair : FindRewardByLocation repo input.Latitude input.Longitude
      = ((some existing, none),
         (FindRewardByLocation repo input.Latitude input.Longitude).2) := by
    rw [← hfind]
  unfold Execute
  rw [hamt]
  simp only
  rw [hpair]
  simp only
  rcases hU : UpdateReward (FindRewardByLocation repo input.Latitude input.Longitude).2
      (overwrite existing input amount now1) with ⟨⟨res, err⟩, repo2⟩
  cases err <;> rfl

/-- C8: when the lookup by the event's coordinates returns an existing record,
`Execute` makes no repository call at all if the amount does not parse, and
otherwise calls `FindRewardByLocation` and then `UpdateReward` and nothing
else. The record handed to `UpdateReward` is the existing one with only
`Receiver`, `Amount`, `Data` and `UpdatedAt` overwritten: `Id`, `Token`,
`Latitude`, `Longitude`, `TxHash` and `CreatedAt` are the existing record's.
No record is created: `CreateReward` is not called and the collection holds
the same ids as before. -/
theorem update_overwrites_four_fields (repo : MongoDBRepository)
    (input : CreateRewardInputDTO) (now1 now2 : Time) (existing : Reward)
    (hfind : (FindRewardByLocation repo input.Latitude input.Longitude).1
        = (some existing, none)) :
    (big.SetString input.Amount = none → (Execute repo input now1 now2).2 = repo) ∧
    (∀ amount, big.SetString input.Amount = some amount →
      ∃ handed,
        (Execute repo input now1 now2).2.calls
          = repo.calls ++ [Call.FindRewardByLocation input.Latitude input.Longitude,
                           Call.UpdateReward handed] ∧
        handed.Id = existing.Id ∧ handed.Token = existing.Token ∧
        handed.Latitude = existing.Latitude ∧ handed.Longitude = existing.Longitude ∧
        handed.TxHash = existing.TxHash ∧ handed.CreatedAt = existing.CreatedAt ∧
        handed.Receiver = (common.HexToAddress input.Receiver).Hex ∧
        handed.Amount = big.String amount ∧ handed.Data = input.Data ∧
        handed.UpdatedAt = now1) ∧
    (∀ r, Call.CreateReward r ∉ (Execute repo input now1 now2).2.calls.drop
        repo.calls.length) ∧
    (Execute repo input now1 now2).2.docs.map (fun d => d.Id)
      = repo.docs.map (fun d => d.Id) := by
  have hF := FindRewardByLocation_frame repo input.Latitude input.Longitude
  refine ⟨?_, ?_, ?_, ?_⟩
  · intro hamt
    unfold Execute
    rw [hamt]
  · intro amount hamt
    have hE := Execute_update repo input now1 now2 amount existing hamt hfind
    have hU := UpdateReward_frame
      (FindRewardByLocation repo input.Latitude input.Longitude).2
      (overwrite existing input amount now1)
    refine ⟨overwrite existing input amount now1, ?_, rfl, rfl, rfl, rfl, rfl, rfl,
      rfl, rfl, rfl, rfl⟩
    rw [hE]
    simp only
    rw [hU.1, hF.2]
    simp
  · intro r
    cases hamt : big.SetString input.Amount with
    | none =>
        have hE : Execute repo input now1 now2
            = (Outcome.error Err.invalidAmount, repo) := by
          unfold Execute
          rw [hamt]
        rw [hE]
        simp
    | some amount =>
        have hE := Execute_update repo input now1 now2 amount existing hamt hfind
        have hU := UpdateReward_frame
          (FindRewardByLocation repo input.Latitude input.Longitude).2
          (overwrite existing input amount now1)
        rw [hE]
        simp only
        rw [hU.1, hF.2]
        simp
  · cases hamt : big.SetString input.Amount with
    | none =>
        have hE : Execute repo input now1 now2
            = (Outcome.error Err.invalidAmount, repo) := by
          unfold Execute
          rw [hamt]
        rw [hE]
    | some amount =>
        have hE := Execute_update repo input now1 now2 amount existing hamt hfind
        have hU := UpdateReward_frame
          (FindRewardByLocation repo input.Latitude input.Longitude).2
          (overwrite existing input amount now1)
        rw [hE]
        simp only
        rw [hU.2, hF.1]

end usecase

namespace mongodb

open entity

theorem lt_freshId (docs : List Reward) : ∀ d ∈ docs, d.Id < freshId docs := by
  unfold freshId
  induction docs with
  | nil => intro d hd; cases hd
  | cons e es ih =>
      intro d hd
      simp only [List.map_cons, List.foldr_cons]
      rcases List.mem_cons.mp hd with h | h
      · subst h
        exact Nat.lt_succ_of_le (Nat.le_max_left _ _)
      · have h1 := ih d h
        exact Nat.lt_succ_of_le (le_trans (Nat.le_of_lt_succ h1) (Nat.le_max_right _ _))

/-- With unique ids and `e` the only document that satisfies `p`, updating by
`e.Id` with a `set` that keeps `p` leaves `set e` as the only document that
satisfies `p`. -/
theorem updateOne_filter (p : Reward → Bool) (set : Reward → Reward) (e : Reward) :
    ∀ docs : List Reward, (docs.map (fun d => d.Id)).Nodup → e ∈ docs →
      (∀ d ∈ docs, p d = true → d = e) → p (set e) = true →
      (updateOne e.Id set docs).1.filter p = [set e] ∧ (updateOne e.Id set docs).2 = 1 := by
  intro docs
  induction docs with
  | nil => intro _ he; cases he
  | cons d ds ih =>
      intro hnd he huniq hp
      simp only [List.map_cons, List.nodup_cons] at hnd
      obtain ⟨hd, hnd'⟩ := hnd
      unfold updateOne
      by_cases hid : d.Id = e.Id
      · have hde : d = e := by
          rcases List.mem_cons.mp he with h | h
          · exact h.symm
          · exfalso
            apply hd
            rw [hid]
            exact List.mem_map_of_mem _ h
        rw [if_pos hid]
        subst hde
        refine ⟨?_, rfl⟩
        simp only [List.filter_cons, hp, if_true]
        congr 1
        rw [List.filter_eq_nil_iff]
        intro x hx hpx
        have hxd : x = d := huniq x (List.mem_cons_of_mem _ hx) hpx
        subst hxd
        exact hd (List.mem_map_of_mem _ hx)
      · rw [if_neg hid]
        have he' : e ∈ ds := by
          rcases List.mem_cons.mp he with h | h
          · subst h; exact absurd rfl hid
          · exact h
        have hpd : p d = false := by
          cases hpd : p d with
          | false => rfl
          | true =>
              have := huniq d (List.mem_cons_self _ _) hpd
              subst this
              exact absurd rfl hid
        obtain ⟨h1, h2⟩ := ih hnd' he' (fun x hx => huniq x (List.mem_cons_of_mem _ hx)) hp
        refine ⟨?_, h2⟩
        simp only [List.filter_cons, hpd]
        exact h1

/-- The first document that satisfies `p` is the only one when at most one
does. -/
theorem unique_of_find (p : Reward → Bool) (docs : List Reward) (e : Reward)
    (hfind : docs.find? p = some e) (hone : (docs.filter p).length ≤ 1) :
    e ∈ docs ∧ p e = true ∧ ∀ d ∈ docs, p d = true → d = e := by
  have hmem : e ∈ docs := List.mem_of_find?_eq_some hfind
  have hp : p e = true := List.find?_some hfind
  refine ⟨hmem, hp, ?_⟩
  have hef : e ∈ docs.filter p := List.mem_filter.mpr ⟨hmem, hp⟩
  intro d hd hpd
  have hdf : d ∈ docs.filter p := List.mem_filter.mpr ⟨hd, hpd⟩
  match hl : docs.filter p, hone, hef, hdf with
  | [], _, h, _ => cases h
  | [x], _, h1, h2 =>
      simp only [List.mem_singleton] at h1 h2
      rw [h1, h2]
  | _ :: _ :: _, h, _, _ => simp at h

end mongodb

namespace mongodb

open entity

theorem UpdateReward_cases (s : MongoDBRepository) (reward : Reward) :
    ((UpdateReward s reward).2.docs = s.docs ∧ ∃ e, (UpdateReward s reward).1.2 = some e) ∨
    ((UpdateReward s reward).2.docs = (updateOne reward.Id (setFields reward) s.docs).1 ∧
      (updateOne reward.Id (setFields reward) s.docs).2 ≠ 0) := by
  have h := nextFault_docs { s with calls := s.calls ++ [Call.UpdateReward reward] }
  unfold UpdateReward
  split
  · rename_i s1 heq
    rw [heq] at h
    exact Or.inl ⟨h.1, _, rfl⟩
  · rename_i s1 heq
    rw [heq] at h
    have hd : s1.docs = s.docs := h.1
    split
    · exact Or.inl ⟨h.1, _, rfl⟩
    · rename_i hm
      right
      have hf := FindRewardById_frame
        { s1 with docs := (updateOne reward.Id (setFields reward) s1.docs).1 } reward.Id
      rw [hd] at hm
      exact ⟨hf.1.trans (by rw [hd]), hm⟩

theorem CreateReward_cases (s : MongoDBRepository) (input : Reward) (hid : input.Id = 0) :
    ((CreateReward s input).2.docs = s.docs ∧ ∃ e, (CreateReward s input).1.2 = some e) ∨
    (CreateReward s input).2.docs = s.docs ++ [{ input with Id := freshId s.docs }] := by
  have h := nextFault_docs { s with calls := s.calls ++ [Call.CreateReward input] }
  unfold CreateReward
  split
  · rename_i s1 heq
    rw [heq] at h
    exact Or.inl ⟨h.1, _, rfl⟩
  · rename_i s1 heq
    rw [heq] at h
    have hd : s1.docs = s.docs := h.1
    rw [if_pos hid]
    right
    have hf := FindRewardById_frame
      { s1 with docs := s1.docs ++ [{ input with Id := freshId s1.docs }] } (freshId s1.docs)
    exact hf.1.trans (by rw [hd])

end mongodb

namespace usecase

open entity mongodb

theorem NewReward_ok (token : common.Address) (amount : Int) (receiver : common.Address)
    (latitude longitude : Float64) (data : GoString) (now1 now2 : Time) (r : Reward)
    (h : NewReward token amount receiver latitude longitude data now1 now2 = Except.ok r) :
    r = { Id := 0, Token := token.Hex, Amount := big.String amount, Receiver := receiver.Hex,
          Latitude := latitude, Longitude := longitude, TxHash := [], Data := data,
          CreatedAt := now1, UpdatedAt := now2 } ∧ r.Validate = none := by
  unfold NewReward at h
  simp only at h
  split at h
  · cases h
  · rename_i hv
    cases h
    exact ⟨rfl, hv⟩

/-- What `Execute` does to the collection: nothing, in which case it has not
succeeded; or the update of the record found at the coordinates; or the
insertion of the validated new record under a fresh id when none was found. -/
theorem Execute_cases (repo : MongoDBRepository) (input : CreateRewardInputDTO)
    (now1 now2 : Time) :
    ((Execute repo input now1 now2).2.docs = repo.docs ∧
      ∀ out, (Execute repo input now1 now2).1 ≠ Outcome.ok out) ∨
    (∃ amount existing,
      big.SetString input.Amount = some amount ∧
      repo.docs.find? (atLocation input.Latitude input.Longitude) = some existing ∧
      (Execute repo input now1 now2).2.docs
        = (updateOne existing.Id (setFields (overwrite existing input amount now1))
            repo.docs).1 ∧
      (updateOne existing.Id (setFields (overwrite existing input amount now1))
            repo.docs).2 ≠ 0) ∨
    (∃ amount newReward,
      big.SetString input.Amount = some amount ∧
      repo.docs.find? (atLocation input.Latitude input.Longitude) = none ∧
      NewReward input.Token amount (common.HexToAddress input.Receiver)
        input.Latitude input.Longitude input.Data now1 now2 = Except.ok newReward ∧
      (Execute repo input now1 now2).2.docs
        = repo.docs ++ [{ newReward with Id := freshId repo.docs }]) := by
  have hF := FindRewardByLocation_frame repo input.Latitude input.Longitude
  cases hamt : big.SetString input.Amount with
  | none =>
      left
      unfold Execute
      rw [hamt]
      exact ⟨rfl, fun out h => by cases h⟩
  | some amount =>
      rcases hfind : FindRewardByLocation repo input.Latitude input.Longitude with
        ⟨⟨res, err⟩, repo1⟩
      have hrepo1 : repo1.docs = repo.docs := by
        have := hF.1
        rw [hfind] at this
        exact this
      unfold Execute
      rw [hamt]
      simp only
      rw [hfind]
      split
      · -- update path
        rename_i existing repo1' heq
        cases heq
        have hsome := FindRewardByLocation_some repo input.Latitude input.Longitude
          existing none (by rw [hfind])
        rcases UpdateReward_cases repo1
          (overwrite existing input amount now1) with hU | hU
        · left
          obtain ⟨hd, e, he⟩ := hU
          rcases hUr : UpdateReward repo1 (overwrite existing input amount now1) with
            ⟨⟨r, er⟩, repo2⟩
          rw [hUr] at hd he
          simp only at he
          subst he
          exact ⟨hd.trans hrepo1, fun out h => by cases h⟩
        · right; left
          refine ⟨amount, existing, rfl, hsome.2, ?_, ?_⟩
          · rw [← hrepo1]
            rcases hUr : UpdateReward repo1 (overwrite existing input amount now1) with
              ⟨⟨r, er⟩, repo2⟩
            rw [hUr] at hU
            cases er <;> exact hU.1
          · rw [← hrepo1]
            exact hU.2
      · -- create path
        rename_i res' repo1' heq
        cases heq
        have hnone := FindRewardByLocation_notFound repo input.Latitude input.Longitude
          res (by rw [hfind])
        split
        · left
          exact ⟨hrepo1, fun out h => by cases h⟩
        · rename_i newReward hnew
          have hid : newReward.Id = 0 := by
            rw [(NewReward_ok _ _ _ _ _ _ _ _ _ hnew).1]
          rcases CreateReward_cases repo1 newReward hid with hC | hC
          · left
            obtain ⟨hd, e, he⟩ := hC
            rcases hCr : CreateReward repo1 newReward with ⟨⟨r, er⟩, repo2⟩
            rw [hCr] at hd he
            simp only at he
            subst he
            exact ⟨hd.trans hrepo1, fun out h => by cases h⟩
          · right; right
            refine ⟨amount, newReward, rfl, hnone.2, hnew, ?_⟩
            rw [← hrepo1]
            rcases hCr : CreateReward repo1 newReward with ⟨⟨r, er⟩, repo2⟩
            rw [hCr] at hC
            cases er <;> exact hC
      · left
        rename_i heq
        cases heq
        exact ⟨hrepo1, fun out h => by cases h⟩
      · left
        rename_i heq
        cases heq
        exact ⟨hrepo1, fun out h => by cases h⟩

end usecase

namespace usecase

open entity mongodb

/-- One `Execute`, from a collection with unique ids and at most one record
at the event's coordinates: both facts still hold afterwards, whatever the
outcome; and when the call succeeds exactly one record is at the coordinates,
holding the event's data, the canonical decimal form of its amount and the
hex form of the address made from its receiver. -/
theorem Execute_upsert (repo : MongoDBRepository) (input : CreateRewardInputDTO)
    (now1 now2 : Time)
    (hids : (repo.docs.map (fun d => d.Id)).Nodup)
    (hone : (repo.docs.filter (atLocation input.Latitude input.Longitude)).length ≤ 1) :
    ((Execute repo input now1 now2).2.docs.map (fun d => d.Id)).Nodup ∧
    ((Execute repo input now1 now2).2.docs.filter
        (atLocation input.Latitude input.Longitude)).length ≤ 1 ∧
    (∀ out, (Execute repo input now1 now2).1 = Outcome.ok out →
      ∃ amount record,
        big.SetString input.Amount = some amount ∧
        (Execute repo input now1 now2).2.docs.filter
          (atLocation input.Latitude input.Longitude) = [record] ∧
        record.Receiver = (common.HexToAddress input.Receiver).Hex ∧
        record.Amount = big.String amount ∧
        record.Data = input.Data) := by
  rcases Execute_cases repo input now1 now2 with h | h | h
  · obtain ⟨hd, hno⟩ := h
    rw [hd]
    exact ⟨hids, hone, fun out hok => absurd hok (hno out)⟩
  · obtain ⟨amount, existing, hamt, hfind, hd, _⟩ := h
    obtain ⟨hmem, hp, huniq⟩ := unique_of_find _ repo.docs existing hfind hone
    have hp' : atLocation input.Latitude input.Longitude
        (setFields (overwrite existing input amount now1) existing) = true := hp
    obtain ⟨hfil, _⟩ := updateOne_filter (atLocation input.Latitude input.Longitude)
      (setFields (overwrite existing input amount now1)) existing repo.docs hids hmem
      huniq hp'
    rw [hd]
    refine ⟨?_, ?_, ?_⟩
    · rw [updateOne_ids _ _ (setFields_Id _)]
      exact hids
    · rw [hfil]
      simp
    · intro out _
      exact ⟨amount, _, hamt, hfil, rfl, rfl, rfl⟩
  · obtain ⟨amount, newReward, hamt, hfind, hnew, hd⟩ := h
    obtain ⟨hrec, _⟩ := NewReward_ok _ _ _ _ _ _ _ _ _ hnew
    have hnil : repo.docs.filter (atLocation input.Latitude input.Longitude) = [] := by
      rw [List.filter_eq_nil_iff]
      intro d hdm hpd
      have := List.find?_eq_none.mp hfind d hdm
      exact this hpd
    have hpn : atLocation input.Latitude input.Longitude
        { newReward with Id := freshId repo.docs } = true := by
      rw [hrec]
      simp [atLocation]
    have hfil : (repo.docs ++ [{ newReward with Id := freshId repo.docs }]).filter
        (atLocation input.Latitude input.Longitude)
        = [{ newReward with Id := freshId repo.docs }] := by
      rw [List.filter_append, hnil]
      simp [List.filter_cons, hpn]
    rw [hd]
    refine ⟨?_, ?_, ?_⟩
    · rw [List.map_append, List.nodup_append]
      refine ⟨hids, by simp, ?_⟩
      intro a ha hb
      simp only [List.map_cons, List.map_nil, List.mem_singleton] at hb
      obtain ⟨d, hdm, hda⟩ := List.mem_map.mp ha
      have := lt_freshId repo.docs d hdm
      rw [hda, hb] at this
      exact absurd this (Nat.lt_irrefl _)
    · rw [hfil]
      simp
    · intro out _
      refine ⟨amount, _, hamt, hfil, ?_, ?_, ?_⟩ <;> rw [hrec]

/-- C7, amended. From a collection with unique ids that holds at most one
record at the coordinates, after `Execute` on two events with the same
coordinates, if the second call succeeds then exactly one record is at those
coordinates, and it holds the second event's data, the canonical decimal form
of the second event's amount and the hex form of the address made from the
second event's receiver. -/
theorem upsert_leaves_one_record (repo : MongoDBRepository)
    (first second : CreateRewardInputDTO) (t1 t2 t3 t4 : Time)
    (hids : (repo.docs.map (fun d => d.Id)).Nodup)
    (hone : (repo.docs.filter (atLocation first.Latitude first.Longitude)).length ≤ 1)
    (hlat : second.Latitude = first.Latitude) (hlon : second.Longitude = first.Longitude)
    (out : CreateRewardOutputDTO)
    (hok : (Execute (Execute repo first t1 t2).2 second t3 t4).1 = Outcome.ok out) :
    ∃ amount record,
      big.SetString second.Amount = some amount ∧
      (Execute (Execute repo first t1 t2).2 second t3 t4).2.docs.filter
        (atLocation first.Latitude first.Longitude) = [record] ∧
      record.Receiver = (common.HexToAddress second.Receiver).Hex ∧
      record.Amount = big.String amount ∧
      record.Data = second.Data := by
  obtain ⟨h1, h2, _⟩ := Execute_upsert repo first t1 t2 hids hone
  rw [← hlat, ← hlon] at h2
  obtain ⟨_, _, h3⟩ := Execute_upsert (Execute repo first t1 t2).2 second t3 t4 h1 h2
  rw [hlat, hlon] at h3
  exact h3 out hok

end usecase

namespace common

theorem hexDigit_lower (n : Nat) :
    (48 ≤ hexDigit n ∧ hexDigit n ≤ 57) ∨ (97 ≤ hexDigit n ∧ hexDigit n ≤ 102) := by
  unfold hexDigit
  split <;> omega

theorem length_hexEncode (bs : List Nat) : (hexEncode bs).length = 2 * bs.length := by
  unfold hexEncode
  induction bs with
  | nil => rfl
  | cons b bs ih =>
      simp only [List.flatMap_cons, List.length_append, List.length_cons, List.length_nil, ih]
      omega

theorem hexEncode_lower (bs : List Nat) :
    ∀ c ∈ hexEncode bs, (48 ≤ c ∧ c ≤ 57) ∨ (97 ≤ c ∧ c ≤ 102) := by
  unfold hexEncode
  intro c hc
  simp only [List.mem_flatMap, List.mem_cons, List.mem_singleton, List.not_mem_nil,
    or_false] at hc
  obtain ⟨b, _, h | h⟩ := hc <;> subst h <;> exact hexDigit_lower _

theorem length_checksumCase (hash : List Nat) (s : GoString) :
    ∀ i, (checksumCase hash i s).length = s.length := by
  induction s with
  | nil => intro i; rfl
  | cons c cs ih =>
      intro i
      simp only [checksumCase, List.length_cons, ih]

theorem caseChar_hex (c nibble : Nat) (h : (48 ≤ c ∧ c ≤ 57) ∨ (97 ≤ c ∧ c ≤ 102)) :
    isHexCharacter (if (decide (c > 57) && decide (nibble > 7)) = true then c - 32 else c)
      = true := by
  unfold isHexCharacter
  by_cases h1 : c > 57 <;> by_cases h2 : nibble > 7 <;>
    simp only [h1, h2, decide_True, decide_False, Bool.and_self, Bool.and_false,
      Bool.false_and, if_true, if_false, decide_eq_true_eq, Bool.false_eq_true] <;> omega

theorem checksumCase_hex (hash : List Nat) (s : GoString) :
    ∀ i, (∀ c ∈ s, (48 ≤ c ∧ c ≤ 57) ∨ (97 ≤ c ∧ c ≤ 102)) →
      ∀ c ∈ checksumCase hash i s, isHexCharacter c = true := by
  induction s with
  | nil => intro i _ c hc; simp [checksumCase] at hc
  | cons d ds ih =>
      intro i hs c hc
      simp only [checksumCase, List.mem_cons] at hc
      have hd := hs d (List.mem_cons_self _ _)
      rcases hc with hc | hc
      · subst hc
        exact caseChar_hex _ _ hd
      · exact ih (i + 1) (fun x hx => hs x (List.mem_cons_of_mem _ hx)) c hc

/-- The hex form of an address is always a well-formed hex address: `0x` and
40 hex digits. -/
theorem IsHexAddress_Hex (a : Address) :
    IsHexAddress a.Hex = true ∧ a.Hex ≠ [] ∧ a.Hex.length = 42 := by
  have hlen : (checksumCase (sha3.keccak256 (hexEncode a.bytes)) 0
      (hexEncode a.bytes)).length = 40 := by
    rw [length_checksumCase, length_hexEncode, a.size]
  have hall := checksumCase_hex (sha3.keccak256 (hexEncode a.bytes)) (hexEncode a.bytes) 0
    (hexEncode_lower a.bytes)
  have hpre : has0xPrefix a.Hex = true := by
    unfold Address.Hex has0xPrefix
    simp
  have hdrop : a.Hex.drop 2 = checksumCase (sha3.keccak256 (hexEncode a.bytes)) 0
      (hexEncode a.bytes) := by
    unfold Address.Hex
    rfl
  refine ⟨?_, ?_, ?_⟩
  · unfold IsHexAddress
    simp only [hpre, if_true, hdrop, hlen, AddressLength]
    unfold isHex
    rw [hlen]
    simp only [decide_True, Bool.true_and, Nat.reduceMod, ne_eq, not_true_eq_false,
      if_false, List.all_eq_true]
    exact hall
  · unfold Address.Hex
    simp
  · unfold Address.Hex
    simp only [List.length_cons, hlen]

end common

namespace mongodb

open entity

theorem updateOne_count (id : ObjectID) (set set' : Reward → Reward) (docs : List Reward) :
    (updateOne id set docs).2 = (updateOne id set' docs).2 := by
  induction docs with
  | nil => rfl
  | cons d ds ih =>
      unfold updateOne
      split
      · rfl
      · exact ih

theorem find_by_id_isSome (id : ObjectID) (docs docs' : List Reward)
    (h : docs.map (fun d => d.Id) = docs'.map (fun d => d.Id)) :
    (docs.find? (fun d => decide (d.Id = id))).isSome
      = (docs'.find? (fun d => decide (d.Id = id))).isSome := by
  induction docs generalizing docs' with
  | nil =>
      cases docs' with
      | nil => rfl
      | cons d ds => simp at h
  | cons d ds ih =>
      cases docs' with
      | nil => simp at h
      | cons d' ds' =>
          simp only [List.map_cons, List.cons.injEq] at h
          obtain ⟨h1, h2⟩ := h
          simp only [List.find?_cons, h1]
          split
          · rfl
          · exact ih ds' h2

/-- Whether `FindRewardById` finds a record, and which error it returns,
depends only on the driver's fate and on the ids in the collection. -/
theorem FindRewardById_status (s s' : MongoDBRepository) (id : ObjectID)
    (hf : s.faults = s'.faults)
    (hids : s.docs.map (fun d => d.Id) = s'.docs.map (fun d => d.Id)) :
    (FindRewardById s id).1.1.isSome = (FindRewardById s' id).1.1.isSome ∧
    (FindRewardById s id).1.2 = (FindRewardById s' id).1.2 := by
  have hsome := find_by_id_isSome id s.docs s'.docs hids
  unfold FindRewardById nextFault
  rw [← hf]
  cases hfl : s.faults with
  | nil =>
      simp only
      cases h1 : s.docs.find? (fun d => decide (d.Id = id)) <;>
        cases h2 : s'.docs.find? (fun d => decide (d.Id = id)) <;>
        simp_all
  | cons b rest =>
      cases b
      · simp only
        cases h1 : s.docs.find? (fun d => decide (d.Id = id)) <;>
          cases h2 : s'.docs.find? (fun d => decide (d.Id = id)) <;>
          simp_all
      · exact ⟨rfl, rfl⟩

theorem nextFault_faults (s s' : MongoDBRepository) (hf : s.faults = s'.faults) :
    (nextFault s).1 = (nextFault s').1 ∧ (nextFault s).2.faults = (nextFault s').2.faults := by
  unfold nextFault
  rw [← hf]
  cases s.faults <;> simp_all

/-- `UpdateReward` finds a record or fails in the same way for two records
with the same id. -/
theorem UpdateReward_status (s : MongoDBRepository) (r r' : Reward) (hid : r.Id = r'.Id) :
    (UpdateReward s r).1.1.isSome = (UpdateReward s r').1.1.isSome ∧
    (UpdateReward s r).1.2 = (UpdateReward s r').1.2 := by
  have hn := nextFault_faults { s with calls := s.calls ++ [Call.UpdateReward r] }
    { s with calls := s.calls ++ [Call.UpdateReward r'] } rfl
  have hd := nextFault_docs { s with calls := s.calls ++ [Call.UpdateReward r] }
  have hd' := nextFault_docs { s with calls := s.calls ++ [Call.UpdateReward r'] }
  unfold UpdateReward
  rcases h1 : nextFault { s with calls := s.calls ++ [Call.UpdateReward r] } with ⟨b, s1⟩
  rcases h2 : nextFault { s with calls := s.calls ++ [Call.UpdateReward r'] } with ⟨b', s1'⟩
  rw [h1, h2] at hn
  rw [h1] at hd
  rw [h2] at hd'
  simp only at hn hd hd'
  obtain ⟨hb, hfa⟩ := hn
  subst hb
  have hdocs : s1.docs = s1'.docs := hd.1.trans hd'.1.symm
  cases b
  · simp only
    rw [← hid, ← hdocs, updateOne_count r.Id (setFields r') (setFields r) s1.docs]
    split
    · exact ⟨rfl, rfl⟩
    · exact FindRewardById_status _ _ r.Id hfa
        (by simp only [updateOne_ids _ _ (setFields_Id _)])
  · exact ⟨rfl, rfl⟩

/-- `CreateReward` finds the inserted record or fails in the same way for two
new records (records without an id). -/
theorem CreateReward_status (s : MongoDBRepository) (r r' : Reward)
    (hid : r.Id = 0) (hid' : r'.Id = 0) :
    (CreateReward s r).1.1.isSome = (CreateReward s r').1.1.isSome ∧
    (CreateReward s r).1.2 = (CreateReward s r').1.2 := by
  have hn := nextFault_faults { s with calls := s.calls ++ [Call.CreateReward r] }
    { s with calls := s.calls ++ [Call.CreateReward r'] } rfl
  have hd := nextFault_docs { s with calls := s.calls ++ [Call.CreateReward r] }
  have hd' := nextFault_docs { s with calls := s.calls ++ [Call.CreateReward r'] }
  unfold CreateReward
  rcases h1 : nextFault { s with calls := s.calls ++ [Call.CreateReward r] } with ⟨b, s1⟩
  rcases h2 : nextFault { s with calls := s.calls ++ [Call.CreateReward r'] } with ⟨b', s1'⟩
  rw [h1, h2] at hn
  rw [h1] at hd
  rw [h2] at hd'
  simp only at hn hd hd'
  obtain ⟨hb, hfa⟩ := hn
  subst hb
  have hdocs : s1.docs = s1'.docs := hd.1.trans hd'.1.symm
  cases b
  · simp only
    rw [if_pos hid, if_pos hid', ← hdocs]
    exact FindRewardById_status _ _ _ hfa (by simp)
  · exact ⟨rfl, rfl⟩

end mongodb

namespace usecase

open entity mongodb

/-- `Validate` gives the same verdict for two records that differ only in
their receiver when both receivers are well-formed. -/
theorem Validate_receiver (r : Reward) (receiver : GoString)
    (h1 : common.IsHexAddress r.Receiver = true) (h2 : r.Receiver ≠ [])
    (h3 : common.IsHexAddress receiver = true) (h4 : receiver ≠ []) :
    ({ r with Receiver := receiver } : Reward).Validate = r.Validate := by
  unfold Reward.Validate
  simp only [h1, h2, h3, h4, not_true_eq_false, or_self, if_false]

/-- `NewReward` succeeds for one receiver exactly when it succeeds for any
other, with the same error otherwise. -/
theorem NewReward_receiver (token : common.Address) (amount : Int)
    (receiver receiver' : common.Address) (latitude longitude : Float64) (data : GoString)
    (now1 now2 : Time) :
    (∃ r r', NewReward token amount receiver latitude longitude data now1 now2
          = Except.ok r ∧
        NewReward token amount receiver' latitude longitude data now1 now2
          = Except.ok r' ∧ r.Id = 0 ∧ r'.Id = 0) ∨
    (∃ e, NewReward token amount receiver latitude longitude data now1 now2
          = Except.error e ∧
        NewReward token amount receiver' latitude longitude data now1 now2
          = Except.error e) := by
  have key : ∀ (rec rec' : Reward), rec'.Validate = rec.Validate → rec.Id = 0 →
      rec'.Id = 0 →
      ((∃ r r', (match rec.Validate with
                  | some err => Except.error err
                  | none => Except.ok rec) = Except.ok r ∧
                (match rec'.Validate with
                  | some err => Except.error err
                  | none => Except.ok rec') = Except.ok r' ∧ r.Id = 0 ∧ r'.Id = 0) ∨
       (∃ e, (match rec.Validate with
                  | some err => Except.error err
                  | none => Except.ok rec) = (Except.error e : Except Err Reward) ∧
             (match rec'.Validate with
                  | some err => Except.error err
                  | none => Except.ok rec') = (Except.error e : Except Err Reward))) := by
    intro rec rec' h h0 h0'
    rw [h]
    cases rec.Validate with
    | none => exact Or.inl ⟨rec, rec', rfl, rfl, h0, h0'⟩
    | some e => exact Or.inr ⟨e, rfl, rfl⟩
  have hv := Validate_receiver
    { Id := 0, Token := token.Hex, Amount := big.String amount, Receiver := receiver.Hex,
      Latitude := latitude, Longitude := longitude, TxHash := [], Data := data,
      CreatedAt := now1, UpdatedAt := now2 } receiver'.Hex
    (common.IsHexAddress_Hex receiver).1 (common.IsHexAddress_Hex receiver).2.1
    (common.IsHexAddress_Hex receiver').1 (common.IsHexAddress_Hex receiver').2.1
  unfold NewReward
  exact key _ _ hv (Eq.refl _) (Eq.refl _)

theorem status_of_result (msg : String)
    (p q : (Option Reward × Option Err) × MongoDBRepository)
    (h1 : p.1.1.isSome = q.1.1.isSome) (h2 : p.1.2 = q.1.2) :
    (match p with
      | ((_, some err), repo2) => (Outcome.error (Err.wrapped msg err), repo2)
      | ((result, none), repo2) => (output result, repo2)).1.status
    = (match q with
      | ((_, some err), repo2) => (Outcome.error (Err.wrapped msg err), repo2)
      | ((result, none), repo2) => (output result, repo2)).1.status := by
  obtain ⟨⟨r, e⟩, s⟩ := p
  obtain ⟨⟨r', e'⟩, s'⟩ := q
  simp only at h1 h2
  subst h2
  cases e with
  | some err => rfl
  | none =>
      cases r <;> cases r' <;> simp_all [output, Outcome.status]

/-- Whether `Execute` succeeds, and with which error it fails, does not depend
on the event's receiver string. -/
theorem Execute_status_receiver (repo : MongoDBRepository) (input : CreateRewardInputDTO)
    (receiver : GoString) (now1 now2 : Time) :
    (Execute repo { input with Receiver := receiver } now1 now2).1.status
      = (Execute repo input now1 now2).1.status := by
  unfold Execute
  simp only
  cases big.SetString input.Amount with
  | none => rfl
  | some amount =>
      simp only
      rcases FindRewardByLocation repo input.Latitude input.Longitude with
        ⟨⟨res, err⟩, repo1⟩
      cases err with
      | none =>
          cases res with
          | none => rfl
          | some existing =>
              simp only
              have h := UpdateReward_status repo1
                (overwrite existing { input with Receiver := receiver } amount now1)
                (overwrite existing input amount now1) rfl
              exact status_of_result "failed to update reward" _ _ h.1 h.2
      | some e =>
          cases e with
          | ErrRewardNotFound =>
              simp only
              rcases NewReward_receiver input.Token amount
                (common.HexToAddress receiver) (common.HexToAddress input.Receiver)
                input.Latitude input.Longitude input.Data now1 now2 with
                ⟨r, r', h1, h2, h3, h4⟩ | ⟨e, h1, h2⟩
              · rw [h1, h2]
                simp only
                have h := CreateReward_status repo1 r r' h3 h4
                exact status_of_result "failed to save reward" _ _ h.1 h.2
              · rw [h1, h2]
          | ErrInvalidReward => simp only
          | invalidAmount => simp only
          | driver => simp only
          | wrapped msg e => simp only
          | wrappedNil msg => simp only

end usecase

namespace mongodb

open entity

theorem CreateReward_calls (s : MongoDBRepository) (input : Reward) :
    (CreateReward s input).2.calls = s.calls ++ [Call.CreateReward input] := by
  have h := nextFault_docs { s with calls := s.calls ++ [Call.CreateReward input] }
  unfold CreateReward
  split
  · rename_i s1 heq
    rw [heq] at h
    exact h.2
  · rename_i s1 heq
    rw [heq] at h
    split
    · exact (FindRewardById_frame _ _).2.trans h.2
    · split
      · exact h.2
      · exact (FindRewardById_frame _ _).2.trans h.2

end mongodb

namespace usecase

open entity mongodb

/-- The repository calls of one `Execute`: none; or the lookup alone; or the
lookup and `UpdateReward` of the found record overwritten with the event; or
the lookup and `CreateReward` of the record `NewReward` built. -/
theorem Execute_calls (repo : MongoDBRepository) (input : CreateRewardInputDTO)
    (now1 now2 : Time) :
    (Execute repo input now1 now2).2.calls = repo.calls ∨
    (Execute repo input now1 now2).2.calls
      = repo.calls ++ [Call.FindRewardByLocation input.Latitude input.Longitude] ∨
    (∃ amount existing,
      (Execute repo input now1 now2).2.calls
        = repo.calls ++ [Call.FindRewardByLocation input.Latitude input.Longitude,
                         Call.UpdateReward (overwrite existing input amount now1)]) ∨
    (∃ amount newReward,
      NewReward input.Token amount (common.HexToAddress input.Receiver)
        input.Latitude input.Longitude input.Data now1 now2 = Except.ok newReward ∧
      (Execute repo input now1 now2).2.calls
        = repo.calls ++ [Call.FindRewardByLocation input.Latitude input.Longitude,
                         Call.CreateReward newReward]) := by
  have hF := FindRewardByLocation_frame repo input.Latitude input.Longitude
  cases hamt : big.SetString input.Amount with
  | none =>
      left
      unfold Execute
      rw [hamt]
  | some amount =>
      rcases hfind : FindRewardByLocation repo input.Latitude input.Longitude with
        ⟨⟨res, err⟩, repo1⟩
      have hrepo1 : repo1.calls
          = repo.calls ++ [Call.FindRewardByLocation input.Latitude input.Longitude] := by
        have := hF.2
        rw [hfind] at this
        exact this
      unfold Execute
      rw [hamt]
      simp only
      rw [hfind]
      split
      · rename_i existing repo1' heq
        cases heq
        right; right; left
        refine ⟨amount, existing, ?_⟩
        have hU := (UpdateReward_frame repo1 (overwrite existing input amount now1)).1
        rcases hUr : UpdateReward repo1 (overwrite existing input amount now1) with
          ⟨⟨r, er⟩, repo2⟩
        rw [hUr] at hU
        simp only at hU
        cases er <;> simp only <;> rw [hU, hrepo1] <;> simp
      · rename_i res' repo1' heq
        cases heq
        split
        · right; left
          exact hrepo1
        · rename_i newReward hnew
          right; right; right
          refine ⟨amount, newReward, hnew, ?_⟩
          have hC := CreateReward_calls repo1 newReward
          rcases hCr : CreateReward repo1 newReward with ⟨⟨r, er⟩, repo2⟩
          rw [hCr] at hC
          simp only at hC
          cases er <;> simp only <;> rw [hC, hrepo1] <;> simp
      · rename_i heq
        cases heq
        right; left
        exact hrepo1
      · rename_i heq
        cases heq
        right; left
        exact hrepo1

/-- The receiver check of `Validate` cannot fail inside `Execute`: whether
`Execute` succeeds, and with which error it fails, is the same for every
receiver string; and every record it hands to `CreateReward` or `UpdateReward`
carries as receiver the hex form of `common.HexToAddress(receiver)`, which is
a well-formed address (`0x` and 40 hex digits) whatever the string was. -/
theorem receiver_is_coerced_not_validated (repo : MongoDBRepository)
    (input : CreateRewardInputDTO) (now1 now2 : Time) :
    (∀ receiver, (Execute repo { input with Receiver := receiver } now1 now2).1.status
      = (Execute repo input now1 now2).1.status) ∧
    (∀ r, (Call.CreateReward r ∈ (Execute repo input now1 now2).2.calls.drop
              repo.calls.length ∨
           Call.UpdateReward r ∈ (Execute repo input now1 now2).2.calls.drop
              repo.calls.length) →
      r.Receiver = (common.HexToAddress input.Receiver).Hex ∧
      common.IsHexAddress r.Receiver = true ∧ r.Receiver.length = 42) := by
  refine ⟨fun receiver => Execute_status_receiver repo input receiver now1 now2, ?_⟩
  intro r hr
  have hres : r.Receiver = (common.HexToAddress input.Receiver).Hex := by
    rcases Execute_calls repo input now1 now2 with h | h | ⟨amount, existing, h⟩ |
        ⟨amount, newReward, hnew, h⟩
    · rw [h] at hr
      simp at hr
    · rw [h] at hr
      simp at hr
    · rw [h] at hr
      simp only [List.drop_left, List.mem_cons, List.mem_singleton, List.not_mem_nil,
        or_false, false_or, reduceCtorEq, Call.UpdateReward.injEq] at hr
      rw [hr]
      rfl
    · rw [h] at hr
      simp only [List.drop_left, List.mem_cons, List.mem_singleton, List.not_mem_nil,
        or_false, false_or, reduceCtorEq, Call.CreateReward.injEq] at hr
      rw [hr, (NewReward_ok _ _ _ _ _ _ _ _ _ hnew).1]
  rw [hres]
  exact ⟨rfl, (common.IsHexAddress_Hex _).1, (common.IsHexAddress_Hex _).2.2⟩

end usecase

namespace usecase

open entity mongodb

/-- C7, as stated, fails in two ways. From a collection that already holds two
records at the coordinates, the two calls succeed and two records remain. And
from an empty collection the two calls succeed and leave one record whose
receiver and amount are not the second event's strings but their normal
forms: the checksummed address and the amount without its leading zero. -/
theorem upsert_counterexample :
    ((Execute duplicateRepository sampleEvent 5 6).1.status = Status.ok ∧
     (Execute (Execute duplicateRepository sampleEvent 5 6).2 secondEvent 7 8).1.status
        = Status.ok ∧
     ((Execute (Execute duplicateRepository sampleEvent 5 6).2 secondEvent 7 8).2.docs.filter
        (atLocation 1 2)).length = 2) ∧
    ((Execute emptyRepository sampleEvent 5 6).1.status = Status.ok ∧
     (Execute (Execute emptyRepository sampleEvent 5 6).2 secondEvent 7 8).1.status
        = Status.ok ∧
     (Execute (Execute emptyRepository sampleEvent 5 6).2 secondEvent 7 8).2.docs.map
        (fun d => (d.Receiver, d.Amount))
        = [(str "0xbBbBBBBbbBBBbbbBbbBbbbbBBbBbbbbBbBbbBBbB", str "250")] ∧
     secondEvent.Receiver = str "0xbbbbbbbbbbbbbbbbbbbbbbbbbbbbbbbbbbbbbbbb" ∧
     secondEvent.Amount = str "0250") := by
  decide!

/-- Witness for C7: `sampleEvent` then `secondEvent` on an empty collection. -/
theorem upsert_leaves_one_record_witness :
    ∃ amount record,
      big.SetString secondEvent.Amount = some amount ∧
      (Execute (Execute emptyRepository sampleEvent 5 6).2 secondEvent 7 8).2.docs.filter
        (atLocation sampleEvent.Latitude sampleEvent.Longitude) = [record] ∧
      record.Receiver = (common.HexToAddress secondEvent.Receiver).Hex ∧
      record.Amount = big.String amount ∧
      record.Data = secondEvent.Data :=
  upsert_leaves_one_record emptyRepository sampleEvent secondEvent 5 6 7 8
    (by decide) (by decide) rfl rfl
    { Id := 1
      Token := str "0x0000000000000000000000000000000000000001"
      Amount := str "250"
      Receiver := str "0xbBbBBBBbbBBBbbbBbbBbbbbBBbBbbbbBbBbbBBbB"
      Latitude := 1
      Longitude := 2
      TxHash := []
      Data := str "y" }
    (by decide!)

/-- Witness for C8: `secondEvent` arrives when `sampleRecord` is stored. -/
theorem update_overwrites_four_fields_witness :
    (FindRewardByLocation sampleRepository secondEvent.Latitude secondEvent.Longitude).1
      = (some sampleRecord, none) ∧
    (Execute sampleRepository secondEvent 7 8).2.docs.map (fun d => d.Id)
      = sampleRepository.docs.map (fun d => d.Id) :=
  ⟨by decide!,
   (update_overwrites_four_fields sampleRepository secondEvent 7 8 sampleRecord
      (by decide!)).2.2.2⟩

/-- C9 at its failing input: `invalidEvent` (amount `0`, no data) arrives when
`sampleRecord` is stored at its coordinates. `Execute` succeeds and the stored
record now has amount `0` and empty data, a record `Validate` rejects; the
same event on an empty collection is rejected by `NewReward` and nothing is
written. -/
theorem update_path_skips_validation :
    (Execute sampleRepository invalidEvent 7 8).1.status = Status.ok ∧
    (Execute sampleRepository invalidEvent 7 8).2.docs
      = [{ sampleRecord with Amount := str "0", Data := [], UpdatedAt := 7 }] ∧
    ({ sampleRecord with Amount := str "0", Data := [], UpdatedAt := 7 } : Reward).Validate
      = some Err.ErrInvalidReward ∧
    (Execute emptyRepository invalidEvent 7 8).1
      = Outcome.error (Err.wrapped "failed to create reward" Err.ErrInvalidReward) ∧
    (Execute emptyRepository invalidEvent 7 8).2.docs = [] := by
  decide!

/-- C10 at its failing input: the event's receiver is `not-an-address`, which
is no hex address. `Reward.Validate` has a receiver check, and a record that
is valid but for carrying that string fails it; but `Execute` runs the string
through `common.HexToAddress` first, so the check sees the zero address and
passes. `Execute` succeeds on an empty collection, creating a record for the
zero address, and succeeds when a record exists, overwriting its receiver
with the zero address; for the claim both calls should fail and write
nothing. -/
theorem malformed_receiver_is_persisted :
    common.IsHexAddress malformedEvent.Receiver = false ∧
    sampleRecord.Validate = none ∧
    ({ sampleRecord with Receiver := malformedEvent.Receiver } : Reward).Validate
      = some Err.ErrInvalidReward ∧
    (Execute emptyRepository malformedEvent 5 6).1.status = Status.ok ∧
    (Execute emptyRepository malformedEvent 5 6).2.docs.map (fun d => d.Receiver)
      = [str "0x0000000000000000000000000000000000000000"] ∧
    (Execute sampleRepository malformedEvent 7 8).1.status = Status.ok ∧
    (Execute sampleRepository malformedEvent 7 8).2.docs.map (fun d => d.Receiver)
      = [str "0x0000000000000000000000000000000000000000"] := by
  decide!

end usecase



namespace entity

theorem Sign_pos_iff (x : Int) : ¬ big.Sign x ≤ 0 ↔ 0 < x := by
  unfold big.Sign
  split
  · constructor <;> intro h <;> omega
  · split
    · constructor <;> intro h <;> omega
    · constructor <;> intro h <;> omega

/-- C11. `Validate` accepts a record exactly when its token and receiver are
non-empty hex addresses, its amount is a base-10 integer above zero, its data
is non-empty and its creation time is not the zero time; every record it does
not accept gets `ErrInvalidReward`. `NewReward` returns the record it built
exactly when `Validate` accepts that record, and otherwise returns the error
of `Validate`, which is `ErrInvalidReward`, and no record. -/
theorem Validate_accepts_exactly_valid_records (r : Reward) :
    (r.Validate = none ↔
      (r.Token ≠ [] ∧ common.IsHexAddress r.Token = true) ∧
      (∃ amount, big.SetString r.Amount = some amount ∧ 0 < amount) ∧
      (r.Receiver ≠ [] ∧ common.IsHexAddress r.Receiver = true) ∧
      r.Data ≠ [] ∧ r.CreatedAt ≠ 0) ∧
    (r.Validate ≠ none ↔ r.Validate = some Err.ErrInvalidReward) ∧
    ∀ (token : common.Address) (amount : Int) (receiver : common.Address)
      (latitude longitude : Float64) (data : GoString) (now1 now2 : Time),
      (∀ built, NewReward token amount receiver latitude longitude data now1 now2
          = Except.ok built ↔
        (built = { Id := 0, Token := token.Hex, Amount := big.String amount,
                   Receiver := receiver.Hex, Latitude := latitude, Longitude := longitude,
                   TxHash := [], Data := data, CreatedAt := now1, UpdatedAt := now2 } ∧
         built.Validate = none)) ∧
      (∀ err, NewReward token amount receiver latitude longitude data now1 now2
          = Except.error err ↔
        (err = Err.ErrInvalidReward ∧
         ({ Id := 0, Token := token.Hex, Amount := big.String amount,
            Receiver := receiver.Hex, Latitude := latitude, Longitude := longitude,
            TxHash := [], Data := data, CreatedAt := now1,
            UpdatedAt := now2 } : Reward).Validate
           = some Err.ErrInvalidReward)) := by
  have hV : ∀ q : Reward, q.Validate = none ∨ q.Validate = some Err.ErrInvalidReward := by
    intro q
    unfold Reward.Validate
    split
    · exact Or.inr rfl
    · split
      · exact Or.inr rfl
      · split
        · exact Or.inr rfl
        · split
          · exact Or.inr rfl
          · split
            · exact Or.inr rfl
            · split
              · exact Or.inr rfl
              · exact Or.inl rfl
  refine ⟨?_, ?_, ?_⟩
  · unfold Reward.Validate
    by_cases ht : r.Token = [] ∨ ¬ common.IsHexAddress r.Token = true
    · rw [if_pos ht]
      constructor
      · intro h; cases h
      · rintro ⟨⟨h1, h2⟩, _⟩
        rcases ht with ht | ht
        · exact absurd ht h1
        · exact absurd h2 ht
    · rw [if_neg ht]
      have ht' : r.Token ≠ [] ∧ common.IsHexAddress r.Token = true := by
        constructor
        · intro h; exact ht (Or.inl h)
        · by_contra h; exact ht (Or.inr h)
      cases hamt : big.SetString r.Amount with
      | none =>
          simp only
          constructor
          · intro h; cases h
          · rintro ⟨_, ⟨a, ha, _⟩, _⟩
            cases ha
      | some amount =>
          simp only
          by_cases hs : big.Sign amount ≤ 0
          · rw [if_pos hs]
            constructor
            · intro h; cases h
            · rintro ⟨_, ⟨a, ha, hpos⟩, _⟩
              cases ha
              exact absurd hs ((Sign_pos_iff amount).mpr hpos)
          · rw [if_neg hs]
            have hpos : 0 < amount := (Sign_pos_iff amount).mp hs
            by_cases hr : r.Receiver = [] ∨ ¬ common.IsHexAddress r.Receiver = true
            · rw [if_pos hr]
              constructor
              · intro h; cases h
              · rintro ⟨_, _, ⟨h1, h2⟩, _⟩
                rcases hr with hr | hr
                · exact absurd hr h1
                · exact absurd h2 hr
            · rw [if_neg hr]
              have hr' : r.Receiver ≠ [] ∧ common.IsHexAddress r.Receiver = true := by
                constructor
                · intro h; exact hr (Or.inl h)
                · by_contra h; exact hr (Or.inr h)
              by_cases hd : r.Data = []
              · rw [if_pos hd]
                constructor
                · intro h; cases h
                · rintro ⟨_, _, _, h1, _⟩
                  exact absurd hd h1
              · rw [if_neg hd]
                by_cases hc : r.CreatedAt = 0
                · rw [if_pos hc]
                  constructor
                  · intro h; cases h
                  · rintro ⟨_, _, _, _, h1⟩
                    exact absurd hc h1
                · rw [if_neg hc]
                  constructor
                  · intro _
                    exact ⟨ht', ⟨amount, rfl, hpos⟩, hr', hd, hc⟩
                  · intro _; rfl
  · constructor
    · intro h
      rcases hV r with h0 | h1
      · exact absurd h0 h
      · exact h1
    · intro h h0
      rw [h0] at h
      cases h
  · intro token amount receiver latitude longitude data now1 now2
    constructor
    · intro built
      constructor
      · intro h
        exact usecase.NewReward_ok _ _ _ _ _ _ _ _ built h
      · rintro ⟨hb, hv⟩
        subst hb
        unfold NewReward
        simp only
        rw [hv]
    · intro err
      have hq := hV { Id := 0, Token := token.Hex, Amount := big.String amount,
                      Receiver := receiver.Hex, Latitude := latitude,
                      Longitude := longitude, TxHash := [], Data := data,
                      CreatedAt := now1, UpdatedAt := now2 }
      unfold NewReward
      simp only
      rcases hq with hq | hq
      · rw [hq]
        simp only
        constructor
        · intro h; cases h
        · rintro ⟨_, h⟩
          cases h
      · rw [hq]
        simp only
        constructor
        · intro h
          cases h
          exact ⟨rfl, trivial⟩
        · rintro ⟨h, _⟩
          rw [h]

end entity

namespace relayer

open usecase mongodb entity

/-! ## Properties of the processing function -/

/-- C12. A job whose payload `json.Unmarshal` rejects: `processFunc` returns
the result with `Success = false` and the wrapped unmarshal error, and leaves
the service as it was, so it has called no repository method and has put
nothing on `txChan`. -/
theorem malformed_payload_fails_without_effect
    (unmarshal : GoString → Option CreateRewardInputDTO) (s : Service) (msg : kafka.Message)
    (now1 now2 : Time) (pick : Select) (h : unmarshal msg.Value = none) :
    processFunc unmarshal s (Job.message (some msg)) now1 now2 pick =
      (Returned.returned
        { MessageId := msg.Key, Success := false,
          Error := some (Error.wrapped "failed to unmarshal message" Error.unmarshal),
          Output := none, KafkaMsg := some msg },
       s) := by
  unfold processFunc persist
  simp only [h]

theorem malformed_payload_fails_without_effect_witness :
    sampleUnmarshal malformedMessage.Value = none ∧
    processFunc sampleUnmarshal sampleService (Job.message (some malformedMessage)) 5 6
        Select.send =
      (Returned.returned
        { MessageId := malformedMessage.Key, Success := false,
          Error := some (Error.wrapped "failed to unmarshal message" Error.unmarshal),
          Output := none, KafkaMsg := some malformedMessage },
       sampleService) :=
  ⟨by decide!,
   malformed_payload_fails_without_effect sampleUnmarshal sampleService malformedMessage 5 6
     Select.send (by decide!)⟩

/-- `processFunc` when `Execute` returns an error. -/
theorem processFunc_of_error (unmarshal : GoString → Option CreateRewardInputDTO)
    (s : Service) (msg : kafka.Message) (input : CreateRewardInputDTO) (now1 now2 : Time)
    (pick : Select) (err : Err) (repo : MongoDBRepository)
    (hin : unmarshal msg.Value = some input)
    (hex : Execute s.repository { input with Token := s.token } now1 now2
        = (Outcome.error err, repo)) :
    processFunc unmarshal s (Job.message (some msg)) now1 now2 pick =
      (Returned.returned
        { MessageId := msg.Key, Success := false,
          Error := some (Error.wrapped "failed to create reward" (Error.usecase err)),
          Output := none, KafkaMsg := some msg },
       { s with repository := repo }) := by
  unfold processFunc persist
  simp only [hin, hex]

/-- C13. With a payload that deserialises and an amount that parses: when the
lookup by the coordinates fails with an error other than not-found, `Execute`
returns that error wrapped, having called the lookup and nothing else, with
the collection untouched; when `UpdateReward` or `CreateReward` fails,
`Execute` returns its error wrapped and leaves the repository as the failed
call left it, the lookup and that call being its only calls. In each case
`processFunc` returns `Success = false` with the error, and leaves `txChan`
and everything but the repository as it was. -/
theorem persistence_failure_fails_the_job
    (unmarshal : GoString → Option CreateRewardInputDTO) (s : Service) (msg : kafka.Message)
    (input : CreateRewardInputDTO) (amount : Int) (now1 now2 : Time) (pick : Select)
    (hin : unmarshal msg.Value = some input)
    (hamt : big.SetString input.Amount = some amount) :
    (∀ res err repo1,
      FindRewardByLocation s.repository input.Latitude input.Longitude
        = ((res, some err), repo1) →
      err ≠ Err.ErrRewardNotFound →
      Execute s.repository { input with Token := s.token } now1 now2
        = (Outcome.error (Err.wrapped "failed to check existing reward" err), repo1) ∧
      repo1.docs = s.repository.docs ∧
      repo1.calls = s.repository.calls
        ++ [Call.FindRewardByLocation input.Latitude input.Longitude] ∧
      processFunc unmarshal s (Job.message (some msg)) now1 now2 pick =
        (Returned.returned
          { MessageId := msg.Key, Success := false,
            Error := some (Error.wrapped "failed to create reward"
              (Error.usecase (Err.wrapped "failed to check existing reward" err))),
            Output := none, KafkaMsg := some msg },
         { s with repository := repo1 })) ∧
    (∀ existing repo1 res err repo2,
      FindRewardByLocation s.repository input.Latitude input.Longitude
        = ((some existing, none), repo1) →
      UpdateReward repo1 (overwrite existing { input with Token := s.token } amount now1)
        = ((res, some err), repo2) →
      Execute s.repository { input with Token := s.token } now1 now2
        = (Outcome.error (Err.wrapped "failed to update reward" err), repo2) ∧
      repo2.calls = s.repository.calls
        ++ [Call.FindRewardByLocation input.Latitude input.Longitude,
            Call.UpdateReward (overwrite existing { input with Token := s.token } amount now1)] ∧
      processFunc unmarshal s (Job.message (some msg)) now1 now2 pick =
        (Returned.returned
          { MessageId := msg.Key, Success := false,
            Error := some (Error.wrapped "failed to create reward"
              (Error.usecase (Err.wrapped "failed to update reward" err))),
            Output := none, KafkaMsg := some msg },
         { s with repository := repo2 })) ∧
    (∀ res0 repo1 newReward res err repo2,
      FindRewardByLocation s.repository input.Latitude input.Longitude
        = ((res0, some Err.ErrRewardNotFound), repo1) →
      NewReward s.token amount (common.HexToAddress input.Receiver) input.Latitude
        input.Longitude input.Data now1 now2 = Except.ok newReward →
      CreateReward repo1 newReward = ((res, some err), repo2) →
      Execute s.repository { input with Token := s.token } now1 now2
        = (Outcome.error (Err.wrapped "failed to save reward" err), repo2) ∧
      repo2.calls = s.repository.calls
        ++ [Call.FindRewardByLocation input.Latitude input.Longitude,
            Call.CreateReward newReward] ∧
      processFunc unmarshal s (Job.message (some msg)) now1 now2 pick =
        (Returned.returned
          { MessageId := msg.Key, Success := false,
            Error := some (Error.wrapped "failed to create reward"
              (Error.usecase (Err.wrapped "failed to save reward" err))),
            Output := none, KafkaMsg := some msg },
         { s with repository := repo2 })) := by
  have hF := FindRewardByLocation_frame s.repository input.Latitude input.Longitude
  refine ⟨?_, ?_, ?_⟩
  · intro res err repo1 hfind hne
    rw [hfind] at hF
    have hex : Execute s.repository { input with Token := s.token } now1 now2
        = (Outcome.error (Err.wrapped "failed to check existing reward" err), repo1) := by
      unfold Execute
      simp only [hamt, hfind]
    exact ⟨hex, hF.1, hF.2, processFunc_of_error unmarshal s msg input now1 now2 pick _ _ hin hex⟩
  · intro existing repo1 res err repo2 hfind hup
    rw [hfind] at hF
    have hU := (UpdateReward_frame repo1
      (overwrite existing { input with Token := s.token } amount now1)).1
    rw [hup] at hU
    have hex : Execute s.repository { input with Token := s.token } now1 now2
        = (Outcome.error (Err.wrapped "failed to update reward" err), repo2) := by
      unfold Execute
      simp only [hamt, hfind, hup]
    refine ⟨hex, ?_, processFunc_of_error unmarshal s msg input now1 now2 pick _ _ hin hex⟩
    simp only at hU hF
    rw [hU, hF.2]
    simp
  · intro res0 repo1 newReward res err repo2 hfind hnew hcr
    rw [hfind] at hF
    have hC := CreateReward_calls repo1 newReward
    rw [hcr] at hC
    have hex : Execute s.repository { input with Token := s.token } now1 now2
        = (Outcome.error (Err.wrapped "failed to save reward" err), repo2) := by
      unfold Execute
      simp only [hamt, hfind, hnew, hcr]
    refine ⟨hex, ?_, processFunc_of_error unmarshal s msg input now1 now2 pick _ _ hin hex⟩
    simp only at hC hF
    rw [hC, hF.2]
    simp

end relayer

namespace relayer

open usecase mongodb entity

/-- Witness for C13: the lookup of `sampleMessage` meets a driver failure. -/
theorem persistence_failure_fails_the_job_witness :
    processFunc sampleUnmarshal failingService (Job.message (some sampleMessage)) 5 6
        Select.send =
      (Returned.returned
        { MessageId := sampleMessage.Key, Success := false,
          Error := some (Error.wrapped "failed to create reward"
            (Error.usecase (Err.wrapped "failed to check existing reward" Err.driver))),
          Output := none, KafkaMsg := some sampleMessage },
       { failingService with
           repository :=
             { docs := [], faults := [], calls := [Call.FindRewardByLocation 1 2] } }) :=
  ((persistence_failure_fails_the_job sampleUnmarshal failingService sampleMessage
      sampleDecoded 100 5 6 Select.send (by decide!) (by decide)).1
    none Err.driver { docs := [], faults := [], calls := [Call.FindRewardByLocation 1 2] }
    (by decide) (by decide)).2.2.2

/-- `processFunc` returns a successful result only from the `select` after a
successful `Execute`. -/
theorem success_needs_persistence (unmarshal : GoString → Option CreateRewardInputDTO)
    (s : Service) (job : Job) (now1 now2 : Time) (pick : Select) (r : RewardResult)
    (s1 : Service)
    (h : processFunc unmarshal s job now1 now2 pick = (Returned.returned r, s1))
    (hs : r.Success = true) :
    ∃ msg input output,
      job = Job.message (some msg) ∧ unmarshal msg.Value = some input ∧
      (Execute s.repository { input with Token := s.token } now1 now2).1
        = Outcome.ok output ∧
      r = { MessageId := msg.Key, Success := true, Error := none, Output := some output,
            KafkaMsg := some msg } := by
  unfold processFunc persist at h
  cases job with
  | other => simp at h
  | message m =>
      cases m with
      | none => simp at h
      | some msg =>
          simp only at h
          cases hin : unmarshal msg.Value with
          | none =>
              rw [hin] at h
              simp only [Prod.mk.injEq, Returned.returned.injEq] at h
              rw [← h.1] at hs
              cases hs
          | some input =>
              rw [hin] at h
              simp only at h
              rcases hex : Execute s.repository { input with Token := s.token } now1 now2 with
                ⟨out, repo⟩
              rw [hex] at h
              cases out with
              | error err =>
                  simp only [Prod.mk.injEq, Returned.returned.injEq] at h
                  rw [← h.1] at hs
                  cases hs
              | nilDereference => simp at h
              | ok output =>
                  simp only at h
                  refine ⟨msg, input, output, rfl, hin, by rw [hex], ?_⟩
                  unfold handOff at h
                  split at h
                  · split at h
                    · simp at h
                    · simp only [Prod.mk.injEq, Returned.returned.injEq] at h
                      exact h.1.symm
                  · split at h
                    · simp only [Prod.mk.injEq, Returned.returned.injEq] at h
                      exact h.1.symm
                    · simp at h

/-- C14. The commit hook `CommitMessage` is invoked for a result only if the
result is a `RewardResult` with `Success = true` and a message, and then with
that message; `processFunc` returns `Success = true` only if the payload
deserialised and `Execute` succeeded; so the result `processFunc` returns for
a job whose `Execute` did not succeed never makes `processWorkerResults`
invoke the hook, whatever the state of the service when the result arrives. -/
theorem commit_only_after_persistence
    (unmarshal : GoString → Option CreateRewardInputDTO) (s : Service) :
    (∀ result,
      (processWorkerResult s result).kafkaConsumer.calls ≠ s.kafkaConsumer.calls →
      ∃ r msg, result = Result.reward r ∧ r.Success = true ∧ r.KafkaMsg = some msg ∧
        (processWorkerResult s result).kafkaConsumer.calls
          = s.kafkaConsumer.calls ++ [msg]) ∧
    (∀ job now1 now2 pick r s1,
      processFunc unmarshal s job now1 now2 pick = (Returned.returned r, s1) →
      r.Success = true →
      ∃ msg input output,
        job = Job.message (some msg) ∧ unmarshal msg.Value = some input ∧
        (Execute s.repository { input with Token := s.token } now1 now2).1
          = Outcome.ok output) ∧
    (∀ msg input now1 now2 pick r s1,
      unmarshal msg.Value = some input →
      (∀ output, (Execute s.repository { input with Token := s.token } now1 now2).1
          ≠ Outcome.ok output) →
      processFunc unmarshal s (Job.message (some msg)) now1 now2 pick
        = (Returned.returned r, s1) →
      ∀ (later : Service) (before after : List Result),
        (processWorkerResults later (before ++ Result.reward r :: after)).kafkaConsumer.calls
          = (processWorkerResults later (before ++ after)).kafkaConsumer.calls) := by
  refine ⟨?_, ?_, ?_⟩
  · intro result hne
    unfold processWorkerResult at hne ⊢
    cases result with
    | other => exact absurd rfl hne
    | reward r =>
        simp only at hne ⊢
        cases hS : r.Success with
        | false =>
            rw [hS] at hne
            exact absurd rfl hne
        | true =>
            cases hK : r.KafkaMsg with
            | none =>
                rw [hS, hK] at hne
                exact absurd rfl hne
            | some msg =>
                refine ⟨r, msg, rfl, hS, hK, ?_⟩
                simp only [kafka.KafkaConsumer.CommitMessage]
                split <;> [rfl; (split <;> rfl)]
  · intro job now1 now2 pick r s1 h hs
    obtain ⟨msg, input, output, h1, h2, h3, _⟩ :=
      success_needs_persistence unmarshal s job now1 now2 pick r s1 h hs
    exact ⟨msg, input, output, h1, h2, h3⟩
  · intro msg input now1 now2 pick r s1 hin hfail h later before after
    have hS : r.Success = false := by
      cases hs : r.Success with
      | false => rfl
      | true =>
          obtain ⟨msg', input', output, h1, h2, h3, _⟩ :=
            success_needs_persistence unmarshal s _ now1 now2 pick r s1 h hs
          cases h1
          rw [hin] at h2
          cases h2
          exact absurd h3 (hfail output)
    have hstep : ∀ q : Service, processWorkerResult q (Result.reward r) = q := by
      intro q
      unfold processWorkerResult
      simp only [hS]
    unfold processWorkerResults
    rw [List.foldl_append, List.foldl_append, List.foldl_cons, hstep]

end relayer

namespace relayer

open usecase mongodb entity

/-- The `select` of lines 146-151 while `txChan` is open: whichever case it
takes, `processFunc` returns the successful result with the output; the send
case appends the output to the queue and the done case leaves the queue as it
was. -/
theorem handOff_open (s : Service) (result : RewardResult) (output : CreateRewardOutputDTO)
    (pick : Select) (hopen : s.txChan.closed = false) :
    handOff s result output pick = (Returned.blocked, s) ∨
    handOff s result output pick =
      (Returned.returned { result with Success := true, Output := some output }, s) ∨
    handOff s result output pick =
      (Returned.returned { result with Success := true, Output := some output },
       { s with txChan := { s.txChan with buf := s.txChan.buf ++ [output] } }) := by
  unfold handOff
  split
  · rw [if_neg (by rw [hopen]; decide)]
    exact Or.inr (Or.inr rfl)
  · split
    · exact Or.inr (Or.inl rfl)
    · exact Or.inl rfl

/-- C15 at its failing input. The record is persisted and `processFunc` has
reached the `select` of lines 146-151, `txChan` has been closed, and the
`select` takes the send case (the only ready case while the context is live):
`processFunc` panics with a send on a closed channel and returns no result. -/
theorem handOff_panics_on_closed_queue
    (unmarshal : GoString → Option CreateRewardInputDTO) (s : Service) (job : Job)
    (now1 now2 : Time) (pick : Select) (result : RewardResult)
    (output : CreateRewardOutputDTO) (s1 : Service)
    (hp : persist unmarshal s job now1 now2 = (Persisted.handOff result output, s1))
    (hclosed : s1.txChan.closed = true)
    (hpick : s1.ctxDone = false ∨ pick = Select.send) :
    processFunc unmarshal s job now1 now2 pick
      = (Returned.panicked Panic.sendOnClosedChannel, s1) := by
  unfold processFunc
  rw [hp]
  simp only
  unfold handOff
  have hready : s1.txChan.sendReady = true := by
    unfold Chan.sendReady
    rw [hclosed]
    rfl
  rw [if_pos ⟨hready, hpick⟩, if_pos hclosed]

theorem handOff_panics_on_closed_queue_witness :
    persist sampleUnmarshal closedService (Job.message (some sampleMessage)) 5 6
      = (Persisted.handOff
          { MessageId := sampleMessage.Key, Success := false, Error := none,
            Output := none, KafkaMsg := some sampleMessage } sampleOutput,
         { closedService with
             repository :=
               { docs := [sampleRecord], faults := [],
                 calls := [Call.FindRewardByLocation 1 2,
                           Call.CreateReward { sampleRecord with Id := 0 }] } }) ∧
    processFunc sampleUnmarshal closedService (Job.message (some sampleMessage)) 5 6
        Select.send
      = (Returned.panicked Panic.sendOnClosedChannel,
         { closedService with
             repository :=
               { docs := [sampleRecord], faults := [],
                 calls := [Call.FindRewardByLocation 1 2,
                           Call.CreateReward { sampleRecord with Id := 0 }] } }) :=
  ⟨by decide!,
   handOff_panics_on_closed_queue sampleUnmarshal closedService
     (Job.message (some sampleMessage)) 5 6 Select.send
     { MessageId := sampleMessage.Key, Success := false, Error := none,
       Output := none, KafkaMsg := some sampleMessage }
     sampleOutput
     { closedService with
         repository :=
           { docs := [sampleRecord], faults := [],
             calls := [Call.FindRewardByLocation 1 2,
                       Call.CreateReward { sampleRecord with Id := 0 }] } }
     (by decide!) (by decide) (Or.inl (by decide))⟩

/-- The calls of the chain client keep or extend the list of `Mint` calls. -/
theorem NewRewardToken_mints (c : ethclient.Client) :
    c.NewRewardToken.2.mints = c.mints ∧ c.NewRewardToken.2.pending = c.pending := by
  unfold ethclient.Client.NewRewardToken
  split <;> exact ⟨rfl, rfl⟩

theorem PendingNonceAt_mints (c : ethclient.Client) :
    c.PendingNonceAt.2.mints = c.mints ∧ c.PendingNonceAt.2.pending = c.pending := by
  unfold ethclient.Client.PendingNonceAt
  split <;> exact ⟨rfl, rfl⟩

theorem Mint_mints (c : ethclient.Client) (call : ethclient.MintCall) :
    (c.Mint call).2.mints = c.mints ++ [call] := by
  unfold ethclient.Client.Mint
  simp only
  split <;> rfl

/-- C16. `mintReward` leaves the stored transaction options as they were,
whether it returns a hash or an error; every `Mint` call it makes carries the
stored options with only the nonce replaced; and the stored options are the
same after any number of turns of the settlement loop, so each call starts
from the stored options and not from the nonce of the call before. -/
theorem mintReward_keeps_stored_options (s : Service) (reward : CreateRewardOutputDTO) :
    (mintReward s reward).2.txOpts = s.txOpts ∧
    (∀ call ∈ (mintReward s reward).2.ethClient.mints,
      call ∈ s.ethClient.mints ∨ { call.opts with Nonce := s.txOpts.Nonce } = s.txOpts) ∧
    ∀ picks, (processBlockchainTransactions picks s).2.txOpts = s.txOpts := by
  have hmint : ∀ (q : Service) (r : CreateRewardOutputDTO),
      (mintReward q r).2.txOpts = q.txOpts := by
    intro q r
    unfold mintReward
    simp only
    split
    · rfl
    · split
      · rfl
      · split
        · rfl
        · split <;> rfl
  have hsettle : ∀ q : Service, (settle q).2.txOpts = q.txOpts := by
    intro q
    unfold settle
    split
    · split <;> rfl
    · rename_i reward rest _
      have h := hmint { q with txChan := { q.txChan with buf := rest } } reward
      split
      · rename_i e s1 heq
        rw [heq] at h
        exact h
      · rename_i txHash s1 heq
        rw [heq] at h
        exact h
  refine ⟨hmint s reward, ?_, ?_⟩
  · intro call hcall
    unfold mintReward at hcall
    simp only at hcall
    have hb := (NewRewardToken_mints s.ethClient).1
    rcases hbe : s.ethClient.NewRewardToken with ⟨b, c1⟩
    rw [hbe] at hcall hb
    simp only at hb
    cases b with
    | true =>
        left
        rw [← hb]
        exact hcall
    | false =>
        simp only at hcall
        cases hamt : big.SetString reward.Amount with
        | none =>
            rw [hamt] at hcall
            left
            rw [← hb]
            exact hcall
        | some amount =>
            rw [hamt] at hcall
            simp only at hcall
            have hn := (PendingNonceAt_mints c1).1
            rcases hne : c1.PendingNonceAt with ⟨n, c2⟩
            rw [hne] at hcall hn
            simp only at hn
            cases n with
            | none =>
                left
                rw [← hb, ← hn]
                exact hcall
            | some nonce =>
                simp only at hcall
                have hm := Mint_mints c2
                  { token := s.token,
                    opts := { s.txOpts with Nonce := some (toInt64 nonce) },
                    receiver := common.HexToAddress reward.Receiver, amount := amount }
                rcases hme : c2.Mint
                  { token := s.token,
                    opts := { s.txOpts with Nonce := some (toInt64 nonce) },
                    receiver := common.HexToAddress reward.Receiver, amount := amount } with
                  ⟨h, c3⟩
                rw [hme] at hcall hm
                simp only at hm
                have hmem : call ∈ c3.mints := by
                  cases h <;> exact hcall
                rw [hm, hn, hb] at hmem
                rcases List.mem_append.mp hmem with h1 | h1
                · exact Or.inl h1
                · right
                  rw [List.mem_singleton.mp h1]
  · intro picks
    induction picks generalizing s with
    | nil => rfl
    | cons p picks ih =>
        cases p with
        | queue =>
            unfold processBlockchainTransactions
            have h := hsettle s
            rcases hs : settle s with ⟨out, s1⟩
            rw [hs] at h
            cases out with
            | returned u => simp only; rw [ih s1]; exact h
            | panicked p => exact h
            | blocked => exact h
        | sigint =>
            unfold processBlockchainTransactions
            split <;> rfl
        | ctx =>
            unfold processBlockchainTransactions
            split <;> rfl

end relayer

namespace mongodb

open entity

theorem find_updateOne (id : ObjectID) (set : Reward → Reward)
    (hset : ∀ d, (set d).Id = d.Id) (docs : List Reward) :
    (updateOne id set docs).1.find? (fun d => decide (d.Id = id))
      = (docs.find? (fun d => decide (d.Id = id))).map set := by
  induction docs with
  | nil => rfl
  | cons d ds ih =>
      unfold updateOne
      by_cases h : d.Id = id
      · rw [if_pos h]
        simp [List.find?, hset, h]
      · rw [if_neg h]
        simp [List.find?, h, ih]

theorem FindRewardById_some (s s' : MongoDBRepository) (id : ObjectID) (res : Reward)
    (err : Option Err) (h : FindRewardById s id = ((some res, err), s')) :
    s.docs.find? (fun d => decide (d.Id = id)) = some res ∧ s'.docs = s.docs := by
  have hd := (nextFault_docs s).1
  unfold FindRewardById at h
  split at h
  · cases h
  · rename_i s1 heq
    rw [heq] at hd
    simp only at hd
    split at h
    · cases h
    · rename_i reward hfind
      cases h
      rw [← hd]
      exact ⟨hfind, rfl⟩

/-- The record a successful `UpdateReward` returns is stored, under the id of
the record handed in, with the transaction reference handed in. -/
theorem UpdateReward_some (s s' : MongoDBRepository) (reward res : Reward)
    (err : Option Err) (h : UpdateReward s reward = ((some res, err), s')) :
    res ∈ s'.docs ∧ res.Id = reward.Id ∧ res.TxHash = reward.TxHash := by
  have hd := (nextFault_docs { s with calls := s.calls ++ [Call.UpdateReward reward] }).1
  unfold UpdateReward at h
  split at h
  · cases h
  · rename_i s1 heq
    split at h
    · cases h
    · obtain ⟨hfind, hdocs⟩ := FindRewardById_some _ _ _ _ _ h
      simp only at hfind hdocs
      rw [find_updateOne _ _ (setFields_Id reward)] at hfind
      have hmem : res ∈ s'.docs := by
        rw [hdocs]
        have := List.mem_of_find?_eq_some
          ((find_updateOne _ _ (setFields_Id reward) s1.docs).trans hfind)
        exact this
      cases hf : s1.docs.find? (fun d => decide (d.Id = reward.Id)) with
      | none =>
          rw [hf] at hfind
          cases hfind
      | some d =>
          rw [hf] at hfind
          simp only [Option.map_some', Option.some.injEq] at hfind
          have hid : d.Id = reward.Id := by
            have := List.find?_some hf
            simpa using this
          refine ⟨hmem, ?_, ?_⟩
          · rw [← hfind, setFields_Id, hid]
          · rw [← hfind]
            rfl

/-- The record a successful `CreateReward` of a record without id returns is
stored and is the record handed in under its generated id. -/
theorem CreateReward_some (s s' : MongoDBRepository) (input res : Reward)
    (err : Option Err) (hid : input.Id = 0)
    (h : CreateReward s input = ((some res, err), s')) :
    res ∈ s'.docs ∧ res = { input with Id := freshId s.docs } := by
  have hd := (nextFault_docs { s with calls := s.calls ++ [Call.CreateReward input] }).1
  unfold CreateReward at h
  split at h
  · cases h
  · rename_i s1 heq
    rw [heq] at hd
    simp only at hd
    rw [if_pos hid] at h
    obtain ⟨hfind, hdocs⟩ := FindRewardById_some _ _ _ _ _ h
    simp only at hfind hdocs
    have hmem : res ∈ s'.docs := by
      rw [hdocs]
      exact List.mem_of_find?_eq_some hfind
    refine ⟨hmem, ?_⟩
    rw [List.find?_append] at hfind
    have hnone : s1.docs.find? (fun d => decide (d.Id = freshId s1.docs)) = none := by
      rw [List.find?_eq_none]
      intro d hdm
      have hlt := lt_freshId s1.docs d hdm
      simp only [decide_eq_true_eq]
      intro heq
      rw [heq] at hlt
      exact lt_irrefl _ hlt
    rw [hnone] at hfind
    simp only [Option.none_or, List.find?_cons, decide_True, Option.some.injEq] at hfind
    rw [← hfind, hd]

end mongodb

namespace usecase

open entity mongodb

/-- The transaction reference of the output of a successful `Execute`: it is
the reference of a stored record with the output's id; it is the reference of
the record found at the coordinates if there was one, and it is empty if
there was none. -/
theorem Execute_TxHash (repo : MongoDBRepository) (input : CreateRewardInputDTO)
    (now1 now2 : Time) (out : CreateRewardOutputDTO)
    (h : (Execute repo input now1 now2).1 = Outcome.ok out) :
    (∃ d ∈ (Execute repo input now1 now2).2.docs, d.Id = out.Id ∧ d.TxHash = out.TxHash) ∧
    ((∃ existing,
        repo.docs.find? (atLocation input.Latitude input.Longitude) = some existing ∧
        out.TxHash = existing.TxHash) ∨
     (repo.docs.find? (atLocation input.Latitude input.Longitude) = none ∧
        out.TxHash = [])) := by
  unfold Execute at h ⊢
  cases hamt : big.SetString input.Amount with
  | none =>
      rw [hamt] at h
      cases h
  | some amount =>
      rw [hamt] at h
      simp only at h ⊢
      rcases hfind : FindRewardByLocation repo input.Latitude input.Longitude with
        ⟨⟨res, err⟩, repo1⟩
      rw [hfind] at h
      have hfind1 : (FindRewardByLocation repo input.Latitude input.Longitude).1
          = (res, err) := by rw [hfind]
      split at h
      · rename_i existing repo1' heq
        cases heq
        obtain ⟨_, hloc⟩ := FindRewardByLocation_some _ _ _ _ _ hfind1
        rcases hU : UpdateReward repo1 (overwrite existing input amount now1) with
          ⟨⟨r, er⟩, repo2⟩
        rw [hU] at h
        cases er with
        | some e => cases h
        | none =>
            simp only at h ⊢
            cases r with
            | none => cases h
            | some rec =>
                obtain ⟨hmem, hrid, hrtx⟩ := UpdateReward_some _ _ _ _ _ hU
                have hout : out.Id = rec.Id ∧ out.TxHash = rec.TxHash := by
                  unfold output at h
                  simp only [Outcome.ok.injEq] at h
                  rw [← h]
                  exact ⟨rfl, rfl⟩
                refine ⟨⟨rec, hmem, hout.1.symm, hout.2.symm⟩, Or.inl ⟨existing, hloc, ?_⟩⟩
                rw [hout.2, hrtx]
                rfl
      · rename_i res' repo1' heq
        cases heq
        obtain ⟨_, hloc⟩ := FindRewardByLocation_notFound _ _ _ _ hfind1
        cases hnew : NewReward input.Token amount (common.HexToAddress input.Receiver)
            input.Latitude input.Longitude input.Data now1 now2 with
        | error e =>
            rw [hnew] at h
            cases h
        | ok newReward =>
            rw [hnew] at h
            simp only at h ⊢
            obtain ⟨hshape, _⟩ := NewReward_ok _ _ _ _ _ _ _ _ _ hnew
            rcases hC : CreateReward repo1 newReward with ⟨⟨r, er⟩, repo2⟩
            rw [hC] at h
            cases er with
            | some e => cases h
            | none =>
                simp only at h ⊢
                cases r with
                | none => cases h
                | some rec =>
                    obtain ⟨hmem, hrec⟩ :=
                      CreateReward_some _ _ _ _ _ (by rw [hshape]) hC
                    have hout : out.Id = rec.Id ∧ out.TxHash = rec.TxHash := by
                      unfold output at h
                      simp only [Outcome.ok.injEq] at h
                      rw [← h]
                      exact ⟨rfl, rfl⟩
                    refine ⟨⟨rec, hmem, hout.1.symm, hout.2.symm⟩, Or.inr ⟨hloc, ?_⟩⟩
                    rw [hout.2, hrec, hshape]
      · cases h
      · cases h

end usecase

namespace relayer

open usecase mongodb entity

/-! ## Properties of the settlement stage -/

/-- `mintReward` changes nothing of the service but the chain client. -/
theorem mintReward_frame (s : Service) (reward : CreateRewardOutputDTO) :
    (mintReward s reward).2 = { s with ethClient := (mintReward s reward).2.ethClient } := by
  unfold mintReward
  simp only
  split
  · rfl
  · split
    · rfl
    · split
      · rfl
      · split <;> rfl

/-- C17, amended. When `mintReward` fails for the output at the head of
`txChan`, the turn of the settlement loop ends with the output taken off the
queue and not put back, the repository exactly as it was (no call of
`UpdateRewardTxHash`, every record with the transaction reference it had), and
the loop goes on with the rest of the queue. That reference is the one
`Execute` left: the output of a successful `Execute` carries the reference of
the stored record with its id, which is the reference of the record found at
the coordinates when there was one, and is empty when there was none. -/
theorem failed_mint_drops_the_item (s : Service) (reward : CreateRewardOutputDTO)
    (rest : List CreateRewardOutputDTO) (err : Error) (s1 : Service)
    (hq : s.txChan.buf = reward :: rest)
    (hm : mintReward { s with txChan := { s.txChan with buf := rest } } reward
        = (Except.error err, s1)) :
    settle s = (Returned.returned (), s1) ∧
    s1.repository = s.repository ∧
    s1.txChan = { s.txChan with buf := rest } ∧
    (∀ picks, processBlockchainTransactions (StageSelect.queue :: picks) s
        = processBlockchainTransactions picks s1) ∧
    (∀ (repo : MongoDBRepository) (input : CreateRewardInputDTO) (now1 now2 : Time)
        (out : CreateRewardOutputDTO),
      (Execute repo input now1 now2).1 = Outcome.ok out →
      (∃ d ∈ (Execute repo input now1 now2).2.docs, d.Id = out.Id ∧ d.TxHash = out.TxHash) ∧
      ((∃ existing,
          repo.docs.find? (atLocation input.Latitude input.Longitude) = some existing ∧
          out.TxHash = existing.TxHash) ∨
       (repo.docs.find? (atLocation input.Latitude input.Longitude) = none ∧
          out.TxHash = []))) := by
  have hsettle : settle s = (Returned.returned (), s1) := by
    unfold settle
    rw [hq]
    simp only [hm]
  have hframe := mintReward_frame { s with txChan := { s.txChan with buf := rest } } reward
  rw [hm] at hframe
  simp only at hframe
  refine ⟨hsettle, ?_, ?_, ?_, ?_⟩
  · rw [hframe]
  · rw [hframe]
  · intro picks
    show (match settle s with
      | (Returned.returned _, s1) => processBlockchainTransactions picks s1
      | (Returned.panicked p, s1) => (Returned.panicked p, s1)
      | (Returned.blocked, s1) => (Returned.blocked, s1)) = _
    rw [hsettle]
  · intro repo input now1 now2 out h
    exact Execute_TxHash repo input now1 now2 out h

theorem failed_mint_drops_the_item_witness :
    settle queuedService = (Returned.returned (), refusedOnceService) ∧
    refusedOnceService.repository = queuedService.repository ∧
    refusedOnceService.txChan.buf = [] :=
  (fun h => ⟨h.1, h.2.1, by decide⟩)
    (failed_mint_drops_the_item queuedService settledOutput []
      (Error.wrapped "failed to mint" Error.client) refusedOnceService
      (by decide!) rfl)

/-- C17, as stated, fails. `settledRecord` carries the transaction reference
of an earlier settlement; `sampleMessage` updates it, its output is queued,
and the chain client refuses the mint. The settlement turn returns, nothing
is left in the queue, no `UpdateRewardTxHash` was called, and the record the
event was persisted into has the earlier reference, not the empty one. -/
theorem failed_mint_leaves_earlier_reference :
    (processFunc sampleUnmarshal settledService (Job.message (some sampleMessage)) 7 8
        Select.send).1
      = Returned.returned
          { MessageId := sampleMessage.Key, Success := true, Error := none,
            Output := some { sampleOutput with TxHash := settledRecord.TxHash },
            KafkaMsg := some sampleMessage } ∧
    (settle (processFunc sampleUnmarshal settledService (Job.message (some sampleMessage))
        7 8 Select.send).2).1 = Returned.returned () ∧
    (settle (processFunc sampleUnmarshal settledService (Job.message (some sampleMessage))
        7 8 Select.send).2).2.txChan.buf = [] ∧
    (settle (processFunc sampleUnmarshal settledService (Job.message (some sampleMessage))
        7 8 Select.send).2).2.ethClient.mints.length = 1 ∧
    (settle (processFunc sampleUnmarshal settledService (Job.message (some sampleMessage))
        7 8 Select.send).2).2.repository.calls
      = [Call.FindRewardByLocation 1 2,
         Call.UpdateReward { settledRecord with UpdatedAt := 7 }] ∧
    (settle (processFunc sampleUnmarshal settledService (Job.message (some sampleMessage))
        7 8 Select.send).2).2.repository.docs.map (fun d => (d.Id, d.TxHash))
      = [(1, str "0x1111111111111111111111111111111111111111111111111111111111111111")] := by
  decide!

end relayer

namespace relayer

open usecase mongodb entity

theorem NewRewardToken_accepting (c : ethclient.Client) (h : c.Accepting) :
    ∃ c1, c.NewRewardToken = (false, c1) ∧ c1.Accepting ∧ c1.pending = c.pending ∧
      c1.mints = c.mints := by
  obtain ⟨h1, h2, h3⟩ := h
  unfold ethclient.Client.NewRewardToken
  cases hb : c.bindFaults with
  | nil => exact ⟨c, rfl, ⟨h1, h2, h3⟩, rfl, rfl⟩
  | cons b rest =>
      rw [hb] at h1
      have hbf : b = false := h1 b (List.mem_cons_self _ _)
      subst hbf
      exact ⟨_, rfl, ⟨fun x hx => h1 x (List.mem_cons_of_mem _ hx), h2, h3⟩, rfl, rfl⟩

theorem PendingNonceAt_accepting (c : ethclient.Client) (h : c.Accepting) :
    ∃ c1, c.PendingNonceAt = (some (c.pending % 2 ^ 64), c1) ∧ c1.Accepting ∧
      c1.pending = c.pending ∧ c1.mints = c.mints := by
  obtain ⟨h1, h2, h3⟩ := h
  unfold ethclient.Client.PendingNonceAt
  cases hb : c.nonceFaults with
  | nil => exact ⟨c, rfl, ⟨h1, h2, h3⟩, rfl, rfl⟩
  | cons b rest =>
      rw [hb] at h2
      have hbf : b = false := h2 b (List.mem_cons_self _ _)
      subst hbf
      exact ⟨_, rfl, ⟨h1, fun x hx => h2 x (List.mem_cons_of_mem _ hx), h3⟩, rfl, rfl⟩

theorem Mint_accepting (c : ethclient.Client) (call : ethclient.MintCall) (h : c.Accepting) :
    ∃ txHash c1, c.Mint call = (some txHash, c1) ∧ c1.Accepting ∧
      c1.pending = c.pending + 1 ∧ c1.mints = c.mints ++ [call] := by
  obtain ⟨h1, h2, h3⟩ := h
  unfold ethclient.Client.Mint
  simp only
  cases hb : c.mintFates with
  | nil =>
      refine ⟨_, _, rfl, ⟨h1, h2, ?_⟩, rfl, rfl⟩
      intro f hf
      cases hf
  | cons f rest =>
      rw [hb] at h3
      cases f with
      | none => exact absurd rfl (h3 none (List.mem_cons_self _ _))
      | some txHash =>
          exact ⟨txHash, _, rfl, ⟨h1, h2, fun x hx => h3 x (List.mem_cons_of_mem _ hx)⟩,
            rfl, rfl⟩

theorem toInt64_small (n : Nat) (h : n < 2 ^ 63) : toInt64 (n % 2 ^ 64) = (n : Int) := by
  have h1 : n % 2 ^ 64 = n := Nat.mod_eq_of_lt (by omega)
  unfold toInt64
  rw [h1, h1, if_pos h]

/-- One turn of the settlement loop against an accepting client. -/
theorem settle_accepting (s : Service) (reward : CreateRewardOutputDTO)
    (rest : List CreateRewardOutputDTO) (amount : Int)
    (hq : s.txChan.buf = reward :: rest) (haccept : s.ethClient.Accepting)
    (hamt : big.SetString reward.Amount = some amount)
    (hlt : s.ethClient.pending < 2 ^ 63) :
    ∃ s1, settle s = (Returned.returned (), s1) ∧ s1.txChan.buf = rest ∧
      s1.token = s.token ∧ s1.txOpts = s.txOpts ∧ s1.ethClient.Accepting ∧
      s1.ethClient.pending = s.ethClient.pending + 1 ∧
      s1.ethClient.mints = s.ethClient.mints ++
        [{ token := s.token
           opts := { s.txOpts with Nonce := some (s.ethClient.pending : Int) }
           receiver := common.HexToAddress reward.Receiver
           amount := amount }] := by
  obtain ⟨c1, hb, ha1, hp1, hm1⟩ := NewRewardToken_accepting s.ethClient haccept
  obtain ⟨c2, hn, ha2, hp2, hm2⟩ := PendingNonceAt_accepting c1 ha1
  obtain ⟨txHash, c3, hm, ha3, hp3, hm3⟩ := Mint_accepting c2
    { token := s.token
      opts := { s.txOpts with Nonce := some (s.ethClient.pending : Int) }
      receiver := common.HexToAddress reward.Receiver
      amount := amount } ha2
  have hnonce : toInt64 (c1.pending % 2 ^ 64) = (s.ethClient.pending : Int) := by
    rw [hp1]
    exact toInt64_small _ hlt
  refine ⟨{ s with
              txChan := { s.txChan with buf := rest }
              ethClient := c3
              repository :=
                (UpdateRewardTxHashUseCase.Execute s.repository reward.Id txHash.Hex).2 },
    ?_, rfl, rfl, rfl, ha3, ?_, ?_⟩
  · unfold settle
    rw [hq]
    simp only
    unfold mintReward
    simp only [hb, hamt, hn, hnonce, hm]
  · rw [hp3, hp2, hp1]
  · rw [hm3, hm2, hm1]

/-- C18, amended. Against a chain client none of whose coming calls fails and
whose pending nonce `n` leaves room below `2^63` for the outputs waiting in
`txChan` (amounts that parse, as `Execute` writes them), the settlement loop
takes the outputs one per turn in queue order; after as many turns as there
were outputs the queue is empty and the client has seen, after the calls it
had seen before, one `Mint` call per output in queue order, the k-th with the
stored options and nonce `n + k`, the receiver and the amount of the k-th
output; the pending nonce has grown by the number of outputs. -/
theorem settlement_nonces_are_consecutive (s : Service)
    (haccept : s.ethClient.Accepting)
    (hamt : ∀ r ∈ s.txChan.buf, big.SetString r.Amount ≠ none)
    (hrange : s.ethClient.pending + s.txChan.buf.length ≤ 2 ^ 63) :
    (processBlockchainTransactions
        (List.replicate s.txChan.buf.length StageSelect.queue) s).1 = Returned.blocked ∧
    (processBlockchainTransactions
        (List.replicate s.txChan.buf.length StageSelect.queue) s).2.txChan.buf = [] ∧
    (processBlockchainTransactions
        (List.replicate s.txChan.buf.length StageSelect.queue) s).2.ethClient.mints
      = s.ethClient.mints ++
        List.zipWith
          (fun reward nonce =>
            { token := s.token
              opts := { s.txOpts with Nonce := some ((nonce : Nat) : Int) }
              receiver := common.HexToAddress reward.Receiver
              amount := (big.SetString reward.Amount).getD 0 })
          s.txChan.buf (List.range' s.ethClient.pending s.txChan.buf.length) ∧
    (processBlockchainTransactions
        (List.replicate s.txChan.buf.length StageSelect.queue) s).2.ethClient.pending
      = s.ethClient.pending + s.txChan.buf.length := by
  generalize hbuf : s.txChan.buf = buf
  rw [hbuf] at hamt hrange
  induction buf generalizing s with
  | nil =>
      simp [processBlockchainTransactions, hbuf]
  | cons reward rest ih =>
      cases hparse : big.SetString reward.Amount with
      | none => exact absurd hparse (hamt reward (List.mem_cons_self _ _))
      | some amount =>
          have hlt : s.ethClient.pending < 2 ^ 63 := by
            simp only [List.length_cons] at hrange
            omega
          obtain ⟨s1, hs, hq1, ht1, ho1, ha1, hp1, hm1⟩ :=
            settle_accepting s reward rest amount hbuf haccept hparse hlt
          have hrange1 : s1.ethClient.pending + rest.length ≤ 2 ^ 63 := by
            simp only [List.length_cons] at hrange
            omega
          have hamt1 : ∀ r ∈ rest, big.SetString r.Amount ≠ none :=
            fun r hr => hamt r (List.mem_cons_of_mem _ hr)
          have := ih s1 ha1 hrange1 hamt1 hq1
          obtain ⟨i1, i2, i3, i4⟩ := this
          have hunfold : processBlockchainTransactions
              (List.replicate (reward :: rest).length StageSelect.queue) s
              = processBlockchainTransactions (List.replicate rest.length StageSelect.queue)
                  s1 := by
            simp only [List.length_cons, List.replicate_succ, processBlockchainTransactions, hs]
          rw [hunfold]
          refine ⟨i1, i2, ?_, ?_⟩
          · rw [i3, hm1, ht1, ho1, hp1]
            simp only [List.length_cons, List.range'_succ, List.zipWith_cons_cons, hparse,
              Option.getD_some, List.append_assoc, List.singleton_append]
          · rw [i4, hp1]
            simp only [List.length_cons]
            omega

theorem settlement_nonces_are_consecutive_witness :
    (processBlockchainTransactions [StageSelect.queue, StageSelect.queue]
        { wrappingService with
            ethClient := { wrappingService.ethClient with pending := 7 } }).2.ethClient.mints.map
      (fun call => call.opts.Nonce) = [some 7, some 8] :=
  (congrArg (fun mints => mints.map (fun call => call.opts.Nonce))
    (settlement_nonces_are_consecutive
      { wrappingService with ethClient := { wrappingService.ethClient with pending := 7 } }
      (by decide) (by decide) (by decide)).2.2.1).trans (by decide)

/-- C18, as stated, fails in two ways. With pending nonce `2^63 - 1` and a
client that accepts both mints, the two queued outputs are minted with the
nonces `2^63 - 1` and `-2^63`: the conversion `int64(nonce)` wraps, and the
second is not above the first. And when the client refuses the first mint, the
pending nonce does not grow, so both outputs are submitted with nonce 0. -/
theorem settlement_nonces_counterexample :
    wrappingService.ethClient.Accepting ∧
    (processBlockchainTransactions [StageSelect.queue, StageSelect.queue]
        wrappingService).2.ethClient.mints.map (fun call => call.opts.Nonce)
      = [some (2 ^ 63 - 1), some (-2 ^ 63)] ∧
    (processBlockchainTransactions [StageSelect.queue, StageSelect.queue]
        wrappingService).2.ethClient.pending = 2 ^ 63 + 1 ∧
    (processBlockchainTransactions [StageSelect.queue, StageSelect.queue]
        refusedService).2.ethClient.mints.map (fun call => call.opts.Nonce)
      = [some 0, some 0] := by
  decide!

end relayer

namespace relayer

open usecase mongodb entity

/-! ## Properties of `Stop` -/

/-- The sample pipelines are states the service reaches. -/
theorem samples_reachable :
    run sampleUnmarshal (created sampleService) (Action.serve :: stopActions ++ [Action.stop])
      = some stoppedPipeline ∧
    run sampleUnmarshal (created sampleService) [Action.serve, Action.fatal, Action.stop]
      = some fatalPipeline ∧
    run sampleUnmarshal (created sampleService)
        [Action.serve, Action.ingest sampleMessage Select.send, Action.work 0 5 6,
         Action.stop, Action.stopStep 0, Action.stopStep 0]
      = some inflightPipeline := by
  decide!

/-- C19 at its failing input. A call of `Stop` that finds the stop signal
already closed, by an earlier call of `Stop` or by the ingestion stage after a
fatal error of the source, panics at line 375 with a close of a closed
channel. -/
theorem Stop_panics_on_closed_stop_signal
    (unmarshal : GoString → Option CreateRewardInputDTO) (p : Pipeline) (k : Nat)
    (errs : List Error) (hpanic : p.panic = none)
    (hcall : p.stops[k]? = some { pc := StopPC.line374, errs := errs })
    (hclosed : p.svc.sigintChan = true) :
    step unmarshal p (Action.stopStep k)
      = some { p with panic := some Panic.closeOfClosedChannel } := by
  unfold step
  simp only [hpanic, hcall, ne_eq, not_true_eq_false, if_false]
  unfold stopStep
  simp only [hclosed, if_true]

theorem Stop_panics_on_closed_stop_signal_witness :
    run sampleUnmarshal (created sampleService) (Action.serve :: stopActions ++ [Action.stop])
      = some stoppedPipeline ∧
    step sampleUnmarshal stoppedPipeline (Action.stopStep 1)
      = some { stoppedPipeline with panic := some Panic.closeOfClosedChannel } ∧
    step sampleUnmarshal fatalPipeline (Action.stopStep 0)
      = some { fatalPipeline with panic := some Panic.closeOfClosedChannel } :=
  ⟨by decide!,
   Stop_panics_on_closed_stop_signal sampleUnmarshal stoppedPipeline 1 [] (by decide!)
     (by decide!) (by decide!),
   Stop_panics_on_closed_stop_signal sampleUnmarshal fatalPipeline 0 [] (by decide!)
     (by decide!) (by decide!)⟩

/-- C20 at its failing input. A call of `Stop` stands before line 383 while
worker `i` has persisted its record and stands at the `select` of lines
146-151. The call closes `txChan` at once, without waiting for the worker,
and has `workerPool.Stop()` of line 386 still before it: the pool is in the
state it was in and the worker is where it was. The worker's send then panics
with a send on a closed channel (the send case is the only ready case while
the context is live). -/
theorem settlement_queue_closed_before_pool_stops
    (unmarshal : GoString → Option CreateRewardInputDTO) (p : Pipeline) (k i : Nat)
    (errs : List Error) (result : RewardResult) (output : CreateRewardOutputDTO)
    (pick : Select) (hpanic : p.panic = none)
    (hcall : p.stops[k]? = some { pc := StopPC.line382, errs := errs })
    (hopen : p.svc.txChan.closed = false)
    (hworker : p.workers[i]? = some (WorkerPC.atSelect result output))
    (hpick : p.svc.ctxDone = false ∨ pick = Select.send) :
    ∃ q, step unmarshal p (Action.stopStep k) = some q ∧
      q.svc.txChan.closed = true ∧
      q.stops[k]? = some { pc := StopPC.line386, errs := errs } ∧
      q.poolState = p.poolState ∧ q.workers = p.workers ∧
      step unmarshal q (Action.handOff i pick)
        = some { q with panic := some Panic.sendOnClosedChannel } := by
  have hk : k < p.stops.length := (List.getElem?_eq_some.mp hcall).1
  refine ⟨{ p with
              svc := { p.svc with txChan := { p.svc.txChan with closed := true } }
              stops := p.stops.set k { pc := StopPC.line386, errs := errs } },
    ?_, rfl, ?_, rfl, rfl, ?_⟩
  · unfold step
    simp only [hpanic, hcall, ne_eq, not_true_eq_false, if_false]
    unfold stopStep Chan.close
    simp only [hopen, Bool.false_eq_true, if_false]
    rw [hpanic]
  · simp only [List.getElem?_set_self hk]
  · unfold step
    simp only [hpanic, hworker, ne_eq, not_true_eq_false, if_false]
    unfold handOff Chan.sendReady
    simp only [Bool.true_or, true_and]
    rw [if_pos hpick]
    simp only [if_true]

theorem settlement_queue_closed_before_pool_stops_witness :
    run sampleUnmarshal (created sampleService)
        [Action.serve, Action.ingest sampleMessage Select.send, Action.work 0 5 6,
         Action.stop, Action.stopStep 0, Action.stopStep 0]
      = some inflightPipeline ∧
    ∃ q, run sampleUnmarshal inflightPipeline [Action.stopStep 0] = some q ∧
      q.poolState = workerpool.State.StateRunning ∧
      run sampleUnmarshal q [Action.handOff 0 Select.send]
        = some { q with panic := some Panic.sendOnClosedChannel } :=
  ⟨by decide!,
   (fun h => h.elim (fun q hq => ⟨q, by rw [run, hq.1]; rfl, hq.2.2.2.1,
       by rw [run, hq.2.2.2.2.2]; rfl⟩))
    (settlement_queue_closed_before_pool_stops sampleUnmarshal inflightPipeline 0 0 []
      { MessageId := sampleMessage.Key, Success := false, Error := none, Output := none,
        KafkaMsg := some sampleMessage } sampleOutput Select.send
      (by decide!) (by decide!) (by decide!) (by decide!) (Or.inl (by decide!)))⟩

end relayer


namespace big

/-- The number a run of digits denotes after the digits of `acc`. -/
theorem scanDigits_digits (cs : GoString) (acc : Nat)
    (h : ∀ c ∈ cs, 48 ≤ c ∧ c ≤ 57) :
    scanDigits acc cs = some (cs.foldl (fun a c => 10 * a + (c - 48)) acc) := by
  induction cs generalizing acc with
  | nil => rfl
  | cons c cs ih =>
      unfold scanDigits
      rw [if_pos (h c (List.mem_cons_self _ _))]
      exact ih _ (fun d hd => h d (List.mem_cons_of_mem _ hd))

theorem foldl_digits_ge (cs : GoString) (acc : Nat) (hacc : 1 ≤ acc) :
    acc + cs.length ≤ cs.foldl (fun a c => 10 * a + (c - 48)) acc := by
  induction cs generalizing acc with
  | nil => simp
  | cons c cs ih =>
      have := ih (10 * acc + (c - 48)) (by omega)
      simp only [List.foldl_cons, List.length_cons]
      omega

theorem natDigits_step (fuel a d : Nat) (rest : GoString) (ha : 1 ≤ a) (hd : d < 10) :
    natDigits (fuel + 1) (10 * a + d) rest = natDigits fuel a ((48 + d) :: rest) := by
  have h1 : (10 * a + d) / 10 = a := by omega
  have h2 : (10 * a + d) % 10 = d := by omega
  conv_lhs => rw [natDigits]
  rw [h1, h2, if_neg (by omega)]

theorem natDigits_foldl (cs : GoString) (a fuel : Nat) (rest : GoString)
    (h : ∀ c ∈ cs, 48 ≤ c ∧ c ≤ 57) (ha : 1 ≤ a) :
    natDigits (fuel + cs.length) (cs.foldl (fun a c => 10 * a + (c - 48)) a) rest
      = natDigits fuel a (cs ++ rest) := by
  induction cs generalizing a fuel with
  | nil => rfl
  | cons c cs ih =>
      have hc := h c (List.mem_cons_self _ _)
      have hrest : ∀ d ∈ cs, 48 ≤ d ∧ d ≤ 57 := fun d hd => h d (List.mem_cons_of_mem _ hd)
      have := ih (10 * a + (c - 48)) (fuel + 1) hrest (by omega)
      simp only [List.foldl_cons, List.length_cons]
      have hf : fuel + (cs.length + 1) = fuel + 1 + cs.length := by omega
      rw [hf, this, natDigits_step fuel a (c - 48) _ ha (by omega)]
      have hcc : 48 + (c - 48) = c := by omega
      rw [hcc]
      rfl

/-- A canonical positive decimal string parses to a positive number whose
canonical form is the string itself. -/
theorem String_SetString_canonical (s : GoString) (h : canonicalPositive s = true) :
    ∃ n : Nat, 0 < n ∧ SetString s = some (n : Int) ∧ String (n : Int) = s := by
  cases s with
  | nil => simp [canonicalPositive] at h
  | cons c cs =>
      simp only [canonicalPositive, Bool.and_eq_true, decide_eq_true_eq, List.all_eq_true] at h
      obtain ⟨hc, hcs⟩ := h
      have hds : ∀ d ∈ c :: cs, 48 ≤ d ∧ d ≤ 57 := by
        intro d hd
        rcases List.mem_cons.mp hd with hd | hd
        · subst hd; omega
        · exact hcs d hd
      have hge := foldl_digits_ge cs (c - 48) (by omega)
      refine ⟨cs.foldl (fun a c => 10 * a + (c - 48)) (c - 48), by omega, ?_, ?_⟩
      · have hscan := scanDigits_digits (c :: cs) 0 hds
        simp only [List.foldl_cons, Nat.mul_zero, Nat.zero_add] at hscan
        unfold SetString
        split
        · rename_i heq
          simp only [List.cons.injEq] at heq
          omega
        · rename_i heq
          simp only [List.cons.injEq] at heq
          omega
        · unfold scanNat
          rw [if_neg (by simp), hscan]
          rfl
      · unfold String
        rw [if_neg (by omega)]
        simp only [Int.toNat_ofNat]
        have hfuel : cs.foldl (fun a c => 10 * a + (c - 48)) (c - 48) + 1
            = (cs.foldl (fun a c => 10 * a + (c - 48)) (c - 48) - cs.length) + 1
              + cs.length := by omega
        rw [hfuel, natDigits_foldl cs (c - 48) _ [] hcs (by omega)]
        unfold natDigits
        have h1 : (c - 48) / 10 = 0 := by omega
        have h2 : 48 + (c - 48) % 10 = c := by omega
        rw [if_pos h1, h2, List.append_nil]

end big

namespace mongodb

open entity

/-- The record a successful `UpdateReward` returns is a stored record with the
`$set` fields of the record handed in. -/
theorem UpdateReward_some_fields (s s' : MongoDBRepository) (reward res : Reward)
    (err : Option Err) (h : UpdateReward s reward = ((some res, err), s')) :
    ∃ d, res = setFields reward d := by
  unfold UpdateReward at h
  split at h
  · cases h
  · rename_i s1 heq
    split at h
    · cases h
    · obtain ⟨hfind, _⟩ := FindRewardById_some _ _ _ _ _ h
      simp only at hfind
      rw [find_updateOne _ _ (setFields_Id reward)] at hfind
      cases hf : s1.docs.find? (fun d => decide (d.Id = reward.Id)) with
      | none =>
          rw [hf] at hfind
          cases hfind
      | some d =>
          rw [hf] at hfind
          simp only [Option.map_some', Option.some.injEq] at hfind
          exact ⟨d, hfind.symm⟩

end mongodb

namespace usecase

open entity mongodb

/-- The record behind the output of a successful `Execute`: the amount parsed,
and the output is the projection of a stored record, which is the record
found at the coordinates with the `$set` fields of its overwritten copy, or,
when none was found, the record `NewReward` built under a generated id. -/
theorem Execute_record (repo : MongoDBRepository) (input : CreateRewardInputDTO)
    (now1 now2 : Time) (out : CreateRewardOutputDTO)
    (h : (Execute repo input now1 now2).1 = Outcome.ok out) :
    ∃ amount record,
      big.SetString input.Amount = some amount ∧
      record ∈ (Execute repo input now1 now2).2.docs ∧
      output (some record) = Outcome.ok out ∧
      ((∃ existing d,
          repo.docs.find? (atLocation input.Latitude input.Longitude) = some existing ∧
          record = setFields (overwrite existing input amount now1) d) ∨
       (repo.docs.find? (atLocation input.Latitude input.Longitude) = none ∧
          record = { Id := freshId repo.docs, Token := input.Token.Hex,
                     Amount := big.String amount,
                     Receiver := (common.HexToAddress input.Receiver).Hex,
                     Latitude := input.Latitude, Longitude := input.Longitude,
                     TxHash := [], Data := input.Data, CreatedAt := now1,
                     UpdatedAt := now2 })) := by
  unfold Execute at h ⊢
  cases hamt : big.SetString input.Amount with
  | none =>
      rw [hamt] at h
      cases h
  | some amount =>
      rw [hamt] at h
      simp only at h ⊢
      have hF := (FindRewardByLocation_frame repo input.Latitude input.Longitude).1
      rcases hfind : FindRewardByLocation repo input.Latitude input.Longitude with
        ⟨⟨res, err⟩, repo1⟩
      rw [hfind] at h hF
      simp only at hF
      have hfind1 : (FindRewardByLocation repo input.Latitude input.Longitude).1
          = (res, err) := by rw [hfind]
      split at h
      · rename_i existing repo1' heq
        cases heq
        obtain ⟨_, hloc⟩ := FindRewardByLocation_some _ _ _ _ _ hfind1
        rcases hU : UpdateReward repo1 (overwrite existing input amount now1) with
          ⟨⟨r, er⟩, repo2⟩
        rw [hU] at h
        cases er with
        | some e => cases h
        | none =>
            simp only at h ⊢
            cases r with
            | none => cases h
            | some rec =>
                obtain ⟨hmem, _, _⟩ := UpdateReward_some _ _ _ _ _ hU
                obtain ⟨d, hd⟩ := UpdateReward_some_fields _ _ _ _ _ hU
                exact ⟨amount, rec, rfl, hmem, h, Or.inl ⟨existing, d, hloc, hd⟩⟩
      · rename_i res' repo1' heq
        cases heq
        obtain ⟨_, hloc⟩ := FindRewardByLocation_notFound _ _ _ _ hfind1
        cases hnew : NewReward input.Token amount (common.HexToAddress input.Receiver)
            input.Latitude input.Longitude input.Data now1 now2 with
        | error e =>
            rw [hnew] at h
            cases h
        | ok newReward =>
            rw [hnew] at h
            simp only at h ⊢
            obtain ⟨hshape, _⟩ := NewReward_ok _ _ _ _ _ _ _ _ _ hnew
            rcases hC : CreateReward repo1 newReward with ⟨⟨r, er⟩, repo2⟩
            rw [hC] at h
            cases er with
            | some e => cases h
            | none =>
                simp only at h ⊢
                cases r with
                | none => cases h
                | some rec =>
                    obtain ⟨hmem, hrec⟩ :=
                      CreateReward_some _ _ _ _ _ (by rw [hshape]) hC
                    refine ⟨amount, rec, rfl, hmem, h, Or.inr ⟨hloc, ?_⟩⟩
                    rw [hrec, hshape, hF]
      · cases h
      · cases h

/-- C21. When `Execute` succeeds, the amount of its output, which is what the
processing function hands to settlement, and the amount of the stored record
with the output's id are the canonical base-10 form of the integer parsed from
the event's amount, whether the record was created or updated; so when the
event's amount is a canonical positive decimal string, both equal it. -/
theorem persisted_amount_is_canonical (repo : MongoDBRepository)
    (input : CreateRewardInputDTO) (now1 now2 : Time) (out : CreateRewardOutputDTO)
    (h : (Execute repo input now1 now2).1 = Outcome.ok out) :
    ∃ amount record,
      big.SetString input.Amount = some amount ∧
      record ∈ (Execute repo input now1 now2).2.docs ∧ record.Id = out.Id ∧
      record.Amount = big.String amount ∧ out.Amount = big.String amount ∧
      (big.canonicalPositive input.Amount = true →
        record.Amount = input.Amount ∧ out.Amount = input.Amount) := by
  obtain ⟨amount, record, hamt, hmem, hout, hcase⟩ := Execute_record repo input now1 now2 out h
  have hproj : out.Id = record.Id ∧ out.Amount = record.Amount := by
    unfold output at hout
    simp only [Outcome.ok.injEq] at hout
    rw [← hout]
    exact ⟨rfl, rfl⟩
  have hrec : record.Amount = big.String amount := by
    rcases hcase with ⟨existing, d, _, hd⟩ | ⟨_, hd⟩
    · rw [hd]
      rfl
    · rw [hd]
  refine ⟨amount, record, hamt, hmem, hproj.1.symm, hrec, hproj.2.trans hrec, ?_⟩
  intro hcanon
  obtain ⟨n, _, hparse, hstr⟩ := big.String_SetString_canonical input.Amount hcanon
  rw [hamt] at hparse
  cases hparse
  rw [hproj.2, hrec, hstr]
  exact ⟨rfl, rfl⟩

theorem persisted_amount_is_canonical_witness :
    ∃ amount record,
      big.SetString sampleEvent.Amount = some amount ∧
      record ∈ (Execute emptyRepository sampleEvent 5 6).2.docs ∧ record.Id = 1 ∧
      record.Amount = big.String amount ∧ str "100" = big.String amount ∧
      (big.canonicalPositive sampleEvent.Amount = true →
        record.Amount = sampleEvent.Amount ∧ str "100" = sampleEvent.Amount) :=
  persisted_amount_is_canonical emptyRepository sampleEvent 5 6
    { Id := 1
      Token := str "0x0000000000000000000000000000000000000001"
      Amount := str "100"
      Receiver := str "0x0000000000000000000000000000000000000022"
      Latitude := 1
      Longitude := 2
      TxHash := []
      Data := str "x" }
    (by decide!)

end usecase

namespace relayer

open usecase mongodb entity

/-- When `processFunc` reaches the `select`, the job was a message whose
payload deserialised and `Execute` returned the output it holds. -/
theorem persist_handOff (unmarshal : GoString → Option CreateRewardInputDTO) (s : Service)
    (job : Job) (now1 now2 : Time) (result : RewardResult) (output : CreateRewardOutputDTO)
    (s1 : Service)
    (h : persist unmarshal s job now1 now2 = (Persisted.handOff result output, s1)) :
    ∃ msg input,
      job = Job.message (some msg) ∧ unmarshal msg.Value = some input ∧
      Execute s.repository { input with Token := s.token } now1 now2
        = (Outcome.ok output, s1.repository) := by
  unfold persist at h
  cases job with
  | other => simp at h
  | message m =>
      cases m with
      | none => simp at h
      | some msg =>
          simp only at h
          cases hin : unmarshal msg.Value with
          | none =>
              rw [hin] at h
              simp at h
          | some input =>
              rw [hin] at h
              simp only at h
              rcases hex : Execute s.repository { input with Token := s.token } now1 now2 with
                ⟨out, repo⟩
              rw [hex] at h
              cases out with
              | error err => simp at h
              | nilDereference => simp at h
              | ok out' =>
                  simp only [Prod.mk.injEq, Persisted.handOff.injEq] at h
                  obtain ⟨⟨_, hout⟩, hs⟩ := h
                  subst hout
                  subst hs
                  exact ⟨msg, input, rfl, hin, hex⟩

/-- C26. Two messages whose payloads deserialise to events that differ at
most in their token, processed from the same service state: `processFunc`
reaches the `select` for both or for neither, with the same output and the
same repository, so the payload's token has no effect. When a record is
created its token, and the token of the output, is the hex form of the
configured token; when the record at the coordinates is updated, its token
and the token of the output are the token that record had. -/
theorem token_is_the_configured_one (unmarshal : GoString → Option CreateRewardInputDTO)
    (s : Service) (msgA msgB : kafka.Message) (inputA inputB : CreateRewardInputDTO)
    (now1 now2 : Time)
    (hA : unmarshal msgA.Value = some inputA) (hB : unmarshal msgB.Value = some inputB)
    (hsame : { inputA with Token := inputB.Token } = inputB) :
    (persist unmarshal s (Job.message (some msgA)) now1 now2).2
      = (persist unmarshal s (Job.message (some msgB)) now1 now2).2 ∧
    (∀ resultA output sA,
      persist unmarshal s (Job.message (some msgA)) now1 now2
        = (Persisted.handOff resultA output, sA) →
      (∃ resultB, persist unmarshal s (Job.message (some msgB)) now1 now2
        = (Persisted.handOff resultB output, sA)) ∧
      ∃ record ∈ sA.repository.docs, record.Id = output.Id ∧
        record.Token = output.Token ∧
        ((s.repository.docs.find? (atLocation inputA.Latitude inputA.Longitude) = none ∧
            output.Token = s.token.Hex) ∨
         (∃ existing,
            s.repository.docs.find? (atLocation inputA.Latitude inputA.Longitude)
              = some existing ∧
            output.Token = existing.Token))) := by
  have hevent : ({ inputA with Token := s.token } : CreateRewardInputDTO)
      = { inputB with Token := s.token } := by
    rw [← hsame]
  have hstate : ∀ (msg : kafka.Message) (input : CreateRewardInputDTO),
      unmarshal msg.Value = some input →
      (persist unmarshal s (Job.message (some msg)) now1 now2).2
        = { s with repository :=
              (Execute s.repository { input with Token := s.token } now1 now2).2 } := by
    intro msg input hin
    unfold persist
    simp only [hin]
    rcases hex : Execute s.repository { input with Token := s.token } now1 now2 with
      ⟨out, repo⟩
    cases out <;> rfl
  refine ⟨?_, ?_⟩
  · rw [hstate msgA inputA hA, hstate msgB inputB hB, hevent]
  · intro resultA output sA hp
    obtain ⟨msg, input, hjob, hin, hex⟩ := persist_handOff unmarshal s _ now1 now2 _ _ _ hp
    cases hjob
    rw [hA] at hin
    cases hin
    have hsA : sA = { s with repository := sA.repository } := by
      have := hstate msgA inputA hA
      rw [hp, hex] at this
      exact this
    constructor
    · refine ⟨{ MessageId := msgB.Key, Success := false, Error := none, Output := none,
                KafkaMsg := some msgB }, ?_⟩
      rw [hevent] at hex
      unfold persist
      simp only [hB, hex]
      rw [← hsA]
    · have hok : (Execute s.repository { inputA with Token := s.token } now1 now2).1
          = Outcome.ok output := by rw [hex]
      obtain ⟨amount, record, _, hmem, hout, hcase⟩ :=
        Execute_record s.repository { inputA with Token := s.token } now1 now2 output hok
      rw [hex] at hmem
      have hproj : output.Id = record.Id ∧ output.Token = record.Token := by
        unfold usecase.output at hout
        simp only [Outcome.ok.injEq] at hout
        rw [← hout]
        exact ⟨rfl, rfl⟩
      refine ⟨record, hmem, hproj.1.symm, hproj.2.symm, ?_⟩
      rcases hcase with ⟨existing, d, hloc, hd⟩ | ⟨hloc, hd⟩
      · right
        refine ⟨existing, hloc, ?_⟩
        rw [hproj.2, hd]
        rfl
      · left
        refine ⟨hloc, ?_⟩
        rw [hproj.2, hd]

theorem token_is_the_configured_one_witness :
    (persist tokenUnmarshal sampleService (Job.message (some sampleMessage)) 5 6).2
      = (persist tokenUnmarshal sampleService (Job.message (some otherTokenMessage)) 5 6).2 ∧
    (persist tokenUnmarshal sampleService (Job.message (some otherTokenMessage))
        5 6).2.repository.docs.map (fun d => d.Token)
      = [str "0x0000000000000000000000000000000000000001"] :=
  ⟨(token_is_the_configured_one tokenUnmarshal sampleService sampleMessage otherTokenMessage
      sampleDecoded
      { sampleEvent with
          Token := common.HexToAddress (str "0x0000000000000000000000000000000000000007") }
      5 6 (by decide!) (by decide!) (by decide!)).1,
   by decide!⟩

end relayer

namespace simulator

open entity

/-! ## Properties of the simulator -/

/-- C22, amended. `Validate` rejects every sensor whose amount is empty: with
the error `amount is required and must be positive` when name, latitude,
longitude and receiver pass their checks, and with the error of the first of
those checks that fails otherwise. `NewSensor` returns nil for every such
sensor. -/
theorem empty_amount_is_rejected (s : Sensor) (h : s.Amount = []) :
    s.Validate ≠ none ∧
    (s.Name ≠ [] → s.Latitude ≠ 0 → s.Longitude ≠ 0 → s.Receiver ≠ [] →
      s.Validate = some "amount is required and must be positive") ∧
    (s.Validate ≠ some "amount is required and must be positive" →
      s.Validate = some "name is required" ∨ s.Validate = some "latitude is required" ∨
      s.Validate = some "longitude is required" ∨
      s.Validate = some "receiver is required") ∧
    NewSensor s.Name s.Latitude s.Longitude s.Receiver s.Amount s.Params = none := by
  have hv : s.Validate ≠ none ∧
      (s.Name ≠ [] → s.Latitude ≠ 0 → s.Longitude ≠ 0 → s.Receiver ≠ [] →
        s.Validate = some "amount is required and must be positive") ∧
      (s.Validate ≠ some "amount is required and must be positive" →
        s.Validate = some "name is required" ∨ s.Validate = some "latitude is required" ∨
        s.Validate = some "longitude is required" ∨
        s.Validate = some "receiver is required") := by
    unfold Sensor.Validate
    by_cases h1 : s.Name = []
    · rw [if_pos h1]
      exact ⟨by simp, fun hn => absurd h1 hn, fun _ => Or.inl rfl⟩
    · rw [if_neg h1]
      by_cases h2 : s.Latitude = 0
      · rw [if_pos h2]
        exact ⟨by simp, fun _ hn => absurd h2 hn, fun _ => Or.inr (Or.inl rfl)⟩
      · rw [if_neg h2]
        by_cases h3 : s.Longitude = 0
        · rw [if_pos h3]
          exact ⟨by simp, fun _ _ hn => absurd h3 hn, fun _ => Or.inr (Or.inr (Or.inl rfl))⟩
        · rw [if_neg h3]
          by_cases h4 : s.Receiver = []
          · rw [if_pos h4]
            exact ⟨by simp, fun _ _ _ hn => absurd h4 hn,
              fun _ => Or.inr (Or.inr (Or.inr rfl))⟩
          · rw [if_neg h4, if_pos h]
            exact ⟨by simp, fun _ _ _ _ => rfl, fun hn => absurd rfl hn⟩
  refine ⟨hv.1, hv.2.1, hv.2.2, ?_⟩
  have hsame : (⟨0, s.Name, s.Latitude, s.Longitude, s.Receiver, s.Amount, s.Params⟩ :
      Sensor).Validate = s.Validate := rfl
  unfold NewSensor
  simp only
  rw [hsame]
  cases hval : s.Validate with
  | none => exact absurd hval hv.1
  | some msg => rfl

theorem empty_amount_is_rejected_witness :
    ({ sampleSensor with Amount := [] } : Sensor).Validate
      = some "amount is required and must be positive" :=
  (empty_amount_is_rejected { sampleSensor with Amount := [] } rfl).2.1
    (by decide) (by decide) (by decide) (by decide)

/-- C22, as stated, fails in two ways. The amount `-5` parses to a number that
is not positive, yet `Validate` accepts the sensor and `NewSensor` returns
it: only the empty amount is rejected. And a sensor with an empty amount and
an empty name is rejected with `name is required`, the error of the first
failing check. -/
theorem amount_counterexample :
    big.SetString negativeAmountSensor.Amount = some (-5) ∧
    negativeAmountSensor.Validate = none ∧
    NewSensor negativeAmountSensor.Name negativeAmountSensor.Latitude
        negativeAmountSensor.Longitude negativeAmountSensor.Receiver
        negativeAmountSensor.Amount negativeAmountSensor.Params
      = some { negativeAmountSensor with Id := 0 } ∧
    ({ sampleSensor with Name := [], Amount := [] } : Sensor).Validate
      = some "name is required" := by
  decide

/-- C27 at its failing input. A stored sensor one of whose intervals has `min`
more than one above `max` (both of moderate size): `Validate` does not look
at the bounds, so it accepts the sensor if it accepts it with any other
bounds; the length `max-min+1` is negative, `make` panics in
`calculateConfidenceInterval`, and `Execute` panics on the stored sensor when
it reaches that entry. -/
theorem sampling_panics_on_inverted_interval (env : usecase.Env) (id : ObjectID)
    (draws : List Float64) (sensor : Sensor) (key : GoString) (p : Param)
    (rest : List (GoString × Param))
    (hfind : env.FindSensorById id = some sensor)
    (hparams : sensor.Params = (key, p) :: rest)
    (hmin : -2 ^ 62 ≤ p.Min ∧ p.Min ≤ 2 ^ 62) (hmax : -2 ^ 62 ≤ p.Max ∧ p.Max ≤ 2 ^ 62)
    (hinv : p.Max + 1 < p.Min) :
    (∀ q : Param, ({ sensor with Params := (key, q) :: rest } : Sensor).Validate
      = sensor.Validate) ∧
    sampling.wrapInt (sampling.wrapInt (p.Max - p.Min) + 1) = p.Max - p.Min + 1 ∧
    sampling.calculateConfidenceInterval env.MeanStdDev env.Sqrt p.Min p.Max p.Factor
      = Except.error Panic.makeslice ∧
    usecase.Execute env id draws = usecase.Outcome.panicked Panic.makeslice := by
  have hblind : ∀ q : Param, ({ sensor with Params := (key, q) :: rest } : Sensor).Validate
      = sensor.Validate := by
    intro q
    unfold Sensor.Validate
    simp only [hparams, List.length_cons]
  have hw : sampling.wrapInt (sampling.wrapInt (p.Max - p.Min) + 1) = p.Max - p.Min + 1 := by
    unfold sampling.wrapInt
    omega
  have hc : sampling.calculateConfidenceInterval env.MeanStdDev env.Sqrt p.Min p.Max p.Factor
      = Except.error Panic.makeslice := by
    unfold sampling.calculateConfidenceInterval
    simp only [hw]
    rw [if_pos (Or.inl (by omega))]
  refine ⟨hblind, hw, hc, ?_⟩
  have hg : usecase.generate env ((key, p) :: rest) draws
      = Except.error Panic.makeslice := by
    rw [usecase.generate, sampling.GenerateValue]
    simp only [hc]
    rfl
  unfold usecase.Execute
  simp only [hfind, hparams, hg]

theorem sampling_panics_on_inverted_interval_witness :
    invertedSensor.Validate = none ∧
    usecase.Execute invertedEnv 1 [] = usecase.Outcome.panicked Panic.makeslice :=
  ⟨by decide,
   (sampling_panics_on_inverted_interval invertedEnv 1 [] invertedSensor
      (str "temperature") { Min := 10, Max := 5, Factor := 2 } [] rfl rfl
      (by norm_num) (by norm_num) (by norm_num)).2.2.2⟩

end simulator

namespace workerpool

/-- C23 at its failing run, on a pool of one worker. The goroutine of the
first `Start` has passed `Wait` and closed its channel when `Stop` returns and
`Start` is called again; it then takes the mutex and sets the state to idle
although the worker of the second `Start` is alive. A third `Start` succeeds
on the idle pool, and two workers are alive in a pool whose `workerCount` is
one. -/
theorem stale_closer_sets_idle_over_live_workers :
    (run (World.fresh testProcessFunc ⟨1⟩) staleCloserSchedule).map
      (fun w => (w.pool.state, w.crashed, w.live.length, w.pool.workerCount))
      = some (State.StateIdle, false, 1, 1) ∧
    (run (World.fresh testProcessFunc ⟨1⟩) (staleCloserSchedule ++ [Action.start])).map
      (fun w => (w.pool.state, w.crashed, w.live.length, w.pool.workerCount))
      = some (State.StateRunning, false, 2, 1) := by
  constructor <;> rfl

end workerpool

namespace relayer

open usecase mongodb entity

/-- C24 at its failing input. `Stop` has closed `txChan`, the queue is
drained and the settlement goroutine has not returned yet: when its `select`
takes the `txChan` case, the receive yields a nil pointer and line 301
dereferences it. -/
theorem settlement_takes_nil_from_closed_queue
    (unmarshal : GoString → Option CreateRewardInputDTO) (p : Pipeline)
    (hpanic : p.panic = none) (hstage : Stage.settlement ∈ p.stages)
    (hclosed : p.svc.txChan.closed = true) (hempty : p.svc.txChan.buf = []) :
    step unmarshal p Action.settle = some { p with panic := some Panic.nilDereference } := by
  unfold step
  simp only [hpanic, hstage, ne_eq, not_true_eq_false, false_or, if_false]
  unfold settle
  simp only [hempty, hclosed, if_true]

theorem settlement_takes_nil_from_closed_queue_witness :
    run sampleUnmarshal (created sampleService)
        [Action.serve, Action.stop, Action.stopStep 0, Action.stopStep 0, Action.stopStep 0]
      = some drainingPipeline ∧
    step sampleUnmarshal drainingPipeline Action.settle
      = some { drainingPipeline with panic := some Panic.nilDereference } :=
  ⟨by decide!,
   settlement_takes_nil_from_closed_queue sampleUnmarshal drainingPipeline (by decide!)
     (by decide!) (by decide!) (by decide!)⟩

/-- The conversion `int64(nonce)` from `2^63` on. -/
theorem toInt64_large (n : Nat) (hlow : 2 ^ 63 ≤ n) (hhigh : n < 2 ^ 64) :
    toInt64 n = (n : Int) - 2 ^ 64 := by
  have h1 : n % 2 ^ 64 = n := Nat.mod_eq_of_lt hhigh
  unfold toInt64
  rw [h1, if_neg (by omega)]

/-- C25 at its failing input. For a pending nonce `n` from `2^63` on, the
nonce `mintReward` puts into the options of its `Mint` call is `n - 2^64`, a
negative number, not `n`. -/
theorem nonce_conversion_wraps (s : Service) (reward : CreateRewardOutputDTO) (amount : Int)
    (haccept : s.ethClient.Accepting)
    (hamt : big.SetString reward.Amount = some amount)
    (hlow : 2 ^ 63 ≤ s.ethClient.pending) (hhigh : s.ethClient.pending < 2 ^ 64) :
    (mintReward s reward).2.ethClient.mints = s.ethClient.mints ++
      [{ token := s.token
         opts := { s.txOpts with Nonce := some ((s.ethClient.pending : Int) - 2 ^ 64) }
         receiver := common.HexToAddress reward.Receiver
         amount := amount }] ∧
    (s.ethClient.pending : Int) - 2 ^ 64 < 0 := by
  obtain ⟨c1, hb, ha1, hp1, hm1⟩ := NewRewardToken_accepting s.ethClient haccept
  obtain ⟨c2, hn, ha2, hp2, hm2⟩ := PendingNonceAt_accepting c1 ha1
  obtain ⟨txHash, c3, hm, ha3, hp3, hm3⟩ := Mint_accepting c2
    { token := s.token
      opts := { s.txOpts with Nonce := some ((s.ethClient.pending : Int) - 2 ^ 64) }
      receiver := common.HexToAddress reward.Receiver
      amount := amount } ha2
  have hmod : c1.pending % 2 ^ 64 = s.ethClient.pending := by
    rw [hp1]
    exact Nat.mod_eq_of_lt hhigh
  have hnonce : toInt64 (c1.pending % 2 ^ 64) = (s.ethClient.pending : Int) - 2 ^ 64 := by
    rw [hmod]
    exact toInt64_large _ hlow hhigh
  constructor
  · unfold mintReward
    simp only [hb, hamt, hn, hnonce, hm]
    rw [hm3, hm2, hm1]
  · omega

theorem nonce_conversion_wraps_witness :
    (mintReward highNonceService sampleOutput).2.ethClient.mints.map
      (fun call => call.opts.Nonce) = [some (-9223372036854775808)] :=
  (congrArg (fun mints => mints.map (fun call => call.opts.Nonce))
    (nonce_conversion_wraps highNonceService sampleOutput 100 (by decide) (by decide)
      (by decide) (by decide)).1).trans (by decide)

end relayer

namespace strings

/-! ## Properties of the string functions -/

theorem HasPrefix_iff (s pre : GoString) : HasPrefix s pre = true ↔ ∃ u, s = pre ++ u := by
  induction pre generalizing s with
  | nil =>
      cases s <;> simp [HasPrefix]
  | cons d pre ih =>
      cases s with
      | nil => simp [HasPrefix]
      | cons c s =>
          simp only [HasPrefix, Bool.and_eq_true, decide_eq_true_eq, ih, List.cons_append,
            List.cons.injEq]
          constructor
          · rintro ⟨hc, u, hu⟩
            exact ⟨u, hc, hu⟩
          · rintro ⟨u, hc, hu⟩
            exact ⟨hc, u, hu⟩

theorem HasSuffix_iff (s suffix : GoString) :
    HasSuffix s suffix = true ↔ ∃ u, s = u ++ suffix := by
  unfold HasSuffix
  rw [HasPrefix_iff]
  constructor
  · rintro ⟨u, hu⟩
    refine ⟨u.reverse, ?_⟩
    have := congrArg List.reverse hu
    simpa using this
  · rintro ⟨u, hu⟩
    refine ⟨u.reverse, ?_⟩
    rw [hu]
    simp

theorem length_TrimPrefix (s pre : GoString) : (TrimPrefix s pre).length ≤ s.length := by
  unfold TrimPrefix
  split
  · rw [List.length_drop]
    omega
  · exact le_refl _

theorem TrimPrefix_of_false (s pre : GoString) (h : HasPrefix s pre = false) :
    TrimPrefix s pre = s := by
  unfold TrimPrefix
  rw [if_neg (by rw [h]; decide)]

theorem TrimPrefix_append (pre body : GoString) : TrimPrefix (pre ++ body) pre = body := by
  unfold TrimPrefix
  rw [if_pos ((HasPrefix_iff _ _).mpr ⟨body, rfl⟩)]
  simp

/-- A string starts with white space exactly when one of the encodings is a
prefix of it, and the width is then the length of such an encoding. -/
theorem leadingSpace_eq_zero (s : GoString) :
    leadingSpace s = 0 ↔ ∀ e ∈ whiteSpace, HasPrefix s e = false := by
  unfold leadingSpace
  cases hf : whiteSpace.find? (fun e => HasPrefix s e) with
  | none =>
      simp only [true_iff]
      intro e he
      have := List.find?_eq_none.mp hf e he
      simpa using this
  | some e =>
      have hmem := List.mem_of_find?_eq_some hf
      have hp := List.find?_some hf
      simp only
      constructor
      · intro hlen
        have hne : e ≠ [] := by
          intro h0
          rw [h0] at hmem
          revert hmem
          decide
        exact absurd (List.length_eq_zero.mp hlen) hne
      · intro hall
        rw [hall e hmem] at hp
        cases hp

theorem leadingSpace_pos (s : GoString) (h : leadingSpace s ≠ 0) :
    ∃ e ∈ whiteSpace, e ≠ [] ∧ leadingSpace s = e.length ∧ ∃ u, s = e ++ u := by
  unfold leadingSpace at h ⊢
  cases hf : whiteSpace.find? (fun e => HasPrefix s e) with
  | none =>
      rw [hf] at h
      exact absurd rfl h
  | some e =>
      have hmem := List.mem_of_find?_eq_some hf
      have hp := List.find?_some hf
      refine ⟨e, hmem, ?_, rfl, (HasPrefix_iff s e).mp hp⟩
      intro h0
      rw [h0] at hmem
      revert hmem
      decide

theorem trailingSpace_eq_zero (s : GoString) :
    trailingSpace s = 0 ↔ ∀ e ∈ whiteSpace, HasSuffix s e = false := by
  unfold trailingSpace
  cases hf : whiteSpace.find? (fun e => HasSuffix s e) with
  | none =>
      simp only [true_iff]
      intro e he
      have := List.find?_eq_none.mp hf e he
      simpa using this
  | some e =>
      have hmem := List.mem_of_find?_eq_some hf
      have hp := List.find?_some hf
      simp only
      constructor
      · intro hlen
        have hne : e ≠ [] := by
          intro h0
          rw [h0] at hmem
          revert hmem
          decide
        exact absurd (List.length_eq_zero.mp hlen) hne
      · intro hall
        rw [hall e hmem] at hp
        cases hp

theorem trailingSpace_pos (s : GoString) (h : trailingSpace s ≠ 0) :
    ∃ e ∈ whiteSpace, e ≠ [] ∧ trailingSpace s = e.length ∧ ∃ u, s = u ++ e := by
  unfold trailingSpace at h ⊢
  cases hf : whiteSpace.find? (fun e => HasSuffix s e) with
  | none =>
      rw [hf] at h
      exact absurd rfl h
  | some e =>
      have hmem := List.mem_of_find?_eq_some hf
      have hp := List.find?_some hf
      refine ⟨e, hmem, ?_, rfl, (HasSuffix_iff s e).mp hp⟩
      intro h0
      rw [h0] at hmem
      revert hmem
      decide

/-- A part of a string that starts where the string starts begins with white
space only if the string does. -/
theorem leadingSpace_of_append (t u : GoString) (h : leadingSpace (t ++ u) = 0) :
    leadingSpace t = 0 := by
  rw [leadingSpace_eq_zero] at h ⊢
  intro e he
  cases hp : HasPrefix t e with
  | false => rfl
  | true =>
      obtain ⟨v, hv⟩ := (HasPrefix_iff t e).mp hp
      have : HasPrefix (t ++ u) e = true :=
        (HasPrefix_iff _ _).mpr ⟨v ++ u, by rw [hv, List.append_assoc]⟩
      rw [h e he] at this
      cases this

theorem trimLeft_of_zero (fuel : Nat) (s : GoString) (h : leadingSpace s = 0) :
    trimLeft fuel s = s := by
  cases fuel with
  | zero => rfl
  | succ fuel =>
      unfold trimLeft
      rw [if_pos h]

theorem trimRight_of_zero (fuel : Nat) (s : GoString) (h : trailingSpace s = 0) :
    trimRight fuel s = s := by
  cases fuel with
  | zero => rfl
  | succ fuel =>
      unfold trimRight
      rw [if_pos h]

/-- `trimLeft` with enough fuel: what is left is the end of the string and
starts with no white space. -/
theorem trimLeft_spec (fuel : Nat) (s : GoString) (hfuel : s.length ≤ fuel) :
    leadingSpace (trimLeft fuel s) = 0 ∧ ∃ u, s = u ++ trimLeft fuel s := by
  induction fuel generalizing s with
  | zero =>
      have : s = [] := List.length_eq_zero.mp (by omega)
      subst this
      exact ⟨by decide, [], rfl⟩
  | succ fuel ih =>
      unfold trimLeft
      by_cases h0 : leadingSpace s = 0
      · rw [if_pos h0]
        exact ⟨h0, [], rfl⟩
      · rw [if_neg h0]
        obtain ⟨e, _, hne, hlen, u, hu⟩ := leadingSpace_pos s h0
        have hpos : 0 < e.length := List.length_pos.mpr hne
        have hdrop : s.drop (leadingSpace s) = u := by
          rw [hlen, hu]
          simp
        rw [hdrop]
        have hul : u.length ≤ fuel := by
          have := congrArg List.length hu
          simp only [List.length_append] at this
          omega
        obtain ⟨h1, v, hv⟩ := ih u hul
        refine ⟨h1, e ++ v, ?_⟩
        rw [hu, List.append_assoc, ← hv]

/-- `trimRight` with enough fuel: what is left is the start of the string and
ends with no white space. -/
theorem trimRight_spec (fuel : Nat) (s : GoString) (hfuel : s.length ≤ fuel) :
    trailingSpace (trimRight fuel s) = 0 ∧ ∃ u, s = trimRight fuel s ++ u := by
  induction fuel generalizing s with
  | zero =>
      have : s = [] := List.length_eq_zero.mp (by omega)
      subst this
      exact ⟨by decide, [], rfl⟩
  | succ fuel ih =>
      unfold trimRight
      by_cases h0 : trailingSpace s = 0
      · rw [if_pos h0]
        exact ⟨h0, [], by simp⟩
      · rw [if_neg h0]
        obtain ⟨e, _, hne, hlen, u, hu⟩ := trailingSpace_pos s h0
        have hpos : 0 < e.length := List.length_pos.mpr hne
        have htake : s.take (s.length - trailingSpace s) = u := by
          rw [hlen, hu]
          simp
        rw [htake]
        have hul : u.length ≤ fuel := by
          have := congrArg List.length hu
          simp only [List.length_append] at this
          omega
        obtain ⟨h1, v, hv⟩ := ih u hul
        refine ⟨h1, v ++ e, ?_⟩
        rw [hu, ← List.append_assoc, ← hv]

/-- `TrimSpace` leaves the middle of the string, without white space at
either end. -/
theorem TrimSpace_spec (s : GoString) :
    leadingSpace (TrimSpace s) = 0 ∧ trailingSpace (TrimSpace s) = 0 ∧
    ∃ u v, s = u ++ TrimSpace s ++ v := by
  obtain ⟨hl, u, hu⟩ := trimLeft_spec s.length s (le_refl _)
  obtain ⟨hr, v, hv⟩ := trimRight_spec (trimLeft s.length s).length (trimLeft s.length s)
    (le_refl _)
  unfold TrimSpace
  refine ⟨?_, hr, u, v, ?_⟩
  · rw [hv] at hl
    exact leadingSpace_of_append _ _ hl
  · rw [List.append_assoc, ← hv, ← hu]

theorem length_TrimSpace (s : GoString) : (TrimSpace s).length ≤ s.length := by
  obtain ⟨_, _, u, v, h⟩ := TrimSpace_spec s
  have := congrArg List.length h
  simp only [List.length_append] at this
  omega

theorem TrimSpace_of_trimmed (s : GoString) (hl : leadingSpace s = 0)
    (hr : trailingSpace s = 0) : TrimSpace s = s := by
  unfold TrimSpace
  rw [trimLeft_of_zero _ _ hl, trimRight_of_zero _ _ hr]

theorem TrimSpace_idempotent (s : GoString) : TrimSpace (TrimSpace s) = TrimSpace s :=
  TrimSpace_of_trimmed _ (TrimSpace_spec s).1 (TrimSpace_spec s).2.1

/-- What `trimLeft` removes is a run of white-space runes. -/
theorem trimLeft_blank (fuel : Nat) (s : GoString) (hfuel : s.length ≤ fuel) :
    ∃ us : List GoString, (∀ e ∈ us, e ∈ whiteSpace) ∧ s = us.flatten ++ trimLeft fuel s := by
  induction fuel generalizing s with
  | zero =>
      have : s = [] := List.length_eq_zero.mp (by omega)
      subst this
      exact ⟨[], fun e he => absurd he (List.not_mem_nil e), rfl⟩
  | succ fuel ih =>
      unfold trimLeft
      by_cases h0 : leadingSpace s = 0
      · rw [if_pos h0]
        exact ⟨[], fun e he => absurd he (List.not_mem_nil e), rfl⟩
      · rw [if_neg h0]
        obtain ⟨e, he, hne, hlen, u, hu⟩ := leadingSpace_pos s h0
        have hpos : 0 < e.length := List.length_pos.mpr hne
        have hdrop : s.drop (leadingSpace s) = u := by
          rw [hlen, hu]
          simp
        rw [hdrop]
        have hul : u.length ≤ fuel := by
          have := congrArg List.length hu
          simp only [List.length_append] at this
          omega
        obtain ⟨us, hus, hv⟩ := ih u hul
        refine ⟨e :: us, ?_, ?_⟩
        · intro x hx
          rcases List.mem_cons.mp hx with hx | hx
          · rw [hx]; exact he
          · exact hus x hx
        · rw [List.flatten_cons, List.append_assoc, ← hv]
          exact hu

/-- What `trimRight` removes is a run of white-space runes. -/
theorem trimRight_blank (fuel : Nat) (s : GoString) (hfuel : s.length ≤ fuel) :
    ∃ vs : List GoString, (∀ e ∈ vs, e ∈ whiteSpace) ∧ s = trimRight fuel s ++ vs.flatten := by
  induction fuel generalizing s with
  | zero =>
      have : s = [] := List.length_eq_zero.mp (by omega)
      subst this
      exact ⟨[], fun e he => absurd he (List.not_mem_nil e), rfl⟩
  | succ fuel ih =>
      unfold trimRight
      by_cases h0 : trailingSpace s = 0
      · rw [if_pos h0]
        exact ⟨[], fun e he => absurd he (List.not_mem_nil e), by simp⟩
      · rw [if_neg h0]
        obtain ⟨e, he, hne, hlen, u, hu⟩ := trailingSpace_pos s h0
        have hpos : 0 < e.length := List.length_pos.mpr hne
        have htake : s.take (s.length - trailingSpace s) = u := by
          rw [hlen, hu]
          simp
        rw [htake]
        have hul : u.length ≤ fuel := by
          have := congrArg List.length hu
          simp only [List.length_append] at this
          omega
        obtain ⟨vs, hvs, hv⟩ := ih u hul
        refine ⟨vs ++ [e], ?_, ?_⟩
        · intro x hx
          rcases List.mem_append.mp hx with hx | hx
          · exact hvs x hx
          · rw [List.mem_singleton.mp hx]; exact he
        · rw [List.flatten_append, List.flatten_cons, List.flatten_nil, List.append_nil,
            ← List.append_assoc, ← hv]
          exact hu

/-- `TrimSpace` removes a run of white-space runes at the start and one at the
end, and nothing else: the string is the first run, the result, the second
run. -/
theorem TrimSpace_blank (s : GoString) :
    ∃ us vs : List GoString, (∀ e ∈ us, e ∈ whiteSpace) ∧ (∀ e ∈ vs, e ∈ whiteSpace) ∧
      s = us.flatten ++ TrimSpace s ++ vs.flatten := by
  obtain ⟨us, hus, hu⟩ := trimLeft_blank s.length s (le_refl _)
  obtain ⟨vs, hvs, hv⟩ := trimRight_blank (trimLeft s.length s).length (trimLeft s.length s)
    (le_refl _)
  refine ⟨us, vs, hus, hvs, ?_⟩
  unfold TrimSpace
  rw [List.append_assoc, ← hv]
  exact hu

/-- A trimmed string starts with no white-space rune and ends with none. -/
theorem TrimSpace_no_space (s : GoString) :
    (∀ e ∈ whiteSpace, ¬ e <+: TrimSpace s) ∧ (∀ e ∈ whiteSpace, ¬ e <:+ TrimSpace s) := by
  obtain ⟨hl, hr, _⟩ := TrimSpace_spec s
  rw [leadingSpace_eq_zero] at hl
  rw [trailingSpace_eq_zero] at hr
  constructor
  · intro e he hpre
    obtain ⟨u, hu⟩ := hpre
    have : HasPrefix (TrimSpace s) e = true := (HasPrefix_iff _ _).mpr ⟨u, hu.symm⟩
    rw [hl e he] at this
    cases this
  · intro e he hsuf
    obtain ⟨u, hu⟩ := hsuf
    have : HasSuffix (TrimSpace s) e = true := (HasSuffix_iff _ _).mpr ⟨u, hu.symm⟩
    rw [hr e he] at this
    cases this

end strings

namespace hex

theorem fromHexChar_none (c : Nat) (h : common.isHexCharacter c = false) :
    common.fromHexChar c = none := by
  unfold common.isHexCharacter at h
  simp only [decide_eq_false_iff_not, not_or, not_and, not_le] at h
  unfold common.fromHexChar
  rw [if_neg (by omega), if_neg (by omega), if_neg (by omega)]

/-- `DecodeString` succeeds only on an even number of hex digits, and gives
one byte for every two of them. -/
theorem DecodeString_some (n : Nat) (s : GoString) (b : List Nat) (hn : s.length ≤ n)
    (h : DecodeString s = some b) :
    s.length = 2 * b.length ∧ ∀ c ∈ s, common.isHexCharacter c = true := by
  induction n generalizing s b with
  | zero =>
      have hs : s = [] := List.length_eq_zero.mp (by omega)
      subst hs
      simp only [DecodeString, Option.some.injEq] at h
      subst h
      exact ⟨rfl, fun c hc => by cases hc⟩
  | succ n ih =>
      match s, h, hn with
      | [], h, _ =>
          simp only [DecodeString, Option.some.injEq] at h
          subst h
          exact ⟨rfl, fun c hc => by cases hc⟩
      | [_], h, _ => simp [DecodeString] at h
      | x :: y :: rest, h, hn =>
          unfold DecodeString at h
          cases hx : common.fromHexChar x with
          | none => simp [hx] at h
          | some vx =>
              cases hy : common.fromHexChar y with
              | none => simp [hx, hy] at h
              | some vy =>
                  simp only [hx, hy, Option.map_eq_some'] at h
                  obtain ⟨bytes, hb, hbytes⟩ := h
                  simp only [List.length_cons] at hn
                  obtain ⟨h1, h2⟩ := ih rest bytes (by omega) hb
                  subst hbytes
                  refine ⟨by simp only [List.length_cons]; omega, ?_⟩
                  intro c hc
                  have hhex : ∀ d v, common.fromHexChar d = some v →
                      common.isHexCharacter d = true := by
                    intro d v hd
                    cases hi : common.isHexCharacter d with
                    | true => rfl
                    | false =>
                        rw [fromHexChar_none d hi] at hd
                        cases hd
                  rcases List.mem_cons.mp hc with hc | hc
                  · rw [hc]
                    exact hhex x vx hx
                  · rcases List.mem_cons.mp hc with hc | hc
                    · rw [hc]
                      exact hhex y vy hy
                    · exact h2 c hc

end hex

namespace configs

open strings

/-- C28, amended. A string `ToAddressFromString` accepts has at least three
bytes and starts with `0x` or `0X`; what follows is an even number of hex
digits, which decode to bytes `b`, and the address is `BytesToAddress(b)`:
`b` itself when there are 20 bytes, `b` after leading zero bytes when there
are fewer, and the last 20 bytes of `b` when there are more. A string without
the prefix, or shorter than three bytes, is rejected as an invalid address; a
string with an odd number of digits or a non-hex digit after the prefix is
rejected. -/
theorem ToAddressFromString_spec (s : GoString) :
    (∀ a, ToAddressFromString s = Except.ok a →
      3 ≤ s.length ∧
      (HasPrefix s (str "0x") = true ∨ HasPrefix s (str "0X") = true) ∧
      ∃ b, hex.DecodeString (s.drop 2) = some b ∧ (s.drop 2).length = 2 * b.length ∧
        a = common.BytesToAddress b ∧
        (b.length = 20 → a.bytes = b) ∧
        (b.length < 20 → a.bytes = List.replicate (20 - b.length) 0 ++ b) ∧
        (20 < b.length → a.bytes = b.drop (b.length - 20))) ∧
    (HasPrefix s (str "0x") = false → HasPrefix s (str "0X") = false →
      ToAddressFromString s = Except.error (ParseError.invalidAddress s)) ∧
    (s.length < 3 → ToAddressFromString s = Except.error (ParseError.invalidAddress s)) ∧
    ((s.drop 2).length % 2 = 1 → ∃ err, ToAddressFromString s = Except.error err) ∧
    ((∃ c ∈ s.drop 2, common.isHexCharacter c = false) →
      ∃ err, ToAddressFromString s = Except.error err) := by
  have hbad : hex.DecodeString (s.drop 2) = none →
      ∃ err, ToAddressFromString s = Except.error err := by
    intro hnone
    unfold ToAddressFromString
    split
    · exact ⟨_, rfl⟩
    · rw [hnone]
      exact ⟨_, rfl⟩
  refine ⟨?_, ?_, ?_, ?_, ?_⟩
  · intro a ha
    unfold ToAddressFromString at ha
    split at ha
    · cases ha
    · rename_i hguard
      simp only [not_or, not_lt, not_and] at hguard
      obtain ⟨hlen, hpre⟩ := hguard
      cases hdec : hex.DecodeString (s.drop 2) with
      | none =>
          rw [hdec] at ha
          cases ha
      | some b =>
          rw [hdec] at ha
          simp only [Except.ok.injEq] at ha
          have hprefix : HasPrefix s (str "0x") = true ∨ HasPrefix s (str "0X") = true := by
            cases hx : HasPrefix s (str "0x") with
            | true => exact Or.inl rfl
            | false =>
                right
                cases hX : HasPrefix s (str "0X") with
                | true => rfl
                | false => exact absurd hX (hpre hx)
          refine ⟨hlen, hprefix, b, rfl,
            (hex.DecodeString_some _ _ _ (le_refl _) hdec).1, ha.symm, ?_, ?_, ?_⟩
          · intro h20
            rw [← ha]
            simp [common.BytesToAddress, common.lastBytes, common.AddressLength, h20]
          · intro h20
            rw [← ha]
            have : ¬ b.length > 20 := by omega
            simp [common.BytesToAddress, common.lastBytes, common.AddressLength, this]
          · intro h20
            rw [← ha]
            have : b.length > 20 := h20
            have hl : (b.drop (b.length - 20)).length = 20 := by
              rw [List.length_drop]
              omega
            simp [common.BytesToAddress, common.lastBytes, common.AddressLength, this, hl]
  · intro hx hX
    unfold ToAddressFromString
    rw [if_pos (Or.inr ⟨hx, hX⟩)]
  · intro hlen
    unfold ToAddressFromString
    rw [if_pos (Or.inl hlen)]
  · intro hodd
    apply hbad
    cases hdec : hex.DecodeString (s.drop 2) with
    | none => rfl
    | some b =>
        have := (hex.DecodeString_some _ _ _ (le_refl _) hdec).1
        omega
  · rintro ⟨c, hc, hnot⟩
    apply hbad
    cases hdec : hex.DecodeString (s.drop 2) with
    | none => rfl
    | some b =>
        have := (hex.DecodeString_some _ _ _ (le_refl _) hdec).2 c hc
        rw [hnot] at this
        cases this

/-- C28, as stated, fails. `0x01` is accepted: its two digits decode to the
single byte 1, and the address returned is that byte after 19 zero bytes.
And 42 digits are accepted too: they decode to 21 bytes, of which the address
keeps the last 20. -/
theorem ToAddressFromString_counterexample :
    ToAddressFromString (str "0x01") = Except.ok (common.BytesToAddress [1]) ∧
    hex.DecodeString (str "01") = some [1] ∧
    (common.BytesToAddress [1]).bytes = List.replicate 19 0 ++ [1] ∧
    ToAddressFromString (str "0xff0000000000000000000000000000000000000022")
      = Except.ok (common.BytesToAddress (255 :: List.replicate 19 0 ++ [34])) ∧
    (common.BytesToAddress (255 :: List.replicate 19 0 ++ [34])).bytes
      = List.replicate 19 0 ++ [34] := by
  refine ⟨rfl, by decide, by decide, rfl, by decide⟩

end configs

namespace strings

theorem HasPrefix_nil (s : GoString) : HasPrefix s [] = true := by
  cases s <;> rfl

theorem Split_ne_nil (s : GoString) (sep : Nat) : Split s sep ≠ [] := by
  cases s with
  | nil => simp [Split]
  | cons c cs =>
      unfold Split
      split <;> simp

theorem Split_cons_head (s : GoString) (sep : Nat) :
    Split s sep = (Split s sep).headD [] :: (Split s sep).tail := by
  cases h : Split s sep with
  | nil => exact absurd h (Split_ne_nil s sep)
  | cons p ps => rfl

/-- The parts of `Split`, joined by the separator, are the string, and no part
contains the separator. -/
theorem Split_spec (s : GoString) (sep : Nat) :
    [sep].intercalate (Split s sep) = s ∧ ∀ p ∈ Split s sep, sep ∉ p := by
  induction s with
  | nil =>
      simp [Split, List.intercalate]
  | cons c cs ih =>
      obtain ⟨hjoin, hparts⟩ := ih
      rw [Split_cons_head cs sep] at hjoin hparts
      unfold Split
      by_cases hc : c = sep
      · rw [if_pos hc, Split_cons_head cs sep]
        constructor
        · simp only [List.intercalate, List.intersperse] at hjoin ⊢
          simp only [List.flatten_cons, List.nil_append, List.singleton_append]
          rw [hjoin, hc]
        · intro p hp
          rcases List.mem_cons.mp hp with hp | hp
          · rw [hp]
            simp
          · exact hparts p hp
      · rw [if_neg hc]
        constructor
        · cases htail : (Split cs sep).tail with
          | nil =>
              rw [htail] at hjoin
              simp only [List.intercalate, List.intersperse, List.flatten_cons,
                List.flatten_nil, List.append_nil] at hjoin ⊢
              rw [hjoin]
          | cons q qs =>
              rw [htail] at hjoin
              simp only [List.intercalate, List.intersperse, List.flatten_cons,
                List.cons_append] at hjoin ⊢
              rw [hjoin]
        · intro p hp
          rcases List.mem_cons.mp hp with hp | hp
          · rw [hp]
            intro hmem
            rcases List.mem_cons.mp hmem with h1 | h1
            · exact hc h1.symm
            · exact hparts _ (List.mem_cons_self _ _) h1
          · exact hparts p (List.mem_cons_of_mem _ hp)

theorem Split_append (e rest : GoString) (sep : Nat) (h : ∀ c ∈ e, c ≠ sep) :
    Split (e ++ rest) sep
      = (e ++ (Split rest sep).headD []) :: (Split rest sep).tail := by
  induction e with
  | nil =>
      simp only [List.nil_append]
      exact Split_cons_head rest sep
  | cons c e ih =>
      have hc : c ≠ sep := h c (List.mem_cons_self _ _)
      have := ih (fun d hd => h d (List.mem_cons_of_mem _ hd))
      simp only [List.cons_append]
      rw [Split, if_neg hc, this]
      rfl

/-- An encoding of a white-space rune at the start of a string is the white
space the string starts with. -/
theorem leadingSpace_append :
    ∀ e ∈ whiteSpace, ∀ rest : GoString, leadingSpace (e ++ rest) = e.length := by
  simp only [whiteSpace, List.forall_mem_cons, List.not_mem_nil, false_imp_iff,
    implies_true, and_true]
  refine ⟨?_, ?_, ?_, ?_, ?_, ?_, ?_, ?_, ?_, ?_, ?_, ?_, ?_, ?_, ?_, ?_, ?_, ?_, ?_, ?_,
    ?_, ?_, ?_, ?_, ?_⟩ <;> intro rest <;>
    simp [leadingSpace, whiteSpace, List.find?, HasPrefix, HasPrefix_nil]

theorem whiteSpace_no_comma : ∀ e ∈ whiteSpace, ∀ c ∈ e, c ≠ 44 := by
  decide

/-- A string made of white-space runes only is trimmed to nothing. -/
theorem TrimSpace_join (es : List GoString) (h : ∀ e ∈ es, e ∈ whiteSpace) :
    TrimSpace es.flatten = [] := by
  have hleft : ∀ (es : List GoString) (fuel : Nat), (∀ e ∈ es, e ∈ whiteSpace) →
      es.flatten.length ≤ fuel → trimLeft fuel es.flatten = [] := by
    intro es
    induction es with
    | nil =>
        intro fuel _ _
        cases fuel <;> rfl
    | cons e es ih =>
        intro fuel hes hfuel
        have he : e ∈ whiteSpace := hes e (List.mem_cons_self _ _)
        have hlen := leadingSpace_append e he es.flatten
        have hne : e ≠ [] := by
          intro h0
          rw [h0] at he
          revert he
          decide
        have hpos : 0 < e.length := List.length_pos.mpr hne
        simp only [List.flatten_cons, List.length_append] at hfuel ⊢
        cases fuel with
        | zero => omega
        | succ fuel =>
            unfold trimLeft
            rw [hlen, if_neg (by omega)]
            simp only [List.drop_left]
            exact ih fuel (fun x hx => hes x (List.mem_cons_of_mem _ hx)) (by omega)
  unfold TrimSpace
  rw [hleft es _ h (le_refl _)]
  rfl

end strings

namespace configs

open strings

theorem foldl_parts (f : GoString → GoString) (parts : List GoString) (acc : List GoString) :
    parts.foldl (fun result part => if f part = [] then result else result ++ [f part]) acc
      = acc ++ (parts.map f).filter (fun p => decide (p ≠ [])) := by
  induction parts generalizing acc with
  | nil => simp
  | cons p ps ih =>
      simp only [List.foldl_cons, List.map_cons]
      by_cases h : f p = []
      · rw [if_pos h, ih, List.filter_cons_of_neg (by simp [h])]
      · rw [if_neg h, ih, List.filter_cons_of_pos (by simp [h])]
        simp

/-- The parts of a string made of commas and white-space runes are made of
white-space runes. -/
theorem Split_of_blank (pieces : List GoString)
    (h : ∀ p ∈ pieces, p = [44] ∨ p ∈ whiteSpace) :
    ∀ part ∈ Split pieces.flatten 44, ∃ es : List GoString,
      part = es.flatten ∧ ∀ e ∈ es, e ∈ whiteSpace := by
  induction pieces with
  | nil =>
      intro part hpart
      simp only [List.flatten_nil, Split, List.mem_singleton] at hpart
      exact ⟨[], by rw [hpart]; rfl, fun e he => by cases he⟩
  | cons p ps ih =>
      have ih' := ih (fun q hq => h q (List.mem_cons_of_mem _ hq))
      rw [Split_cons_head ps.flatten 44] at ih'
      intro part hpart
      simp only [List.flatten_cons] at hpart
      rcases h p (List.mem_cons_self _ _) with hp | hp
      · rw [hp] at hpart
        simp only [List.singleton_append, Split, if_true] at hpart
        rcases List.mem_cons.mp hpart with h1 | h1
        · exact ⟨[], by rw [h1]; rfl, fun e he => by cases he⟩
        · change part ∈ Split ps.flatten 44 at h1
          rw [Split_cons_head ps.flatten 44] at h1
          exact ih' part h1
      · rw [Split_append p ps.flatten 44 (whiteSpace_no_comma p hp)] at hpart
        rcases List.mem_cons.mp hpart with h1 | h1
        · obtain ⟨es, hes, hall⟩ := ih' _ (List.mem_cons_self _ _)
          refine ⟨p :: es, ?_, ?_⟩
          · rw [h1, hes]
            rfl
          · intro e he
            rcases List.mem_cons.mp he with h2 | h2
            · rw [h2]
              exact hp
            · exact hall e h2
        · exact ih' part (List.mem_cons_of_mem _ h1)

/-- C29. `ToSliceStringFromString` never fails. Its result is the list of the
comma-separated parts of the input (joined by commas they give the input back,
and none contains a comma), each trimmed, without those that are empty after
trimming, in their order. Trimmed means: the part is a run of white-space
runes, then the trimmed part, then a run of white-space runes, and the
trimmed part neither starts nor ends with a white-space rune. No element of
the result is empty or starts or ends with white space, and an input made of
commas and white-space runes only gives the empty list. Two inputs are
evaluated: `a, b ,c` gives `a`, `b`, `c`, and an input with a tab, a
no-break space, a thin space, a line feed and two empty parts gives `a b`
and `c`. -/
theorem ToSliceStringFromString_spec (s : GoString) :
    ToSliceStringFromString s
      = Except.ok (((Split s 44).map TrimSpace).filter (fun p => decide (p ≠ []))) ∧
    ([44].intercalate (Split s 44) = s ∧ ∀ p ∈ Split s 44, 44 ∉ p) ∧
    (∀ p ∈ Split s 44,
      (∃ us vs : List GoString, (∀ e ∈ us, e ∈ whiteSpace) ∧ (∀ e ∈ vs, e ∈ whiteSpace) ∧
        p = us.flatten ++ TrimSpace p ++ vs.flatten) ∧
      (∀ e ∈ whiteSpace, ¬ e <+: TrimSpace p) ∧ (∀ e ∈ whiteSpace, ¬ e <:+ TrimSpace p)) ∧
    (∀ e ∈ ((Split s 44).map TrimSpace).filter (fun p => decide (p ≠ [])),
      e ≠ [] ∧ leadingSpace e = 0 ∧ trailingSpace e = 0) ∧
    (∀ pieces : List GoString, s = pieces.flatten →
      (∀ p ∈ pieces, p = [44] ∨ p ∈ whiteSpace) →
      ToSliceStringFromString s = Except.ok []) ∧
    ToSliceStringFromString (str "a, b ,c") = Except.ok [str "a", str "b", str "c"] ∧
    ToSliceStringFromString [32, 97, 32, 98, 9, 44, 44, 194, 160, 99, 226, 128, 137, 44, 10]
      = Except.ok [[97, 32, 98], [99]] := by
  have hform : ToSliceStringFromString s
      = Except.ok (((Split s 44).map TrimSpace).filter (fun p => decide (p ≠ []))) := by
    unfold ToSliceStringFromString
    rw [foldl_parts TrimSpace (Split s 44) []]
    rfl
  refine ⟨hform, Split_spec s 44, fun p _ => ⟨TrimSpace_blank p, TrimSpace_no_space p⟩,
    ?_, ?_, rfl, rfl⟩
  · intro e he
    obtain ⟨hmem, hne⟩ := List.mem_filter.mp he
    obtain ⟨p, _, hp⟩ := List.mem_map.mp hmem
    refine ⟨by simpa using hne, ?_, ?_⟩
    · rw [← hp]
      exact (TrimSpace_spec p).1
    · rw [← hp]
      exact (TrimSpace_spec p).2.1
  · intro pieces hs hpieces
    rw [hform]
    congr 1
    rw [List.filter_eq_nil_iff]
    intro e he
    obtain ⟨p, hp, hpe⟩ := List.mem_map.mp he
    rw [hs] at hp
    obtain ⟨es, hes, hall⟩ := Split_of_blank pieces hpieces p hp
    rw [← hpe, hes, TrimSpace_join es hall]
    simp

end configs

namespace ethutil

open strings

/-- C30, amended. `TrimHex(s)` never starts or ends with white space. It is a
fixed point of `TrimHex` exactly when it starts with neither `0x` nor `0X`:
the prefixes are removed before the white space and once each, so a prefix
can be left over. For a string made of nothing, `0x` or `0X`, followed by a
body that starts with neither white space nor a prefix, the result is the
body trimmed, starts with no prefix and is a fixed point. -/
theorem TrimHex_spec (s : GoString) :
    leadingSpace (TrimHex s) = 0 ∧ trailingSpace (TrimHex s) = 0 ∧
    (TrimHex (TrimHex s) = TrimHex s ↔
      (HasPrefix (TrimHex s) (str "0x") = false ∧
       HasPrefix (TrimHex s) (str "0X") = false)) ∧
    (∀ body : GoString, leadingSpace body = 0 →
      HasPrefix body (str "0x") = false → HasPrefix body (str "0X") = false →
      (s = body ∨ s = str "0x" ++ body ∨ s = str "0X" ++ body) →
      TrimHex s = TrimSpace body ∧
      HasPrefix (TrimHex s) (str "0x") = false ∧
      HasPrefix (TrimHex s) (str "0X") = false) := by
  have hspec : ∀ t : GoString, leadingSpace (TrimHex t) = 0 ∧ trailingSpace (TrimHex t) = 0 :=
    fun t => ⟨(TrimSpace_spec _).1, (TrimSpace_spec _).2.1⟩
  have hlen : ∀ t : GoString, (TrimHex t).length ≤ t.length := by
    intro t
    unfold TrimHex
    have h1 := length_TrimSpace (TrimPrefix (TrimPrefix t (str "0x")) (str "0X"))
    have h2 := length_TrimPrefix (TrimPrefix t (str "0x")) (str "0X")
    have h3 := length_TrimPrefix t (str "0x")
    omega
  have hshort : ∀ (t pre : GoString), pre.length = 2 → HasPrefix t pre = true →
      (t.drop 2).length < t.length := by
    intro t pre hpre hp
    obtain ⟨u, hu⟩ := (HasPrefix_iff t pre).mp hp
    rw [hu]
    simp only [List.length_drop, List.length_append]
    omega
  refine ⟨(hspec s).1, (hspec s).2, ?_, ?_⟩
  · constructor
    · intro hfix
      by_contra hcon
      have hlt : (TrimHex (TrimHex s)).length < (TrimHex s).length := by
        unfold TrimHex at hcon ⊢
        generalize TrimSpace (TrimPrefix (TrimPrefix s (str "0x")) (str "0X")) = t at hcon ⊢
        cases hx : HasPrefix t (str "0x") with
        | true =>
            have h1 : TrimPrefix t (str "0x") = t.drop 2 := by
              unfold TrimPrefix
              rw [if_pos hx]
              rfl
            have h2 := length_TrimSpace (TrimPrefix (t.drop 2) (str "0X"))
            have h3 := length_TrimPrefix (t.drop 2) (str "0X")
            have h4 := hshort t (str "0x") rfl hx
            rw [h1]
            omega
        | false =>
            cases hX : HasPrefix t (str "0X") with
            | true =>
                have h1 : TrimPrefix t (str "0x") = t := TrimPrefix_of_false _ _ hx
                have h2 : TrimPrefix t (str "0X") = t.drop 2 := by
                  unfold TrimPrefix
                  rw [if_pos hX]
                  rfl
                have h3 := length_TrimSpace (t.drop 2)
                have h4 := hshort t (str "0X") rfl hX
                rw [h1, h2]
                omega
            | false => exact absurd ⟨hx, hX⟩ hcon
      rw [hfix] at hlt
      exact lt_irrefl _ hlt
    · rintro ⟨hx, hX⟩
      have h1 : TrimHex (TrimHex s)
          = TrimSpace (TrimPrefix (TrimPrefix (TrimHex s) (str "0x")) (str "0X")) := rfl
      rw [h1, TrimPrefix_of_false _ _ hx, TrimPrefix_of_false _ _ hX]
      exact TrimSpace_of_trimmed _ (hspec s).1 (hspec s).2
  · intro body hlead hx hX hs
    have hbody : TrimHex s = TrimSpace body := by
      unfold TrimHex
      rcases hs with hs | hs | hs
      · rw [hs, TrimPrefix_of_false _ _ hx, TrimPrefix_of_false _ _ hX]
      · rw [hs, TrimPrefix_append, TrimPrefix_of_false _ _ hX]
      · have hno : HasPrefix (str "0X" ++ body) (str "0x") = false := rfl
        rw [hs, TrimPrefix_of_false _ _ hno, TrimPrefix_append]
    have htl : TrimSpace body = trimRight body.length body := by
      unfold TrimSpace
      rw [trimLeft_of_zero _ _ hlead]
    obtain ⟨_, v, huv⟩ := trimRight_spec body.length body (le_refl _)
    rw [← htl] at huv
    have hno : ∀ pre : GoString, HasPrefix body pre = false →
        HasPrefix (TrimSpace body) pre = false := by
      intro pre hpre
      cases hp : HasPrefix (TrimSpace body) pre with
      | false => rfl
      | true =>
          obtain ⟨r, hr⟩ := (HasPrefix_iff _ _).mp hp
          have : HasPrefix body pre = true :=
            (HasPrefix_iff _ _).mpr ⟨r ++ v, by
              rw [← List.append_assoc, ← hr]
              exact huv⟩
          rw [hpre] at this
          cases this
    rw [hbody]
    exact ⟨rfl, hno _ hx, hno _ hX⟩

theorem TrimHex_spec_witness :
    TrimHex (str "0x12ab \n") = strings.TrimSpace (str "12ab \n") ∧
    strings.HasPrefix (TrimHex (str "0x12ab \n")) (str "0x") = false ∧
    strings.HasPrefix (TrimHex (str "0x12ab \n")) (str "0X") = false :=
  (TrimHex_spec (str "0x12ab \n")).2.2.2 (str "12ab \n") (by decide) (by decide) (by decide)
    (Or.inr (Or.inl (by decide)))

/-- C30, as stated, fails. White space before the prefix protects it:
`TrimHex` of ` 0x12` is `0x12`, which starts with `0x`, and a second `TrimHex`
gives `12`, so the function is not idempotent. A doubled prefix is removed
only once: `TrimHex` of `0x0x12` is `0x12`, and of `0X0x12` too. -/
theorem TrimHex_counterexample :
    TrimHex (str " 0x12") = str "0x12" ∧
    TrimHex (TrimHex (str " 0x12")) = str "12" ∧
    TrimHex (str "0x0x12") = str "0x12" ∧
    TrimHex (str "0X0x12") = str "0x12" ∧
    strings.HasPrefix (TrimHex (str " 0x12")) (str "0x") = true := by
  decide

end ethutil
